import Mathlib

/-!
# Lab 7: the HTTP server and the mdb-lookup server

A shallow embedding of `lab7_solutions/part2/http-server.c`,
`lab7_solutions/part1/mdb-lookup-server.c` and, for the format of the database
file, `lab4_solutions/part1/mdb-add.c`, and theorems about them.

Conventions of the embedding

* A byte is a natural number; a C string is the list of its bytes without the
  terminating NUL.  `cstr buf` reads the C string held in a buffer whose
  contents are `buf` (the bytes before the first NUL).
* A stream (`FILE *` opened for reading) is the list of bytes not yet read; end
  of file is the empty list.  A read error is not distinguished from end of
  file.
* A stream opened for writing is the list of bytes written so far, together
  with a flag telling whether writes succeed.  A failed write adds nothing.
* Loops whose C condition depends on a stream run on fuel; every top-level
  function supplies fuel that is proved sufficient, and running out of fuel is
  the error `Err.fuel`.  An access outside an object (undefined behaviour in C)
  is the error `Err.oob`.
* The counters `recNo` and `row` (`int` in the source) are natural numbers; they
  agree with the source below 2^31 records or rows.
* Diagnostics on `stderr` (`perror`, the access log) are not modelled, nor is
  failure of `malloc` or `fclose`.  The handlers of one client are modelled on
  streams that are open; failure of `accept`, `fork`, `inet_ntop` and `fdopen`
  is modelled in the accept loops (`accept_loop`, `handle_client_fd`).
* In the statements about the HTTP server the request line is the line as
  `fgets` stores it in `request_buf` (the first 1023 bytes of the line when it
  is longer), read as a C string, and its tokens are the non-empty pieces
  between the separators of `strtok`.
-/

namespace Labs

/-- A byte of a C string, a file or a socket stream. -/
abbrev Byte := Nat

/-- The bytes of an ASCII string literal of the source. -/
def bytes (s : String) : List Byte := s.toList.map Char.toNat

/-- The C string held in a buffer: the bytes before the first NUL. -/
def cstr (buf : List Byte) : List Byte := buf.takeWhile (fun c => c != 0)

/-- Ways in which the embedding of a C function yields no result. -/
inductive Err where
  | fuel
  | oob
  deriving DecidableEq, Repr

/-- Reads at most `k` bytes from the stream, stopping after a newline: the
copying loop of `fgets`. -/
def fgetsAux : Nat → List Byte → List Byte × List Byte
  | 0, s => ([], s)
  | _ + 1, [] => ([], [])
  | k + 1, c :: s =>
    if c = 10 then ([c], s)
    else ((c :: (fgetsAux k s).1), (fgetsAux k s).2)

/-- The libc call `fgets(buf, size, stream)`: `none` is the NULL returned at end of file,
otherwise the bytes stored in `buf` (at most `size - 1`, up to and including the
first newline) and the rest of the stream. -/
def fgets (size : Nat) (stream : List Byte) : Option (List Byte × List Byte) :=
  match stream with
  | [] => none
  | _ :: _ => some (fgetsAux (size - 1) stream)

/-- Membership of a byte in the separator set of `strtok`. -/
def isSep (seps : List Byte) (c : Byte) : Bool := seps.contains c

/-- One call of `strtok` on the text that is left: leading separators are
skipped; at the end of the text the result is NULL (`none`); otherwise the token
runs up to the next separator, which is overwritten, and the text left starts
after it. -/
def strtok (seps : List Byte) (s : List Byte) : Option (List Byte) × List Byte :=
  match s.dropWhile (isSep seps) with
  | [] => (none, [])
  | c :: t =>
    (some ((c :: t).takeWhile (fun x => !isSep seps x)),
     ((c :: t).dropWhile (fun x => !isSep seps x)).drop 1)

/-- The tokens of a line: the non-empty pieces between separators. -/
def tokens (seps : List Byte) (s : List Byte) : List (List Byte) :=
  (s.splitOnP (isSep seps)).filter (fun t => t ≠ [])

/-- Decimal digits of a number, as `printf("%d")` prints a non-negative int. -/
def fmt_d (n : Nat) : List Byte := (Nat.toDigits 10 n).map Char.toNat

namespace HttpServer

/-- Maximum line length for request and headers. -/
def MAX_LINE_LENGTH : Nat := 1024

/-- Size of buffer for reading and sending files. -/
def DISK_IO_BUF_SIZE : Nat := 4096

/-- The constant of `linux/limits.h`. -/
def PATH_MAX : Nat := 4096

/-- What a path names in the file system, as `stat` and `fopen` see it. -/
inductive FsNode where
  | absent
  | dir
  | file (contents : List Byte)
  deriving DecidableEq, Repr

/-- Calls recorded while a request is handled: entry into one of the two
request handlers, and the file-system calls of the static handler. -/
inductive Event where
  | call_mdb (request_uri : List Byte)
  | call_file (web_root request_uri : List Byte)
  | stat (path : List Byte)
  | fopen (path : List Byte)
  deriving DecidableEq, Repr

/-- The streams the server works on while it handles one client: the client
socket (`clnt_r`, `clnt_w`), the connection to mdb-lookup-server (`mdb_w`,
`mdb_r`), and the record of calls made. -/
structure World where
  clnt_r : List Byte
  clnt_w : List Byte
  clnt_ok : Bool
  mdb_w : List Byte
  mdb_ok : Bool
  mdb_r : List Byte
  trace : List Event
  deriving DecidableEq, Repr

/-- A write to the client (`fprintf`/`fwrite` on `clnt_w`): the flag is false
when the call reports failure. -/
def World.send (w : World) (data : List Byte) : Bool × World :=
  if w.clnt_ok then (true, { w with clnt_w := w.clnt_w ++ data }) else (false, w)

/-- A write to mdb-lookup-server (`fprintf` on `mdb_w`). -/
def World.mdb_send (w : World) (data : List Byte) : Bool × World :=
  if w.mdb_ok then (true, { w with mdb_w := w.mdb_w ++ data }) else (false, w)

/-- Appends an event to the record of calls. -/
def World.log (w : World) (e : Event) : World :=
  { w with trace := w.trace ++ [e] }

/-- HTTP/1.0 status codes and the corresponding reason phrases. -/
def http_status_codes : List (Nat × String) :=
  [ (200, "OK"),
    (201, "Created"),
    (202, "Accepted"),
    (204, "No Content"),
    (301, "Moved Permanently"),
    (302, "Moved Temporarily"),
    (304, "Not Modified"),
    (400, "Bad Request"),
    (401, "Unauthorized"),
    (403, "Forbidden"),
    (404, "Not Found"),
    (500, "Internal Server Error"),
    (501, "Not Implemented"),
    (502, "Bad Gateway"),
    (503, "Service Unavailable") ]

/-- Looks the status code up in the table. -/
def get_reason_phrase (status_code : Nat) : String :=
  match http_status_codes.find? (fun e => e.1 == status_code) with
  | some e => e.2
  | none => "Unknown Status Code"

/-- Send HTTP status line. -/
def send_status_line (w : World) (status_code : Nat) : Bool × World :=
  w.send (bytes "HTTP/1.0 " ++ fmt_d status_code ++ bytes " "
    ++ bytes (get_reason_phrase status_code) ++ bytes "\r\n")

/-- Send blank line. -/
def send_blank_line (w : World) : Bool × World :=
  w.send (bytes "\r\n")

/-- Send a generic HTTP response for error statuses (400+). -/
def send_error_status (w : World) (status_code : Nat) : Bool × World :=
  let r1 := send_status_line w status_code
  if r1.1 = false then (false, r1.2)
  else
    let r2 := send_blank_line r1.2
    if r2.1 = false then (false, r2.2)
    else
      r2.2.send (bytes "<html><body>\n<h1>" ++ fmt_d status_code ++ bytes " "
        ++ bytes (get_reason_phrase status_code) ++ bytes "</h1>\n</body></html>\n")

/-- Send 301 status: redirect the browser to request_uri with a slash appended
to it. -/
def send301 (request_uri : List Byte) (w : World) : Bool × World :=
  let r1 := send_status_line w 301
  if r1.1 = false then (false, r1.2)
  else
    r1.2.send (bytes "Location: " ++ request_uri ++ bytes "/\r\n"
      ++ bytes "\r\n"
      ++ bytes "<html><body>\n"
      ++ bytes "<h1>301 Moved Permanently</h1>\n"
      ++ bytes "<p>The document has moved "
      ++ bytes "<a href=\"" ++ request_uri ++ bytes "/\">here</a>.</p>\n"
      ++ bytes "</body></html>\n")

/-- The loop of `handle_file_request` that reads the file a block at a time
and sends each block; `rest` is the part of the file not yet read. -/
def send_file : Nat → List Byte → World → Except Err World
  | 0, _, _ => .error .fuel
  | fuel + 1, rest, w =>
    let blk := rest.take DISK_IO_BUF_SIZE
    if blk.length = 0 then .ok w
    else
      let r := w.send blk
      if r.1 = false then .ok r.2
      else send_file fuel (rest.drop DISK_IO_BUF_SIZE) r.2

/-- Handle static file requests.  Returns the HTTP status code that was sent
to the browser. -/
def handle_file_request (fs : List Byte → FsNode) (web_root request_uri : List Byte)
    (w : World) : Except Err (Nat × World) :=
  if web_root.length + request_uri.length + 12 > PATH_MAX then
    .ok (404, (send_error_status w 404).2)
  else
    let file_path := web_root ++ request_uri
    if file_path.length = 0 then .error .oob
    else
      let file_path :=
        if file_path.getLast? = some 47 then file_path ++ bytes "index.html" else file_path
      let w := w.log (.stat file_path)
      if fs file_path = .dir then
        .ok (301, (send301 request_uri w).2)
      else
        let w := w.log (.fopen file_path)
        match fs file_path with
        | .file contents =>
          let r1 := send_status_line w 200
          if r1.1 = false then .ok (200, r1.2)
          else
            let r2 := send_blank_line r1.2
            if r2.1 = false then .ok (200, r2.2)
            else
              match send_file (contents.length + 1) contents r2.2 with
              | .ok w2 => .ok (200, w2)
              | .error e => .error e
        | _ => .ok (404, (send_error_status w 404).2)

/-- The libc call `strcpy(dest, src)` into a buffer of `size` bytes: the string
and its terminating NUL are written; a write past the end of the buffer is
`Err.oob`.  The result is the string the buffer holds. -/
def strcpy (size : Nat) (src : List Byte) : Except Err (List Byte) :=
  if src.length + 1 ≤ size then .ok src else .error .oob

/-- The libc call `strcat(dest, src)` on a buffer of `size` bytes that holds the
string `dest`: `src` and the terminating NUL are written behind it; a write
past the end of the buffer is `Err.oob`. -/
def strcat (size : Nat) (dest src : List Byte) : Except Err (List Byte) :=
  if dest.length + src.length + 1 ≤ size then .ok (dest ++ src) else .error .oob

/-- The statements of `handle_file_request` that construct the path of the
requested file in the buffer `file_path` of `PATH_MAX` bytes, behind the guard
on the lengths: the web root is copied, the URI is appended, and "index.html"
is appended when the last character is a slash. -/
def file_path (web_root request_uri : List Byte) : Except Err (List Byte) :=
  match strcpy PATH_MAX web_root with
  | .error e => .error e
  | .ok p =>
    match strcat PATH_MAX p request_uri with
    | .error e => .error e
    | .ok p =>
      if p.length = 0 then .error .oob
      else if p.getLast? = some 47 then strcat PATH_MAX p (bytes "index.html")
      else .ok p

/-- The static form and the fixed pieces of the page of `handle_mdb_request`. -/
def form : List Byte :=
  bytes "<html><body>\n"
    ++ bytes "<h1>mdb-lookup</h1>\n"
    ++ bytes "<p>\n"
    ++ bytes "<form method=GET action=/mdb-lookup>\n"
    ++ bytes "lookup: <input type=text name=key>\n"
    ++ bytes "<input type=submit>\n"
    ++ bytes "</form>\n"
    ++ bytes "<p>\n"

def table_header : List Byte := bytes "<p><table border>\n"

def table_row : List Byte := bytes "<tr><td>\n"

def table_row_alt : List Byte := bytes "<tr><td bgcolor=yellow>\n"

def table_footer : List Byte := bytes "</table>\n"

def form_end : List Byte := bytes "</body></html>\n"

def key_uri : List Byte := bytes "/mdb-lookup?key="

/-- The loop of `handle_mdb_request` that reads lines from mdb-lookup-server
and sends them to the client as table rows.  The flag of the result is true
when the loop leaves through `close_table`, false when it leaves through
`out`. -/
def mdb_rows : Nat → Nat → World → Except Err (Bool × World)
  | 0, _, _ => .error .fuel
  | fuel + 1, row, w =>
    match fgets 128 w.mdb_r with
    | none => .ok (true, w)
    | some (line, rest) =>
      let w := { w with mdb_r := rest }
      if cstr line = bytes "\n" then .ok (true, w)
      else
        let r := w.send ((if row % 2 = 1 then table_row else table_row_alt) ++ cstr line)
        if r.1 = false then .ok (false, r.2)
        else mdb_rows fuel (row + 1) r.2

/-- Handle mdb-lookup requests.  Returns the HTTP status code. -/
def handle_mdb_request (request_uri : List Byte) (w : World) : Except Err (Nat × World) :=
  if request_uri.take key_uri.length ≠ key_uri then
    let r1 := send_status_line w 200
    if r1.1 = false then .ok (200, r1.2)
    else
      let r2 := send_blank_line r1.2
      if r2.1 = false then .ok (200, r2.2)
      else .ok (200, (r2.2.send (form ++ form_end)).2)
  else
    let key := request_uri.drop key_uri.length
    let r0 := w.mdb_send (key ++ bytes "\n")
    if r0.1 = false then .ok (500, (send_error_status r0.2 500).2)
    else
      let r1 := send_status_line r0.2 200
      if r1.1 = false then .ok (200, r1.2)
      else
        let r2 := send_blank_line r1.2
        if r2.1 = false then .ok (200, r2.2)
        else
          let r3 := r2.2.send (form ++ table_header)
          if r3.1 = false then .ok (200, r3.2)
          else
            match mdb_rows (r3.2.mdb_r.length + 1) 1 r3.2 with
            | .error e => .error e
            | .ok (false, w4) => .ok (200, w4)
            | .ok (true, w4) => .ok (200, (w4.send (table_footer ++ form_end)).2)

/-- The separators of the request line: tab, space, new line. -/
def token_separators : List Byte := bytes "\t \r\n"

/-- The loop of `handle_client` that skips the HTTP headers.  The flag of the
result is true when an empty line was read, false when the stream ended
first; the list is the part of the stream left unread. -/
def skip_headers : Nat → List Byte → Except Err (Bool × List Byte)
  | 0, _ => .error .fuel
  | fuel + 1, stream =>
    match fgets MAX_LINE_LENGTH stream with
    | none => .ok (false, stream)
    | some (line_buf, rest) =>
      if cstr line_buf = bytes "\r\n" ∨ cstr line_buf = bytes "\n" then .ok (true, rest)
      else skip_headers fuel rest

/-- The guard of `handle_client` on the request URI: true when the URI has at
least three bytes and ends with "/.." or contains "/../". -/
def traversal (request_uri : List Byte) : Bool :=
  decide (request_uri.length ≥ 3) &&
    (decide (request_uri.drop (request_uri.length - 3) = bytes "/..")
      || decide (bytes "/../" <:+: request_uri))

/-- Handles one client connection; returns the status code that is logged. -/
def handle_client (fs : List Byte → FsNode) (web_root : List Byte) (w : World) :
    Except Err (Nat × World) :=
  match fgets MAX_LINE_LENGTH w.clnt_r with
  | none => .ok (400, w)
  | some (request_buf, rest) =>
    let w := { w with clnt_r := rest }
    let t1 := strtok token_separators (cstr request_buf)
    let t2 := strtok token_separators t1.2
    let t3 := strtok token_separators t2.2
    let t4 := strtok token_separators t3.2
    match t1.1, t2.1, t3.1, t4.1 with
    | some method, some request_uri, some http_version, none =>
      if method ≠ bytes "GET" then
        .ok (501, (send_error_status w 501).2)
      else if http_version ≠ bytes "HTTP/1.0" ∧ http_version ≠ bytes "HTTP/1.1" then
        .ok (501, (send_error_status w 501).2)
      else if request_uri.head? ≠ some 47 then
        .ok (400, (send_error_status w 400).2)
      else if traversal request_uri then
        .ok (400, (send_error_status w 400).2)
      else
        match skip_headers (w.clnt_r.length + 1) w.clnt_r with
        | .error e => .error e
        | .ok (false, left) => .ok (400, { w with clnt_r := left })
        | .ok (true, left) =>
          let w := { w with clnt_r := left }
          if request_uri = bytes "/mdb-lookup"
              ∨ request_uri.take 12 = bytes "/mdb-lookup?" then
            handle_mdb_request request_uri (w.log (.call_mdb request_uri))
          else
            handle_file_request fs web_root request_uri
              (w.log (.call_file web_root request_uri))
    | _, _, _, _ => .ok (501, (send_error_status w 501).2)

/-- What one turn of the accept loop meets: whether `accept`, `inet_ntop` and
the two `fdopen` calls succeed, what the client sends, and whether the writes
to the client and to mdb-lookup-server succeed while this client is handled. -/
structure Conn where
  accept_ok : Bool
  ntop_ok : Bool
  fdopen_r_ok : Bool
  fdopen_w_ok : Bool
  clnt_r : List Byte
  clnt_ok : Bool
  mdb_ok : Bool
  deriving DecidableEq, Repr

/-- The state of the server between two clients: the connection to
mdb-lookup-server, which all clients share, the record of calls, and, for each
client handled so far, the status code logged and the bytes sent. -/
structure Server where
  mdb_w : List Byte
  mdb_r : List Byte
  trace : List Event
  served : List (Nat × List Byte)
  deriving DecidableEq, Repr

/-- The streams at the start of `handle_client` for the client `c`. -/
def Server.world (s : Server) (c : Conn) : World :=
  { clnt_r := c.clnt_r, clnt_w := [], clnt_ok := c.clnt_ok, mdb_w := s.mdb_w,
    mdb_ok := c.mdb_ok, mdb_r := s.mdb_r, trace := s.trace }

/-- The function `handle_client` from its first statement: the two calls of
`fdopen`, each followed by `die` when it fails, and then the handling of the
request (`handle_client` above, which starts at the request line).  The result
is `none` when the process has exited through `die`. -/
def handle_client_fd (fs : List Byte → FsNode) (web_root : List Byte)
    (fdopen_r_ok fdopen_w_ok : Bool) (w : World) : Except Err (Option (Nat × World)) :=
  if fdopen_r_ok = false then .ok none
  else if fdopen_w_ok = false then .ok none
  else
    match handle_client fs web_root w with
    | .error e => .error e
    | .ok r => .ok (some r)

/-- The `accept` loop of `main`, run on the connection attempts `conns`.  The
first component of the result is the exit status when the process has exited
(`die` exits with 1), and `none` when the loop is still running, waiting in
`accept`, after the last of the attempts. -/
def accept_loop (fs : List Byte → FsNode) (web_root : List Byte) :
    List Conn → Server → Except Err (Option Nat × Server)
  | [], s => .ok (none, s)
  | c :: conns, s =>
    if c.accept_ok = false then .ok (some 1, s)
    else if c.ntop_ok = false then .ok (some 1, s)
    else
      match handle_client_fd fs web_root c.fdopen_r_ok c.fdopen_w_ok (s.world c) with
      | .error e => .error e
      | .ok none => .ok (some 1, s)
      | .ok (some (status_code, w)) =>
        accept_loop fs web_root conns
          { mdb_w := w.mdb_w, mdb_r := w.mdb_r, trace := w.trace,
            served := s.served ++ [(status_code, w.clnt_w)] }

end HttpServer

namespace MdbLookupServer

/-- Maximum length of a search key. -/
def KeyMax : Nat := 5

/-- The streams of one client connection of mdb-lookup-server. -/
structure World where
  clnt_r : List Byte
  clnt_w : List Byte
  clnt_ok : Bool
  deriving DecidableEq, Repr

/-- A write to the client (`fprintf`, `fputs` and `fflush` on `clnt_w`): the
flag is false when the write fails. -/
def World.send (w : World) (data : List Byte) : Bool × World :=
  if w.clnt_ok then (true, { w with clnt_w := w.clnt_w ++ data }) else (false, w)

/-- The C string that starts at offset `off` of an object in memory whose bytes
are `obj`, as `strstr` and `printf("%s")` read it.  When no NUL follows inside
the object the read leaves the object. -/
def cstr_at (obj : List Byte) (off : Nat) : Except Err (List Byte) :=
  if 0 ∈ obj.drop off then .ok (cstr (obj.drop off)) else .error .oob

/-- A number printed by `printf("%4d")`: right-justified in four columns. -/
def fmt_4d (n : Nat) : List Byte :=
  List.replicate (4 - (fmt_d n).length) 32 ++ fmt_d n

/-- Modelled from the spec: `struct MdbRec` of `mdb.h`, which is not in the
source tree, is a fixed-width pair of strings, the name in `name_size` bytes
followed by the message in `msg_size` bytes, back to back.  This is
`sizeof(struct MdbRec)`. -/
def sizeof_MdbRec (name_size msg_size : Nat) : Nat := name_size + msg_size

/-- Modelled from the spec: the offset of the field `name` in `struct MdbRec`
(`mdb.h` is not in the source tree; the name is the first field). -/
def name_offset : Nat := 0

/-- Modelled from the spec: the offset of the field `msg` in `struct MdbRec`
(`mdb.h` is not in the source tree; the message follows the name). -/
def msg_offset (name_size : Nat) : Nat := name_size

/-- Modelled from the spec: `addAfter` of the list library (`mylist.h`, which is
not in the source tree), called with the node added last, or with NULL on the
empty list: the new node is inserted behind that node, that is, at the end of
the list.  A list is the sequence of the data of its nodes, from the head. -/
def addAfter (list : List (List Byte)) (data : List Byte) : List (List Byte) :=
  list ++ [data]

/-- The loop of `handle_client` that reads all records into memory; `size` is
`sizeof(r)`, `file` the part of the database file not yet read and `list` the
list built so far.  Each node of the list holds the bytes of one record. -/
def load : Nat → Nat → List Byte → List (List Byte) → Except Err (List (List Byte))
  | 0, _, _, _ => .error .fuel
  | fuel + 1, size, file, list =>
    if 0 < size ∧ size ≤ file.length then
      load fuel size (file.drop size) (addAfter list (file.take size))
    else .ok list

/-- Clean up user input: the key is the first `KeyMax` bytes of the line, with
a newline at its end removed, and then a carriage return at its end
removed. -/
def clean_key (line : List Byte) : Except Err (List Byte) :=
  let key := (cstr line).take KeyMax
  if key.length = 0 then .error .oob
  else
    let key := if key.getLast? = some 10 then key.dropLast else key
    let key := if 0 < key.length ∧ key.getLast? = some 13 then key.dropLast else key
    .ok key

/-- The loop of `handle_client` that makes sure a newline was met by `fgets`:
it reads on while the buffer does not end with a newline.  The result is the
part of the stream left unread. -/
def drain : Nat → List Byte → List Byte → Except Err (List Byte)
  | 0, _, _ => .error .fuel
  | fuel + 1, line, stream =>
    if (cstr line).length = 0 then .error .oob
    else if (cstr line).getLast? = some 10 then .ok stream
    else
      match fgets 1024 stream with
      | none => .ok stream
      | some (line2, rest) => drain fuel line2 rest

/-- The loop of `handle_client` over the nodes of the list: a result line is
sent for each record whose name or message contains the key.  `name_size` is
the size of the name field.  The flag of the result is false when a write
failed (`goto clnt_out`). -/
def search (name_size : Nat) (key : List Byte) :
    List (List Byte) → Nat → World → Except Err (Bool × World)
  | [], _, w => .ok (true, w)
  | rec :: nodes, recNo, w =>
    match cstr_at rec name_offset, cstr_at rec (msg_offset name_size) with
    | .ok name, .ok msg =>
      if key <:+: name ∨ key <:+: msg then
        let r := w.send (fmt_4d recNo ++ bytes ": \x7b" ++ name ++ bytes "\x7d said \x7b"
          ++ msg ++ bytes "\x7d\n")
        if r.1 = false then .ok (false, r.2)
        else search name_size key nodes (recNo + 1) r.2
      else search name_size key nodes (recNo + 1) w
    | _, _ => .error .oob

/-- Perform search with key: the result lines, then the blank line that ends
the response.  The flag of the result is false when a write failed. -/
def respond (name_size : Nat) (key : List Byte) (list : List (List Byte)) (w : World) :
    Except Err (Bool × World) :=
  match search name_size key list 1 w with
  | .error e => .error e
  | .ok (false, w1) => .ok (false, w1)
  | .ok (true, w1) => .ok (w1.send (bytes "\n"))

/-- The query loop of `handle_client`: one line is read, the key is cleaned, the
rest of the line is drained, and the response is sent, until the client closes
the connection. -/
def query_loop (name_size : Nat) (list : List (List Byte)) : Nat → World → Except Err World
  | 0, _ => .error .fuel
  | fuel + 1, w =>
    match fgets 1024 w.clnt_r with
    | none => .ok w
    | some (line, rest) =>
      match clean_key line with
      | .error e => .error e
      | .ok key =>
        match drain (rest.length + 1) line rest with
        | .error e => .error e
        | .ok rest2 =>
          match respond name_size key list { w with clnt_r := rest2 } with
          | .error e => .error e
          | .ok (false, w2) => .ok w2
          | .ok (true, w2) => query_loop name_size list fuel w2

/-- Handles one client connection.  `name_size` and `msg_size` are the sizes of
the two fields of `struct MdbRec`, whose declaration (`mdb.h`) is not part of
the source tree; `mdb_file` is the contents of the database file, or `none`
when it cannot be opened. -/
def handle_client (name_size msg_size : Nat) (mdb_file : Option (List Byte)) (w : World) :
    Except Err World :=
  match mdb_file with
  | none => .ok w
  | some file =>
    match load (file.length + 1) (sizeof_MdbRec name_size msg_size) file [] with
    | .error e => .error e
    | .ok list => query_loop name_size list (w.clnt_r.length + 1) w

/-- What one turn of the accept loop meets: whether `accept` and `fork`
succeed and, for the child process, whether `inet_ntop` and the `fdopen` calls
succeed, the database file (`none` when it cannot be opened), what the client
sends, and whether the writes to the client succeed. -/
structure Conn where
  accept_ok : Bool
  fork_ok : Bool
  ntop_ok : Bool
  fdopen_ok : Bool
  mdb_file : Option (List Byte)
  clnt_r : List Byte
  clnt_ok : Bool
  deriving DecidableEq, Repr

/-- The function `handle_client` from its first statement: when a call of
`fdopen` fails it reports the error and returns; else it goes on to open the
database and serve the queries (`handle_client` above). -/
def handle_client_fd (name_size msg_size : Nat) (fdopen_ok : Bool)
    (mdb_file : Option (List Byte)) (w : World) : Except Err World :=
  if fdopen_ok = false then .ok w
  else handle_client name_size msg_size mdb_file w

/-- The child process of one turn of the accept loop: it dies with status 1
when `inet_ntop` fails, and else handles the client and exits with status 0.
The result is the exit status and the streams of the client. -/
def child (name_size msg_size : Nat) (c : Conn) : Except Err (Nat × World) :=
  if c.ntop_ok = false then
    .ok (1, { clnt_r := c.clnt_r, clnt_w := [], clnt_ok := c.clnt_ok })
  else
    match handle_client_fd name_size msg_size c.fdopen_ok c.mdb_file
        { clnt_r := c.clnt_r, clnt_w := [], clnt_ok := c.clnt_ok } with
    | .error e => .error e
    | .ok w => .ok (0, w)

/-- The `accept` loop of `main` in the parent process, run on the connection
attempts `conns`; `children` are the child processes forked so far, each given
by its run.  The first component of the result is the exit status when the
parent has exited (`die` exits with 1), and `none` when the loop is still
running, waiting in `accept`, after the last of the attempts. -/
def accept_loop (name_size msg_size : Nat) :
    List Conn → List (Except Err (Nat × World)) → Option Nat × List (Except Err (Nat × World))
  | [], children => (none, children)
  | c :: conns, children =>
    if c.accept_ok = false then (some 1, children)
    else if c.fork_ok = false then (some 1, children)
    else accept_loop name_size msg_size conns (children ++ [child name_size msg_size c])

end MdbLookupServer

namespace MdbAdd

/-- The standard streams and the database file of one run of mdb-add.  The file
is opened for appending and reading (`"a+b"`): `file` is its contents. -/
structure World where
  stdin : List Byte
  stdout : List Byte
  file : List Byte
  deriving DecidableEq, Repr

/-- A `printf` on the standard output. -/
def World.print (w : World) (data : List Byte) : World :=
  { w with stdout := w.stdout ++ data }

/-- The printable characters of the C locale (`isprint`): space to tilde. -/
def isprint (c : Byte) : Bool := decide (32 ≤ c) && decide (c ≤ 126)

/-- Replace the characters of the C string in `s` that are not printable by
spaces; the bytes from the terminator on are left as they are.  Without a
terminator the walk leaves the buffer. -/
def sanitize (s : List Byte) : Except Err (List Byte) :=
  if 0 ∈ s then
    .ok ((cstr s).map (fun c => if isprint c then c else 32) ++ s.drop (cstr s).length)
  else .error .oob

/-- The `n` bytes that `strncpy(dest, src, n)` writes: the first `n` bytes of
the C string in `src`, padded with NUL bytes when the string is shorter. -/
def strncpy (src : List Byte) (n : Nat) : List Byte :=
  (cstr src).take n ++ List.replicate (n - (cstr src).length) 0

/-- The statements of `main` that fill one field of the record (of `size`
bytes, `size` at least 1) from the line buffer; the source has them twice, for
`r.name` and for `r.msg`: copy with `strncpy`, terminate at the last index, and
remove the newline when it is the last character.  The index `strlen - 1` is
not valid when the string is empty. -/
def read_field (size : Nat) (line : List Byte) : Except Err (List Byte) :=
  let field := strncpy line (size - 1) ++ [0]
  let last := (cstr field).length - 1
  if (cstr field).length = 0 then .error .oob
  else if field.get? last = some 10 then .ok (field.set last 0)
  else .ok field

/-- Modelled from the spec: `loadmdb` of the database library (`mdb.h`, which is
not in the source tree) loads the records of the database file, from its
start, into a list, in file order, as the loading loop of mdb-lookup-server
does; `size` is the size of a record. -/
def loadmdb (size : Nat) (file : List Byte) : Except Err (List (List Byte)) :=
  MdbLookupServer.load (file.length + 1) size file []

/-- The program mdb-add, for a database file that can be opened and written:
it loads the database, reads the name and the message from the standard input,
appends the record, with its strings sanitized, to the file, and prints the
record as it was entered.  `name_size` and `msg_size` are the sizes of the two
fields of `struct MdbRec`.  The loop that reads on to the newline is the
statement of mdb-lookup-server (`MdbLookupServer.drain`).  The result is the
exit status and the final state. -/
def main (name_size msg_size : Nat) (w : World) : Except Err (Nat × World) :=
  match loadmdb (MdbLookupServer.sizeof_MdbRec name_size msg_size) w.file with
  | .error e => .error e
  | .ok list =>
    let recNo := list.length
    let w := w.print (bytes "name please (will truncate to " ++ fmt_d (name_size - 1)
      ++ bytes " chars): ")
    match fgets 1024 w.stdin with
    | none => .ok (1, w)
    | some (line, rest) =>
      match read_field name_size line with
      | .error e => .error e
      | .ok name =>
        match MdbLookupServer.drain (rest.length + 1) line rest with
        | .error e => .error e
        | .ok rest =>
          let w := { w with stdin := rest }
          let w := w.print (bytes "msg please (will truncate to " ++ fmt_d (msg_size - 1)
            ++ bytes " chars): ")
          match fgets 1024 w.stdin with
          | none => .ok (1, w)
          | some (line, rest) =>
            match read_field msg_size line with
            | .error e => .error e
            | .ok msg =>
              match MdbLookupServer.drain (rest.length + 1) line rest with
              | .error e => .error e
              | .ok rest =>
                let w := { w with stdin := rest }
                let recNo := recNo + 1
                match sanitize name, sanitize msg with
                | .ok sname, .ok smsg =>
                  let w := { w with file := w.file ++ (sname ++ smsg) }
                  .ok (0, w.print (MdbLookupServer.fmt_4d recNo ++ bytes ": \x7b" ++ cstr name
                    ++ bytes "\x7d said \x7b" ++ cstr msg ++ bytes "\x7d\n"))
                | _, _ => .error .oob

end MdbAdd

/-! ## Notions used to state the properties -/

/-- A line of a stream: it ends with a newline and has no other newline. -/
def IsLine (l : List Byte) : Prop := l.getLast? = some 10 ∧ 10 ∉ l.dropLast

instance (l : List Byte) : Decidable (IsLine l) := by unfold IsLine; infer_instance

/-- An empty line: just CR LF, or just LF. -/
def IsBlank (l : List Byte) : Prop := l = bytes "\r\n" ∨ l = bytes "\n"

instance (l : List Byte) : Decidable (IsBlank l) := by unfold IsBlank; infer_instance

namespace HttpServer

/-- The state in which a client is accepted: `input` is what the client sends,
`backend` what mdb-lookup-server will send; nothing has been written, and
writes succeed. -/
def World.init (input backend : List Byte) : World :=
  { clnt_r := input, clnt_w := [], clnt_ok := true, mdb_w := [], mdb_ok := true,
    mdb_r := backend, trace := [] }

/-- The response of `send_error_status` for a status code, as one byte string. -/
def error_page (status_code : Nat) : List Byte :=
  bytes "HTTP/1.0 " ++ fmt_d status_code ++ bytes " "
    ++ bytes (get_reason_phrase status_code) ++ bytes "\r\n"
    ++ bytes "\r\n"
    ++ bytes "<html><body>\n<h1>" ++ fmt_d status_code ++ bytes " "
    ++ bytes (get_reason_phrase status_code) ++ bytes "</h1>\n</body></html>\n"

/-- The path segments of a URI: the pieces between its slashes. -/
def segments (u : List Byte) : List (List Byte) := u.splitOn 47

/-- The path of the file a request asks for: web root and URI, with
`index.html` appended when the URI ends in a slash. -/
def candidate_path (web_root request_uri : List Byte) : List Byte :=
  web_root ++ request_uri
    ++ (if request_uri.getLast? = some 47 then bytes "index.html" else [])

/-- The rows of the result table: row `i`, counted from `first`, is the plain
row marker when `i` is odd and the yellow one when `i` is even, followed by the
line. -/
def table_rows (first : Nat) (lines : List (List Byte)) : List Byte :=
  ((lines.enumFrom first).map
    (fun p => (if p.1 % 2 = 1 then bytes "<tr><td>\n" else bytes "<tr><td bgcolor=yellow>\n")
      ++ p.2)).flatten

/-- The page of a keyed lookup whose result lines are `lines`: the 200 status
line, a blank line, the static form, the table header, the rows, the table
footer and the closing tags. -/
def lookup_page (lines : List (List Byte)) : List Byte :=
  bytes "HTTP/1.0 200 OK\r\n" ++ bytes "\r\n" ++ form ++ bytes "<p><table border>\n"
    ++ table_rows 1 lines ++ bytes "</table>\n" ++ bytes "</body></html>\n"

end HttpServer

namespace MdbLookupServer

/-- The state in which a client is accepted: `input` is what the client will
send; nothing has been written, and writes succeed. -/
def World.init (input : List Byte) : World :=
  { clnt_r := input, clnt_w := [], clnt_ok := true }

/-- The name of a record: the text of its first field, of `name_size` bytes. -/
def rec_name (name_size : Nat) (rec : List Byte) : List Byte :=
  cstr (rec.take name_size)

/-- The message of a record: the text of its second field, of `msg_size`
bytes. -/
def rec_msg (name_size msg_size : Nat) (rec : List Byte) : List Byte :=
  cstr ((rec.drop name_size).take msg_size)

/-- A record whose two fields each hold a NUL terminator. -/
def Terminated (name_size msg_size : Nat) (rec : List Byte) : Prop :=
  0 ∈ rec.take name_size ∧ 0 ∈ (rec.drop name_size).take msg_size

instance (name_size msg_size : Nat) (rec : List Byte) :
    Decidable (Terminated name_size msg_size rec) := by
  unfold Terminated; infer_instance

/-- The result line for the record at 1-based position `n`. -/
def result_line (n : Nat) (name msg : List Byte) : List Byte :=
  fmt_4d n ++ bytes ": \x7b" ++ name ++ bytes "\x7d said \x7b" ++ msg ++ bytes "\x7d\n"

/-- The result lines for a key, in store order: one line for each record whose
name or message contains the key; positions are counted from `first`. -/
def result_lines (name_size msg_size : Nat) (key : List Byte) (first : Nat)
    (store : List (List Byte)) : List Byte :=
  (((store.enumFrom first).filter
      (fun p => key <:+: rec_name name_size p.2 ∨ key <:+: rec_msg name_size msg_size p.2)).map
    (fun p => result_line p.1 (rec_name name_size p.2) (rec_msg name_size msg_size p.2))).flatten

/-- The response to one query: the result lines, then one blank line. -/
def response (name_size msg_size : Nat) (key : List Byte) (store : List (List Byte)) :
    List Byte :=
  result_lines name_size msg_size key 1 store ++ bytes "\n"

end MdbLookupServer

namespace MdbAdd

/-- A text with every byte that is not printable replaced by a space. -/
def blanked (s : List Byte) : List Byte := s.map (fun c => if isprint c then c else 32)

/-- The field of `size` bytes that holds a text: the text, then NUL bytes up to
the end of the field. -/
def field_of (size : Nat) (text : List Byte) : List Byte :=
  text ++ List.replicate (size - text.length) 0

end MdbAdd

/-! ## Lemmas on the libc models -/

theorem strtok_sep_cons (seps : List Byte) (c : Byte) (s : List Byte)
    (h : isSep seps c = true) : strtok seps (c :: s) = strtok seps s := by
  simp [strtok, List.dropWhile_cons, h]

theorem tokens_sep_cons (seps : List Byte) (c : Byte) (s : List Byte)
    (h : isSep seps c = true) : tokens seps (c :: s) = tokens seps s := by
  simp [tokens, List.splitOnP_cons, h]

theorem tokens_nil (seps : List Byte) : tokens seps [] = [] := by
  simp [tokens]

/-- The tokens of a text that starts with a byte that is no separator. -/
theorem tokens_word (seps : List Byte) (c : Byte) (s : List Byte)
    (h : isSep seps c = false) :
    tokens seps (c :: s) =
      (c :: s).takeWhile (fun x => !isSep seps x)
        :: tokens seps (((c :: s).dropWhile (fun x => !isSep seps x)).drop 1) := by
  have hsplit := List.takeWhile_append_dropWhile (fun x => !isSep seps x) (c :: s)
  have hword : ∀ x ∈ (c :: s).takeWhile (fun x => !isSep seps x), ¬ (isSep seps x = true) := by
    intro x hx
    have := List.mem_takeWhile_imp hx
    simpa using this
  have hne : (c :: s).takeWhile (fun x => !isSep seps x) ≠ [] := by
    simp [List.takeWhile_cons, h]
  cases hd : (c :: s).dropWhile (fun x => !isSep seps x) with
  | nil =>
    rw [hd, List.append_nil] at hsplit
    rw [hsplit] at hword ⊢
    simp only [tokens, List.drop_nil, List.splitOnP_nil]
    rw [List.splitOnP_eq_single _ _ hword]
    simp
  | cons x r =>
    have hx : isSep seps x = true := by
      have := List.head_dropWhile_not (fun x => !isSep seps x) (c :: s) (by rw [hd]; simp)
      simp only [hd, List.head_cons] at this
      simpa using this
    rw [hd] at hsplit
    conv_lhs => rw [← hsplit]
    simp only [tokens, List.drop_succ_cons, List.drop_zero]
    rw [List.splitOnP_first _ _ hword x hx r]
    simp [hne]

/-- What `strtok` returns is the first token, and what it leaves has the other
tokens. -/
theorem strtok_tokens (seps : List Byte) (s : List Byte) :
    (strtok seps s).1 = (tokens seps s).head?
      ∧ tokens seps (strtok seps s).2 = (tokens seps s).tail := by
  induction s with
  | nil => simp [strtok, tokens]
  | cons c s ih =>
    cases h : isSep seps c with
    | true => rw [strtok_sep_cons _ _ _ h, tokens_sep_cons _ _ _ h]; exact ih
    | false =>
      rw [tokens_word _ _ _ h]
      simp [strtok, List.dropWhile_cons, h]

theorem isLine_iff (l : List Byte) :
    IsLine l ↔ ∃ body, l = body ++ [10] ∧ 10 ∉ body := by
  constructor
  · rintro ⟨h1, h2⟩
    refine ⟨l.dropLast, ?_, h2⟩
    have hne : l ≠ [] := by rintro rfl; simp at h1
    rw [List.getLast?_eq_getLast _ hne] at h1
    have := List.dropLast_append_getLast hne
    rw [← this]
    simp only [Option.some.injEq] at h1
    rw [h1]
    simp
  · rintro ⟨body, rfl, hb⟩
    simp [IsLine, hb]

theorem isLine_length_pos (l : List Byte) (hl : IsLine l) : 0 < l.length := by
  obtain ⟨body, rfl, _⟩ := (isLine_iff l).1 hl
  simp

theorem fgetsAux_line (k : Nat) (body rest : List Byte) (hb : 10 ∉ body)
    (hk : body.length < k) :
    fgetsAux k (body ++ 10 :: rest) = (body ++ [10], rest) := by
  induction body generalizing k with
  | nil =>
    cases k with
    | zero => simp at hk
    | succ k => simp [fgetsAux]
  | cons c body ih =>
    cases k with
    | zero => simp at hk
    | succ k =>
      have hc : c ≠ 10 := by intro h; apply hb; simp [h]
      have hb2 : 10 ∉ body := by intro h; apply hb; simp [h]
      have hk2 : body.length < k := by simpa using hk
      simp [fgetsAux, hc, ih k hb2 hk2]

theorem fgetsAux_long (k : Nat) (body rest : List Byte) (hb : 10 ∉ body)
    (hk : k ≤ body.length) :
    fgetsAux k (body ++ rest) = (body.take k, body.drop k ++ rest) := by
  induction body generalizing k with
  | nil =>
    have : k = 0 := by simpa using hk
    subst this
    simp [fgetsAux]
  | cons c body ih =>
    cases k with
    | zero => simp [fgetsAux]
    | succ k =>
      have hc : c ≠ 10 := by intro h; apply hb; simp [h]
      have hb2 : 10 ∉ body := by intro h; apply hb; simp [h]
      have hk2 : k ≤ body.length := by simpa using hk
      simp [fgetsAux, hc, ih k hb2 hk2]

/-- Reading a line that fits the buffer returns the whole line. -/
theorem fgets_line (size : Nat) (l rest : List Byte) (hl : IsLine l)
    (hk : l.length ≤ size - 1) :
    fgets size (l ++ rest) = some (l, rest) := by
  obtain ⟨body, rfl, hb⟩ := (isLine_iff l).1 hl
  have hk2 : body.length < size - 1 := by
    simp only [List.length_append, List.length_singleton] at hk; omega
  have := fgetsAux_line (size - 1) body rest hb hk2
  rw [List.append_assoc, List.singleton_append]
  cases hbody : body with
  | nil => subst hbody; simpa [fgets] using this
  | cons c t => subst hbody; simpa [fgets] using this

/-- Reading from text without a newline that fills the buffer returns a full
buffer. -/
theorem fgets_long (size : Nat) (body rest : List Byte) (hb : 10 ∉ body)
    (hk : size - 1 ≤ body.length) (hne : body ++ rest ≠ []) :
    fgets size (body ++ rest)
      = some (body.take (size - 1), body.drop (size - 1) ++ rest) := by
  have := fgetsAux_long (size - 1) body rest hb hk
  cases hs : body ++ rest with
  | nil => exact absurd hs hne
  | cons c t => rw [hs] at this; simp [fgets, this]

theorem cstr_subset (buf : List Byte) : ∀ x ∈ cstr buf, x ∈ buf := by
  intro x hx
  exact List.takeWhile_subset _ hx

theorem cstr_prefix (buf : List Byte) : cstr buf <+: buf :=
  List.takeWhile_prefix _

theorem cstr_blank (b : List Byte) (hb : IsBlank b) : cstr b = b := by
  rcases hb with rfl | rfl <;> decide

theorem isLine_blank (b : List Byte) (hb : IsBlank b) : IsLine b := by
  rcases hb with rfl | rfl <;> decide

theorem length_blank (b : List Byte) (hb : IsBlank b) : b.length ≤ 2 := by
  rcases hb with rfl | rfl <;> decide

/-- A buffer without newline does not hold an empty line. -/
theorem cstr_not_blank_of_no_nl (buf : List Byte) (h : 10 ∉ buf) : ¬ IsBlank (cstr buf) := by
  intro hb
  apply h
  apply cstr_subset
  rcases hb with hb | hb <;> rw [hb] <;> decide

/-- A line holds an empty line as a C string only if it is an empty line. -/
theorem cstr_line_blank (l : List Byte) (hl : IsLine l) (hb : IsBlank (cstr l)) :
    IsBlank l := by
  obtain ⟨body, rfl, hbody⟩ := (isLine_iff l).1 hl
  obtain ⟨t, ht⟩ := cstr_prefix (body ++ [10])
  rcases hb with hb | hb
  · rw [hb] at ht
    left
    match body, hbody, ht with
    | [], _, ht => simp [bytes] at ht
    | [a], _, ht =>
      have : 13 = a ∧ t = [] := by simpa [bytes] using ht
      rw [← this.1]; decide
    | a :: b :: r, hbody, ht =>
      exfalso
      have h2 : (10 : Byte) = b := by
        have := ht
        simp only [bytes] at this
        simp at this
        exact this.2.1
      apply hbody
      simp [h2]
  · rw [hb] at ht
    right
    match body, hbody, ht with
    | [], _, _ => decide
    | a :: r, hbody, ht =>
      exfalso
      have h2 : (10 : Byte) = a := by
        have := ht
        simp only [bytes] at this
        simp at this
        exact this.1
      apply hbody
      simp [h2]

theorem fgetsAux_no_nl (k : Nat) (body : List Byte) (hb : 10 ∉ body) :
    fgetsAux k body = (body.take k, body.drop k) := by
  induction body generalizing k with
  | nil => cases k <;> simp [fgetsAux]
  | cons c body ih =>
    cases k with
    | zero => simp [fgetsAux]
    | succ k =>
      have hc : c ≠ 10 := by intro h; apply hb; simp [h]
      have hb2 : 10 ∉ body := by intro h; apply hb; simp [h]
      simp [fgetsAux, hc, ih k hb2]

theorem fgetsAux_length (k : Nat) (s : List Byte) :
    (fgetsAux k s).2.length ≤ s.length := by
  induction s generalizing k with
  | nil => cases k <;> simp [fgetsAux]
  | cons c s ih =>
    cases k with
    | zero => simp [fgetsAux]
    | succ k =>
      by_cases hc : c = 10
      · simp [fgetsAux, hc]
      · have := ih k
        simp only [fgetsAux, hc, if_false, List.length_cons]
        omega

/-- A successful `fgets` with a buffer of at least two bytes consumes at least
one byte. -/
theorem fgets_length (size : Nat) (s l r : List Byte) (hs : 2 ≤ size)
    (h : fgets size s = some (l, r)) : r.length < s.length := by
  cases s with
  | nil => simp [fgets] at h
  | cons c s =>
    obtain ⟨k, hk⟩ : ∃ k, size - 1 = k + 1 := ⟨size - 2, by omega⟩
    simp only [fgets, hk, Option.some.injEq] at h
    have hlen := fgetsAux_length k s
    by_cases hc : c = 10
    · simp only [fgetsAux, hc, if_true, Prod.mk.injEq] at h
      rw [← h.2]; simp
    · simp only [fgetsAux, hc, if_false, Prod.mk.injEq] at h
      rw [← h.2]; simp only [List.length_cons]; omega

namespace HttpServer

/-- The four calls of `strtok` in `handle_client` return the first four tokens
of the request line. -/
theorem strtok_four (s : List Byte) :
    (strtok token_separators s).1 = (tokens token_separators s).head?
    ∧ (strtok token_separators (strtok token_separators s).2).1
        = (tokens token_separators s).tail.head?
    ∧ (strtok token_separators
          (strtok token_separators (strtok token_separators s).2).2).1
        = (tokens token_separators s).tail.tail.head?
    ∧ (strtok token_separators (strtok token_separators
          (strtok token_separators (strtok token_separators s).2).2).2).1
        = (tokens token_separators s).tail.tail.tail.head? := by
  have h1 := strtok_tokens token_separators s
  have h2 := strtok_tokens token_separators (strtok token_separators s).2
  have h3 := strtok_tokens token_separators
    (strtok token_separators (strtok token_separators s).2).2
  have h4 := strtok_tokens token_separators (strtok token_separators
    (strtok token_separators (strtok token_separators s).2).2).2
  refine ⟨h1.1, ?_, ?_, ?_⟩
  · rw [h2.1, h1.2]
  · rw [h3.1, h2.2, h1.2]
  · rw [h4.1, h3.2, h2.2, h1.2]

/-- A request line that does not have exactly three tokens is answered with
501. -/
theorem handle_client_not_three (fs : List Byte → FsNode) (web_root : List Byte) (w : World)
    (buf rest : List Byte)
    (hf : fgets MAX_LINE_LENGTH w.clnt_r = some (buf, rest))
    (ht : (tokens token_separators (cstr buf)).length ≠ 3) :
    handle_client fs web_root w
      = .ok (501, (send_error_status { w with clnt_r := rest } 501).2) := by
  obtain ⟨h1, h2, h3, h4⟩ := strtok_four (cstr buf)
  unfold handle_client
  simp only [hf]
  rw [h1, h2, h3, h4]
  rcases hk : tokens token_separators (cstr buf) with _ | ⟨a, _ | ⟨b, _ | ⟨c, _ | ⟨d, l⟩⟩⟩⟩
  · simp
  · simp
  · simp
  · rw [hk] at ht; simp at ht
  · simp

/-- A request line of exactly three tokens goes through the checks of
`handle_client` in their order. -/
theorem handle_client_three (fs : List Byte → FsNode) (web_root : List Byte) (w : World)
    (buf rest method request_uri http_version : List Byte)
    (hf : fgets MAX_LINE_LENGTH w.clnt_r = some (buf, rest))
    (ht : tokens token_separators (cstr buf) = [method, request_uri, http_version]) :
    handle_client fs web_root w =
      if method ≠ bytes "GET" then
        .ok (501, (send_error_status { w with clnt_r := rest } 501).2)
      else if http_version ≠ bytes "HTTP/1.0" ∧ http_version ≠ bytes "HTTP/1.1" then
        .ok (501, (send_error_status { w with clnt_r := rest } 501).2)
      else if request_uri.head? ≠ some 47 then
        .ok (400, (send_error_status { w with clnt_r := rest } 400).2)
      else if traversal request_uri then
        .ok (400, (send_error_status { w with clnt_r := rest } 400).2)
      else
        match skip_headers (rest.length + 1) rest with
        | .error e => .error e
        | .ok (false, left) => .ok (400, { w with clnt_r := left })
        | .ok (true, left) =>
          if request_uri = bytes "/mdb-lookup"
              ∨ request_uri.take 12 = bytes "/mdb-lookup?" then
            handle_mdb_request request_uri
              (World.log { w with clnt_r := left } (.call_mdb request_uri))
          else
            handle_file_request fs web_root request_uri
              (World.log { w with clnt_r := left } (.call_file web_root request_uri)) := by
  obtain ⟨h1, h2, h3, h4⟩ := strtok_four (cstr buf)
  unfold handle_client
  simp only [hf]
  rw [h1, h2, h3, h4, ht]
  simp only [List.head?_cons, List.tail_cons, List.head?_nil]

/-! ### Writes and the two request handlers -/

@[simp] theorem send_trace (w : World) (d : List Byte) : (w.send d).2.trace = w.trace := by
  unfold World.send; split <;> rfl

@[simp] theorem send_clnt_r (w : World) (d : List Byte) : (w.send d).2.clnt_r = w.clnt_r := by
  unfold World.send; split <;> rfl

@[simp] theorem send_mdb_r (w : World) (d : List Byte) : (w.send d).2.mdb_r = w.mdb_r := by
  unfold World.send; split <;> rfl

@[simp] theorem send_clnt_ok (w : World) (d : List Byte) :
    (w.send d).2.clnt_ok = w.clnt_ok := by
  unfold World.send; split <;> rfl

@[simp] theorem mdb_send_trace (w : World) (d : List Byte) :
    (w.mdb_send d).2.trace = w.trace := by
  unfold World.mdb_send; split <;> rfl

@[simp] theorem mdb_send_clnt_r (w : World) (d : List Byte) :
    (w.mdb_send d).2.clnt_r = w.clnt_r := by
  unfold World.mdb_send; split <;> rfl

@[simp] theorem send_status_line_trace (w : World) (c : Nat) :
    (send_status_line w c).2.trace = w.trace := by simp [send_status_line]

@[simp] theorem send_status_line_clnt_r (w : World) (c : Nat) :
    (send_status_line w c).2.clnt_r = w.clnt_r := by simp [send_status_line]

@[simp] theorem send_blank_line_trace (w : World) :
    (send_blank_line w).2.trace = w.trace := by simp [send_blank_line]

@[simp] theorem send_blank_line_clnt_r (w : World) :
    (send_blank_line w).2.clnt_r = w.clnt_r := by simp [send_blank_line]

/-- The effect of `send_error_status`: the error page is appended to what the
client was sent, provided writes to the client succeed; nothing else changes. -/
theorem send_error_status_snd (w : World) (c : Nat) :
    (send_error_status w c).2
      = { w with clnt_w := w.clnt_w ++ (if w.clnt_ok then error_page c else []) } := by
  cases hok : w.clnt_ok with
  | false =>
    cases w
    simp only at hok
    subst hok
    simp [send_error_status, send_status_line, World.send]
  | true =>
    simp [send_error_status, send_status_line, send_blank_line, World.send, hok, error_page]

@[simp] theorem send_error_status_trace (w : World) (c : Nat) :
    (send_error_status w c).2.trace = w.trace := by rw [send_error_status_snd]

@[simp] theorem send_error_status_clnt_r (w : World) (c : Nat) :
    (send_error_status w c).2.clnt_r = w.clnt_r := by rw [send_error_status_snd]

@[simp] theorem send301_trace (u : List Byte) (w : World) :
    (send301 u w).2.trace = w.trace := by
  unfold send301; simp only; split <;> simp

@[simp] theorem send301_clnt_r (u : List Byte) (w : World) :
    (send301 u w).2.clnt_r = w.clnt_r := by
  unfold send301; simp only; split <;> simp

/-- The block loop of the static handler ends, given fuel above the length of
the file. -/
theorem send_file_total (fuel : Nat) (rest : List Byte) (w : World)
    (hfuel : rest.length < fuel) :
    ∃ w2, send_file fuel rest w = .ok w2 ∧ w2.trace = w.trace ∧ w2.clnt_r = w.clnt_r := by
  induction fuel generalizing rest w with
  | zero => simp at hfuel
  | succ fuel ih =>
    unfold send_file
    simp only
    split
    · exact ⟨w, rfl, rfl, rfl⟩
    · rename_i hblk
      split
      · exact ⟨_, rfl, by simp, by simp⟩
      · have hpos : 0 < rest.length := by
          rcases rest with _ | ⟨c, t⟩
          · simp at hblk
          · simp
        obtain ⟨w2, h1, h2, h3⟩ := ih (rest.drop DISK_IO_BUF_SIZE) (w.send (rest.take DISK_IO_BUF_SIZE)).2
          (by simp only [List.length_drop, DISK_IO_BUF_SIZE]; omega)
        exact ⟨w2, h1, by simpa using h2, by simpa using h3⟩

/-- The row loop of the lookup handler ends, given fuel above the length of
what the backend stream holds. -/
theorem mdb_rows_total (fuel row : Nat) (w : World) (hfuel : w.mdb_r.length < fuel) :
    ∃ b w2, mdb_rows fuel row w = .ok (b, w2) ∧ w2.trace = w.trace
      ∧ w2.clnt_r = w.clnt_r := by
  induction fuel generalizing row w with
  | zero => simp at hfuel
  | succ fuel ih =>
    unfold mdb_rows
    cases hf : fgets 128 w.mdb_r with
    | none => exact ⟨true, w, rfl, rfl, rfl⟩
    | some p =>
      obtain ⟨line, rest⟩ := p
      have hlen := fgets_length 128 _ _ _ (by decide) hf
      simp only
      generalize (if row % 2 = 1 then table_row else table_row_alt) ++ cstr line = d
      by_cases hblank : cstr line = bytes "\n"
      · rw [if_pos hblank]
        exact ⟨true, _, rfl, rfl, rfl⟩
      · rw [if_neg hblank]
        by_cases hsend : (World.send { w with mdb_r := rest } d).1 = false
        · rw [if_pos hsend]
          exact ⟨false, _, rfl, by simp, by simp⟩
        · rw [if_neg hsend]
          obtain ⟨b, w2, h1, h2, h3⟩ := ih (row + 1)
            (World.send { w with mdb_r := rest } d).2
            (by simp only [send_mdb_r]; omega)
          exact ⟨b, w2, h1, by simpa using h2, by simpa using h3⟩

/-- The lookup handler returns, with status 200 or 500, and makes no call that
is recorded. -/
theorem handle_mdb_request_total (request_uri : List Byte) (w : World) :
    ∃ s w2, handle_mdb_request request_uri w = .ok (s, w2) ∧ (s = 200 ∨ s = 500)
      ∧ w2.trace = w.trace ∧ w2.clnt_r = w.clnt_r := by
  unfold handle_mdb_request
  split
  · simp only
    split
    · exact ⟨200, _, rfl, Or.inl rfl, by simp, by simp⟩
    · split
      · exact ⟨200, _, rfl, Or.inl rfl, by simp, by simp⟩
      · exact ⟨200, _, rfl, Or.inl rfl, by simp, by simp⟩
  · simp only
    split
    · exact ⟨500, _, rfl, Or.inr rfl, by simp, by simp⟩
    · split
      · exact ⟨200, _, rfl, Or.inl rfl, by simp, by simp⟩
      · split
        · exact ⟨200, _, rfl, Or.inl rfl, by simp, by simp⟩
        · split
          · exact ⟨200, _, rfl, Or.inl rfl, by simp, by simp⟩
          · obtain ⟨b, w4, h1, h2, h3⟩ := mdb_rows_total
              ((World.send (send_blank_line (send_status_line
                (w.mdb_send (request_uri.drop key_uri.length ++ bytes "\n")).2 200).2).2
                (form ++ table_header)).2.mdb_r.length + 1) 1
              (World.send (send_blank_line (send_status_line
                (w.mdb_send (request_uri.drop key_uri.length ++ bytes "\n")).2 200).2).2
                (form ++ table_header)).2 (by omega)
            rw [h1]
            cases b with
            | false => exact ⟨200, _, rfl, Or.inl rfl, by simpa using h2, by simpa using h3⟩
            | true => exact ⟨200, _, rfl, Or.inl rfl, by simpa using h2, by simpa using h3⟩

/-- The static handler returns, with status 200, 301 or 404, when the URI is not
empty; the calls it records are file-system calls. -/
theorem handle_file_request_total (fs : List Byte → FsNode) (web_root request_uri : List Byte)
    (w : World) (hu : request_uri ≠ []) :
    ∃ s w2 evs, handle_file_request fs web_root request_uri w = .ok (s, w2)
      ∧ (s = 200 ∨ s = 301 ∨ s = 404)
      ∧ w2.trace = w.trace ++ evs
      ∧ (∀ e ∈ evs, (∃ p, e = .stat p) ∨ (∃ p, e = .fopen p))
      ∧ w2.clnt_r = w.clnt_r := by
  unfold handle_file_request
  split
  · exact ⟨404, _, [], rfl, by simp, by simp, by simp, by simp⟩
  · have hne : (web_root ++ request_uri).length ≠ 0 := by
      cases request_uri with
      | nil => exact absurd rfl hu
      | cons c t => simp
    simp only [hne, if_false]
    generalize (if (web_root ++ request_uri).getLast? = some 47
      then web_root ++ request_uri ++ bytes "index.html" else web_root ++ request_uri) = path
    by_cases hdir : fs path = .dir
    · rw [if_pos hdir]
      exact ⟨301, _, [.stat path], rfl, by simp, by simp [World.log], by simp,
        by simp [World.log]⟩
    · rw [if_neg hdir]
      cases hfs : fs path with
      | absent =>
        exact ⟨404, _, [.stat path, .fopen path], rfl, by simp, by simp [World.log], by simp,
          by simp [World.log]⟩
      | dir => exact absurd hfs hdir
      | file contents =>
        simp only
        generalize hw0 : (w.log (.stat path)).log (.fopen path) = w0
        have ht0 : w0.trace = w.trace ++ [.stat path, .fopen path] := by
          rw [← hw0]; simp [World.log]
        have hr0 : w0.clnt_r = w.clnt_r := by rw [← hw0]; simp [World.log]
        have hev : ∀ e ∈ [Event.stat path, Event.fopen path],
            (∃ p, e = Event.stat p) ∨ (∃ p, e = Event.fopen p) := by simp
        by_cases h1 : (send_status_line w0 200).1 = false
        · rw [if_pos h1]
          exact ⟨200, _, _, rfl, by simp, by simpa using ht0, hev, by simpa using hr0⟩
        · rw [if_neg h1]
          by_cases h2 : (send_blank_line (send_status_line w0 200).2).1 = false
          · rw [if_pos h2]
            exact ⟨200, _, _, rfl, by simp, by simpa using ht0, hev, by simpa using hr0⟩
          · rw [if_neg h2]
            obtain ⟨w2, e1, e2, e3⟩ := send_file_total (contents.length + 1) contents
              (send_blank_line (send_status_line w0 200).2).2 (by omega)
            rw [e1]
            exact ⟨200, w2, _, rfl, by simp, by simpa [e2] using ht0, hev,
              by simpa [e3] using hr0⟩

/-! ### The static handler, case by case -/

@[simp] theorem send_mdb_w (w : World) (d : List Byte) : (w.send d).2.mdb_w = w.mdb_w := by
  unfold World.send; split <;> rfl

@[simp] theorem send_mdb_ok (w : World) (d : List Byte) : (w.send d).2.mdb_ok = w.mdb_ok := by
  unfold World.send; split <;> rfl

/-- A write to a client that accepts writes. -/
theorem send_open (w : World) (d : List Byte) (hok : w.clnt_ok = true) :
    w.send d = (true, { w with clnt_w := w.clnt_w ++ d }) := by
  simp [World.send, hok]

/-- A write to a client that does not accept writes. -/
theorem send_closed (w : World) (d : List Byte) (hok : w.clnt_ok = false) :
    w.send d = (false, w) := by
  simp [World.send, hok]

/-- The block loop sends the whole file to a client that accepts writes. -/
theorem send_file_all (fuel : Nat) (rest : List Byte) (w : World)
    (hok : w.clnt_ok = true) (hfuel : rest.length < fuel) :
    send_file fuel rest w = .ok { w with clnt_w := w.clnt_w ++ rest } := by
  induction fuel generalizing rest w with
  | zero => simp at hfuel
  | succ fuel ih =>
    unfold send_file
    by_cases hblk : (rest.take DISK_IO_BUF_SIZE).length = 0
    · have hnil : rest = [] := by
        cases rest with
        | nil => rfl
        | cons c t => simp [DISK_IO_BUF_SIZE] at hblk
      subst hnil
      simp
    · have hpos : 0 < rest.length := by
        rcases rest with _ | ⟨c, t⟩
        · simp at hblk
        · simp
      simp only [hblk, if_false, send_open w _ hok, Bool.true_eq_false]
      rw [ih (rest.drop DISK_IO_BUF_SIZE)
        { w with clnt_w := w.clnt_w ++ rest.take DISK_IO_BUF_SIZE } hok
        (by simp only [List.length_drop, DISK_IO_BUF_SIZE]; omega)]
      simp only [List.append_assoc, List.take_append_drop]

/-- The part of the static handler that answers 200 and sends the file. -/
theorem send_200_file (w0 : World) (contents : List Byte) :
    (if (send_status_line w0 200).1 = false then
        (.ok (200, (send_status_line w0 200).2) : Except Err (Nat × World))
      else if (send_blank_line (send_status_line w0 200).2).1 = false then
        .ok (200, (send_blank_line (send_status_line w0 200).2).2)
      else
        match send_file (contents.length + 1) contents
            (send_blank_line (send_status_line w0 200).2).2 with
        | .ok w2 => .ok (200, w2)
        | .error e => .error e)
      = .ok (200,
          { w0 with
            clnt_w := w0.clnt_w ++
              (if w0.clnt_ok then bytes "HTTP/1.0 200 OK\r\n" ++ bytes "\r\n" ++ contents
                else []) }) := by
  have hline : bytes "HTTP/1.0 " ++ fmt_d 200 ++ bytes " " ++ bytes (get_reason_phrase 200)
      ++ bytes "\r\n" = bytes "HTTP/1.0 200 OK\r\n" := by decide
  obtain ⟨r, cw, ok, mw, mok, mr, tr⟩ := w0
  cases ok with
  | false => simp [send_status_line, World.send]
  | true =>
    simp only [send_status_line, send_blank_line, hline]
    simp [World.send, send_file_all]

/-- The path the static handler builds is the candidate path. -/
theorem file_path_eq (web_root request_uri : List Byte) (hu : request_uri ≠ []) :
    (if (web_root ++ request_uri).getLast? = some 47
      then web_root ++ request_uri ++ bytes "index.html" else web_root ++ request_uri)
      = candidate_path web_root request_uri := by
  rw [List.getLast?_append_of_ne_nil _ hu]
  unfold candidate_path
  split <;> simp

/-- The static handler when the length guard passes: the path is looked at,
and then the three cases of the source. -/
theorem handle_file_request_guarded (fs : List Byte → FsNode)
    (web_root request_uri : List Byte) (w : World) (hu : request_uri ≠ [])
    (hlen : web_root.length + request_uri.length + 12 ≤ PATH_MAX) :
    handle_file_request fs web_root request_uri w =
      if fs (candidate_path web_root request_uri) = .dir then
        .ok (301, (send301 request_uri
          (w.log (.stat (candidate_path web_root request_uri)))).2)
      else
        match fs (candidate_path web_root request_uri) with
        | .file contents =>
          .ok (200,
            { w with
              trace := w.trace ++ [.stat (candidate_path web_root request_uri),
                .fopen (candidate_path web_root request_uri)]
              clnt_w := w.clnt_w ++
                (if w.clnt_ok then bytes "HTTP/1.0 200 OK\r\n" ++ bytes "\r\n" ++ contents
                  else []) })
        | _ =>
          .ok (404, (send_error_status
            ((w.log (.stat (candidate_path web_root request_uri))).log
              (.fopen (candidate_path web_root request_uri))) 404).2) := by
  unfold handle_file_request
  have hg : ¬ (web_root.length + request_uri.length + 12 > PATH_MAX) := by omega
  have hne : (web_root ++ request_uri).length ≠ 0 := by
    cases request_uri with
    | nil => exact absurd rfl hu
    | cons c t => simp
  simp only [hg, hne, if_false, file_path_eq web_root request_uri hu]
  generalize candidate_path web_root request_uri = path
  by_cases hdir : fs path = .dir
  · rw [if_pos hdir, if_pos hdir]
  · rw [if_neg hdir, if_neg hdir]
    cases hfs : fs path with
    | absent => rfl
    | dir => exact absurd hfs hdir
    | file contents =>
      simp only
      rw [send_200_file]
      simp [World.log]

/-- The static handler when the length guard fails. -/
theorem handle_file_request_long (fs : List Byte → FsNode)
    (web_root request_uri : List Byte) (w : World)
    (hlen : web_root.length + request_uri.length + 12 > PATH_MAX) :
    handle_file_request fs web_root request_uri w
      = .ok (404, { w with clnt_w := w.clnt_w ++ (if w.clnt_ok then error_page 404 else []) }) := by
  unfold handle_file_request
  rw [if_pos hlen, send_error_status_snd]

theorem error_page_404 :
    error_page 404 = bytes "HTTP/1.0 404 Not Found\r\n" ++ bytes "\r\n"
      ++ bytes "<html><body>\n<h1>404 Not Found</h1>\n</body></html>\n" := by
  decide

/-- The effect of `send301`: the redirection is appended to what the client was
sent, provided writes to the client succeed; nothing else changes. -/
theorem send301_snd (u : List Byte) (w : World) :
    (send301 u w).2
      = { w with clnt_w := w.clnt_w ++
          (if w.clnt_ok then
            bytes "HTTP/1.0 301 Moved Permanently\r\n"
              ++ (bytes "Location: " ++ u ++ bytes "/\r\n"
              ++ bytes "\r\n"
              ++ bytes "<html><body>\n"
              ++ bytes "<h1>301 Moved Permanently</h1>\n"
              ++ bytes "<p>The document has moved "
              ++ bytes "<a href=\"" ++ u ++ bytes "/\">here</a>.</p>\n"
              ++ bytes "</body></html>\n")
          else []) } := by
  have hline : bytes "HTTP/1.0 " ++ fmt_d 301 ++ bytes " " ++ bytes (get_reason_phrase 301)
      ++ bytes "\r\n" = bytes "HTTP/1.0 301 Moved Permanently\r\n" := by decide
  obtain ⟨r, cw, ok, mw, mok, mr, tr⟩ := w
  cases ok with
  | false => simp [send301, send_status_line, World.send]
  | true =>
    simp only [send301, send_status_line, hline]
    simp [World.send]

/-! ### The lookup handler, case by case -/

/-- A line that reads as the blank line is the blank line. -/
theorem cstr_line_nl (l : List Byte) (hl : IsLine l) (h : cstr l = bytes "\n") :
    l = bytes "\n" := by
  rcases cstr_line_blank l hl (Or.inr h) with hb | hb
  · rw [hb] at h
    exact absurd h (by decide)
  · exact hb

/-- The row loop on a backend stream that starts with result lines that fit the
buffer and a blank line: one row is sent for each line, and the stream is read
up to and including the blank line. -/
theorem mdb_rows_lines (lines : List (List Byte)) (rest : List Byte)
    (hl : ∀ l ∈ lines, IsLine l ∧ l ≠ bytes "\n" ∧ l.length ≤ 127)
    (fuel row : Nat) (w : World) (hok : w.clnt_ok = true)
    (hr : w.mdb_r = lines.flatten ++ bytes "\n" ++ rest) (hfuel : lines.length < fuel) :
    mdb_rows fuel row w
      = .ok (true,
          { w with
            mdb_r := rest
            clnt_w := w.clnt_w ++ table_rows row (lines.map cstr) }) := by
  induction lines generalizing fuel row w with
  | nil =>
    obtain ⟨f, rfl⟩ : ∃ f, fuel = f + 1 := ⟨fuel - 1, by simp at hfuel; omega⟩
    have hf : fgets 128 w.mdb_r = some (bytes "\n", rest) := by
      rw [hr]
      simpa using fgets_line 128 (bytes "\n") rest (by decide) (by decide)
    have hc : cstr (bytes "\n") = bytes "\n" := by decide
    simp [mdb_rows, hf, hc, table_rows]
  | cons l ls ih =>
    obtain ⟨f, rfl⟩ : ∃ f, fuel = f + 1 := ⟨fuel - 1, by simp at hfuel; omega⟩
    obtain ⟨h1, h2, h3⟩ := hl l (List.mem_cons_self _ _)
    have hf : fgets 128 w.mdb_r = some (l, ls.flatten ++ bytes "\n" ++ rest) := by
      rw [hr]
      have := fgets_line 128 l (ls.flatten ++ bytes "\n" ++ rest) h1 (by simpa using h3)
      simpa using this
    have hc : ¬ cstr l = bytes "\n" := fun h => h2 (cstr_line_nl l h1 h)
    simp only [mdb_rows, hf, hc, if_false]
    rw [send_open _ _ (by exact hok)]
    simp only [Bool.true_eq_false, if_false]
    rw [ih (fun x hx => hl x (List.mem_cons_of_mem _ hx)) f (row + 1)
      { w with
        mdb_r := ls.flatten ++ bytes "\n" ++ rest
        clnt_w := w.clnt_w ++ ((if row % 2 = 1 then table_row else table_row_alt) ++ cstr l) }
      hok rfl (by simpa using hfuel)]
    simp [table_rows, List.enumFrom_cons, table_row, table_row_alt]

/-- The row loop on a backend stream that starts with a result line of 127
bytes and its newline: the line fills the buffer, the newline is read on its
own and ends the loop, and whatever follows stays unread. -/
theorem mdb_rows_long_line (body rest : List Byte) (hb : 10 ∉ body)
    (hlen : body.length = 127) (fuel row : Nat) (w : World) (hok : w.clnt_ok = true)
    (hr : w.mdb_r = body ++ bytes "\n" ++ rest) (hfuel : 2 ≤ fuel) :
    mdb_rows fuel row w
      = .ok (true,
          { w with
            mdb_r := rest
            clnt_w := w.clnt_w
              ++ ((if row % 2 = 1 then table_row else table_row_alt) ++ cstr body) }) := by
  obtain ⟨f, rfl⟩ : ∃ f, fuel = f + 2 := ⟨fuel - 2, by omega⟩
  have hne : body ++ (bytes "\n" ++ rest) ≠ [] := by
    intro h
    have := congrArg List.length h
    rw [List.length_append] at this
    simp only [List.length_nil] at this
    omega
  have hf : fgets 128 w.mdb_r = some (body, bytes "\n" ++ rest) := by
    rw [hr, List.append_assoc, fgets_long 128 body (bytes "\n" ++ rest) hb (by omega) hne]
    have h1 : body.take (128 - 1) = body := List.take_of_length_le (by omega)
    have h2 : body.drop (128 - 1) = [] := List.drop_of_length_le (by omega)
    rw [h1, h2]
    rfl
  have hc : ¬ cstr body = bytes "\n" := by
    intro h
    exact hb (cstr_subset body 10 (by rw [h]; decide))
  have hf2 : fgets 128 (bytes "\n" ++ rest) = some (bytes "\n", rest) :=
    fgets_line 128 (bytes "\n") rest (by decide) (by decide)
  have hc2 : cstr (bytes "\n") = bytes "\n" := by decide
  rw [mdb_rows]
  simp only [hf, hc, if_false]
  rw [send_open _ _ (by exact hok)]
  simp only [Bool.true_eq_false, if_false]
  rw [mdb_rows]
  simp [hf2, hc2]

/-- The row loop on any backend stream, for a client that accepts writes: it
leaves through `close_table`, having sent some rows. -/
theorem mdb_rows_open (fuel row : Nat) (w : World) (hok : w.clnt_ok = true)
    (hfuel : w.mdb_r.length < fuel) :
    ∃ rows left, mdb_rows fuel row w
      = .ok (true, { w with mdb_r := left, clnt_w := w.clnt_w ++ rows }) := by
  induction fuel generalizing row w with
  | zero => simp at hfuel
  | succ fuel ih =>
    unfold mdb_rows
    cases hf : fgets 128 w.mdb_r with
    | none =>
      refine ⟨[], w.mdb_r, ?_⟩
      simp
    | some p =>
      obtain ⟨line, rest⟩ := p
      have hlen := fgets_length 128 _ _ _ (by decide) hf
      simp only
      by_cases hblank : cstr line = bytes "\n"
      · rw [if_pos hblank]
        exact ⟨[], rest, by simp⟩
      · rw [if_neg hblank]
        rw [send_open _ _ (by exact hok)]
        simp only [Bool.true_eq_false, if_false]
        obtain ⟨rows, left, h⟩ := ih (row + 1)
          { w with
            mdb_r := rest
            clnt_w := w.clnt_w ++ ((if row % 2 = 1 then table_row else table_row_alt)
              ++ cstr line) }
          hok (by simp only; omega)
        rw [h]
        exact ⟨((if row % 2 = 1 then table_row else table_row_alt) ++ cstr line) ++ rows, left,
          by simp⟩

/-- The lookup handler on a URI with a key, when the key can be written and the
client accepts writes: the key is written, the head of the page is sent, and
the row loop runs. -/
theorem handle_mdb_request_keyed (v : List Byte) (w : World)
    (hmdb : w.mdb_ok = true) (hok : w.clnt_ok = true) :
    handle_mdb_request (bytes "/mdb-lookup?key=" ++ v) w =
      match mdb_rows (w.mdb_r.length + 1) 1
          { w with
            mdb_w := w.mdb_w ++ (v ++ bytes "\n")
            clnt_w := w.clnt_w ++ (bytes "HTTP/1.0 200 OK\r\n" ++ bytes "\r\n" ++ form
              ++ bytes "<p><table border>\n") } with
      | .error e => .error e
      | .ok (false, w4) => .ok (200, w4)
      | .ok (true, w4) => .ok (200, (w4.send (table_footer ++ form_end)).2) := by
  have hline : bytes "HTTP/1.0 " ++ fmt_d 200 ++ bytes " " ++ bytes (get_reason_phrase 200)
      ++ bytes "\r\n" = bytes "HTTP/1.0 200 OK\r\n" := by decide
  have hk : ¬ ((bytes "/mdb-lookup?key=" ++ v).take key_uri.length ≠ key_uri) := by
    have : key_uri.length = (bytes "/mdb-lookup?key=").length := rfl
    rw [this, List.take_left]
    exact fun h => h rfl
  have hd : (bytes "/mdb-lookup?key=" ++ v).drop key_uri.length = v := by
    have : key_uri.length = (bytes "/mdb-lookup?key=").length := rfl
    rw [this, List.drop_left]
  unfold handle_mdb_request
  rw [if_neg hk, hd]
  obtain ⟨r, cw, ok, mw, mok, mr, tr⟩ := w
  simp only at hmdb hok
  subst hmdb hok
  simp only [send_status_line, send_blank_line, hline, table_header]
  simp [World.send, World.mdb_send]

/-- The lookup handler on a URI with a key, when the key cannot be written. -/
theorem handle_mdb_request_down (v : List Byte) (w : World) (hmdb : w.mdb_ok = false) :
    handle_mdb_request (bytes "/mdb-lookup?key=" ++ v) w
      = .ok (500, { w with clnt_w := w.clnt_w ++ (if w.clnt_ok then error_page 500 else []) }) := by
  have hk : ¬ ((bytes "/mdb-lookup?key=" ++ v).take key_uri.length ≠ key_uri) := by
    have : key_uri.length = (bytes "/mdb-lookup?key=").length := rfl
    rw [this, List.take_left]
    exact fun h => h rfl
  unfold handle_mdb_request
  rw [if_neg hk]
  have hs : ∀ d, w.mdb_send d = (false, w) := by
    intro d; simp [World.mdb_send, hmdb]
  simp only [hs, if_true, send_error_status_snd]

/-! ### Skipping the headers -/

theorem skip_headers_blank (fuel : Nat) (b rest : List Byte) (hb : IsBlank b) :
    skip_headers (fuel + 1) (b ++ rest) = .ok (true, rest) := by
  have hlen := length_blank b hb
  have hf := fgets_line MAX_LINE_LENGTH b rest (isLine_blank b hb)
    (by simp only [MAX_LINE_LENGTH]; omega)
  have hc := cstr_blank b hb
  simp only [skip_headers, hf, hc]
  rcases hb with rfl | rfl <;> simp

theorem skip_headers_line (fuel : Nat) (l rest : List Byte) (hl : IsLine l)
    (hnb : ¬ IsBlank l) (hlen : l.length ≤ 1023) :
    skip_headers (fuel + 1) (l ++ rest) = skip_headers fuel rest := by
  have hf := fgets_line MAX_LINE_LENGTH l rest hl (by simpa [MAX_LINE_LENGTH] using hlen)
  have hc : ¬ IsBlank (cstr l) := fun h => hnb (cstr_line_blank l hl h)
  simp only [IsBlank] at hc
  simp only [skip_headers, hf, hc, if_false]

theorem skip_headers_chunk (fuel : Nat) (body rest : List Byte) (hb : 10 ∉ body)
    (hlen : 1023 ≤ body.length) :
    skip_headers (fuel + 1) (body ++ rest) = skip_headers fuel (body.drop 1023 ++ rest) := by
  have hne : body ++ rest ≠ [] := by
    intro h
    have := congrArg List.length h
    simp only [List.length_append, List.length_nil] at this
    omega
  have hf := fgets_long MAX_LINE_LENGTH body rest hb (by simpa [MAX_LINE_LENGTH] using hlen) hne
  have hc : ¬ IsBlank (cstr (body.take 1023)) :=
    cstr_not_blank_of_no_nl _ (fun h => hb (List.mem_of_mem_take h))
  simp only [IsBlank] at hc
  simp only [MAX_LINE_LENGTH, Nat.add_one_sub_one] at hf
  simp only [skip_headers, MAX_LINE_LENGTH, hf, hc, if_false]

/-- Text without a newline is read to its end, and the end of the stream is
reported. -/
theorem skip_headers_no_nl (fuel : Nat) (body : List Byte) (hb : 10 ∉ body)
    (hfuel : body.length < fuel) :
    skip_headers fuel body = .ok (false, []) := by
  induction fuel generalizing body with
  | zero => simp at hfuel
  | succ fuel ih =>
    cases hbody : body with
    | nil => simp [skip_headers, fgets]
    | cons c t =>
      have hf : fgets MAX_LINE_LENGTH body = some (body.take 1023, body.drop 1023) := by
        rw [hbody]
        simp only [fgets, MAX_LINE_LENGTH, Nat.add_one_sub_one]
        rw [fgetsAux_no_nl _ _ (hbody ▸ hb)]
      have hc : ¬ IsBlank (cstr (body.take 1023)) :=
        cstr_not_blank_of_no_nl _ (fun h => hb (List.mem_of_mem_take h))
      simp only [IsBlank] at hc
      rw [← hbody]
      simp only [skip_headers, hf, hc, if_false]
      apply ih
      · exact fun h => hb (List.mem_of_mem_drop h)
      · rw [hbody] at hfuel ⊢
        simp only [List.length_drop, List.length_cons] at hfuel ⊢
        omega

/-- With header lines that fit the buffer, the loop stops right after the first
empty line. -/
theorem skip_headers_exact (hs : List (List Byte)) (blank tail : List Byte)
    (hh : ∀ h ∈ hs, IsLine h ∧ ¬ IsBlank h ∧ h.length ≤ 1023) (hb : IsBlank blank)
    (fuel : Nat) (hfuel : (hs.flatten ++ blank ++ tail).length < fuel) :
    skip_headers fuel (hs.flatten ++ blank ++ tail) = .ok (true, tail) := by
  induction hs generalizing fuel with
  | nil =>
    cases fuel with
    | zero => simp at hfuel
    | succ fuel => simpa using skip_headers_blank fuel blank tail hb
  | cons h hs ih =>
    cases fuel with
    | zero => simp at hfuel
    | succ fuel =>
      obtain ⟨h1, h2, h3⟩ := hh h (List.mem_cons_self _ _)
      have := skip_headers_line fuel h (hs.flatten ++ blank ++ tail) h1 h2 h3
      simp only [List.flatten_cons, List.append_assoc] at this ⊢
      rw [this]
      have hpos := isLine_length_pos h h1
      have hrec := ih (fun x hx => hh x (List.mem_cons_of_mem _ hx)) fuel (by
        simp only [List.flatten_cons, List.append_assoc, List.length_append] at hfuel ⊢
        omega)
      simpa only [List.append_assoc] using hrec

/-- With header lines that fit the buffer and no empty line before the end of
the stream, the loop reports the end of the stream. -/
theorem skip_headers_eof (hs : List (List Byte)) (last : List Byte)
    (hh : ∀ h ∈ hs, IsLine h ∧ ¬ IsBlank h ∧ h.length ≤ 1023) (hl : 10 ∉ last)
    (fuel : Nat) (hfuel : (hs.flatten ++ last).length < fuel) :
    skip_headers fuel (hs.flatten ++ last) = .ok (false, []) := by
  induction hs generalizing fuel with
  | nil => simpa using skip_headers_no_nl fuel last hl (by simpa using hfuel)
  | cons h hs ih =>
    cases fuel with
    | zero => simp at hfuel
    | succ fuel =>
      obtain ⟨h1, h2, h3⟩ := hh h (List.mem_cons_self _ _)
      have := skip_headers_line fuel h (hs.flatten ++ last) h1 h2 h3
      simp only [List.flatten_cons, List.append_assoc] at this ⊢
      rw [this]
      have hpos := isLine_length_pos h h1
      exact ih (fun x hx => hh x (List.mem_cons_of_mem _ hx)) fuel (by
        simp only [List.flatten_cons, List.append_assoc, List.length_append] at hfuel ⊢
        omega)

/-- Whatever the length of the header lines, a header block that ends with an
empty line makes the loop stop with success. -/
theorem skip_headers_accepts (fuel : Nat) (hs : List (List Byte)) (blank tail : List Byte)
    (hh : ∀ h ∈ hs, IsLine h) (hb : IsBlank blank)
    (hfuel : (hs.flatten ++ blank ++ tail).length < fuel) :
    ∃ left, skip_headers fuel (hs.flatten ++ blank ++ tail) = .ok (true, left) := by
  induction fuel generalizing hs with
  | zero => simp at hfuel
  | succ fuel ih =>
    cases hs with
    | nil => exact ⟨tail, by simpa using skip_headers_blank fuel blank tail hb⟩
    | cons h hs =>
      have hl := hh h (List.mem_cons_self _ _)
      have hpos := isLine_length_pos h hl
      have hrest : ∀ x ∈ hs, IsLine x := fun x hx => hh x (List.mem_cons_of_mem _ hx)
      simp only [List.flatten_cons, List.append_assoc, List.length_append] at hfuel ⊢
      by_cases hlen : h.length ≤ 1023
      · by_cases hbl : IsBlank h
        · exact ⟨_, skip_headers_blank fuel h _ hbl⟩
        · rw [skip_headers_line fuel h _ hl hbl hlen]
          have := ih hs hrest (by simp only [List.append_assoc, List.length_append]; omega)
          simpa only [List.append_assoc] using this
      · obtain ⟨body, rfl, hbody⟩ := (isLine_iff h).1 hl
        simp only [List.length_append, List.length_singleton] at hlen hfuel
        have hstep := skip_headers_chunk fuel body ([10] ++ (hs.flatten ++ (blank ++ tail)))
          hbody (by omega)
        simp only [List.append_assoc] at hstep ⊢
        rw [hstep]
        have hl2 : IsLine (body.drop 1023 ++ [10]) :=
          (isLine_iff _).2 ⟨_, rfl, fun hx => hbody (List.mem_of_mem_drop hx)⟩
        have := ih ((body.drop 1023 ++ [10]) :: hs)
          (by
            intro x hx
            rcases List.mem_cons.1 hx with rfl | hx
            · exact hl2
            · exact hrest x hx)
          (by
            simp only [List.flatten_cons, List.append_assoc, List.length_append,
              List.length_drop, List.length_singleton]
            omega)
        simpa only [List.flatten_cons, List.append_assoc] using this

/-! ### The request line -/

theorem traversal_iff (u : List Byte) :
    traversal u = true ↔ (bytes "/../" <:+: u ∨ bytes "/.." <:+ u) := by
  have h3 : (bytes "/..").length = 3 := by decide
  have h4 : (bytes "/../").length = 4 := by decide
  simp only [traversal, Bool.and_eq_true, Bool.or_eq_true, decide_eq_true_eq]
  constructor
  · rintro ⟨_, h | h⟩
    · right
      rw [List.suffix_iff_eq_drop, h3, h]
    · exact Or.inl h
  · rintro (h | h)
    · have := h.length_le
      exact ⟨by omega, Or.inr h⟩
    · have := h.length_le
      refine ⟨by omega, Or.inl ?_⟩
      rw [List.suffix_iff_eq_drop, h3] at h
      exact h.symm

theorem traversal_eq_false (u : List Byte) (h1 : ¬ bytes "/../" <:+: u)
    (h2 : ¬ bytes "/.." <:+ u) : traversal u = false := by
  cases h : traversal u with
  | false => rfl
  | true => rcases (traversal_iff u).1 h with h | h <;> contradiction

/-- A request that passes the checks on the request line and whose headers end
with an empty line is handed to one of the two handlers. -/
theorem handle_client_dispatch (fs : List Byte → FsNode) (web_root : List Byte) (w : World)
    (buf rest u v left : List Byte)
    (hf : fgets MAX_LINE_LENGTH w.clnt_r = some (buf, rest))
    (ht : tokens token_separators (cstr buf) = [bytes "GET", u, v])
    (hv : v = bytes "HTTP/1.0" ∨ v = bytes "HTTP/1.1")
    (hslash : u.head? = some 47)
    (htr : traversal u = false)
    (hskip : skip_headers (rest.length + 1) rest = .ok (true, left)) :
    handle_client fs web_root w =
      if u = bytes "/mdb-lookup" ∨ u.take 12 = bytes "/mdb-lookup?" then
        handle_mdb_request u (World.log { w with clnt_r := left } (.call_mdb u))
      else
        handle_file_request fs web_root u
          (World.log { w with clnt_r := left } (.call_file web_root u)) := by
  rw [handle_client_three fs web_root w buf rest _ u v hf ht]
  have hv2 : ¬ (v ≠ bytes "HTTP/1.0" ∧ v ≠ bytes "HTTP/1.1") := by
    rintro ⟨a, b⟩; rcases hv with h | h <;> contradiction
  simp only [ne_eq, not_true_eq_false, if_false, hv2, hslash, htr, hskip, Bool.false_eq_true]

/-- After dispatch the handler returns; the first call recorded is the entry
into the handler, the others are file-system calls. -/
theorem handle_client_dispatched (fs : List Byte → FsNode) (web_root : List Byte) (w : World)
    (buf rest u v left : List Byte)
    (hf : fgets MAX_LINE_LENGTH w.clnt_r = some (buf, rest))
    (ht : tokens token_separators (cstr buf) = [bytes "GET", u, v])
    (hv : v = bytes "HTTP/1.0" ∨ v = bytes "HTTP/1.1")
    (hslash : u.head? = some 47)
    (htr : traversal u = false)
    (hskip : skip_headers (rest.length + 1) rest = .ok (true, left)) :
    ∃ s w2 evs, handle_client fs web_root w = .ok (s, w2)
      ∧ (s = 200 ∨ s = 301 ∨ s = 404 ∨ s = 500)
      ∧ w2.trace = w.trace ++
          (if u = bytes "/mdb-lookup" ∨ bytes "/mdb-lookup?" <+: u
            then Event.call_mdb u else Event.call_file web_root u) :: evs
      ∧ (∀ e ∈ evs, (∃ p, e = Event.stat p) ∨ (∃ p, e = Event.fopen p))
      ∧ w2.clnt_r = left := by
  rw [handle_client_dispatch fs web_root w buf rest u v left hf ht hv hslash htr hskip]
  have hpre : bytes "/mdb-lookup?" <+: u ↔ u.take 12 = bytes "/mdb-lookup?" := by
    rw [List.prefix_iff_eq_take]
    have : (bytes "/mdb-lookup?").length = 12 := by decide
    rw [this]
    exact eq_comm
  simp only [hpre]
  by_cases hc : u = bytes "/mdb-lookup" ∨ u.take 12 = bytes "/mdb-lookup?"
  · rw [if_pos hc, if_pos hc]
    obtain ⟨s, w2, h1, h2, h3, h4⟩ := handle_mdb_request_total u
      (World.log { w with clnt_r := left } (.call_mdb u))
    refine ⟨s, w2, [], h1, ?_, ?_, by simp, ?_⟩
    · rcases h2 with h | h <;> simp [h]
    · rw [h3]; simp [World.log]
    · rw [h4]; simp [World.log]
  · rw [if_neg hc, if_neg hc]
    have hu : u ≠ [] := by rintro rfl; simp at hslash
    obtain ⟨s, w2, evs, h1, h2, h3, h4, h5⟩ := handle_file_request_total fs web_root u
      (World.log { w with clnt_r := left } (.call_file web_root u)) hu
    refine ⟨s, w2, evs, h1, ?_, ?_, h4, ?_⟩
    · rcases h2 with h | h | h <;> simp [h]
    · rw [h3]; simp [World.log]
    · rw [h5]; simp [World.log]

end HttpServer

namespace MdbLookupServer

/-! ### Loading the records -/

theorem load_chunks (S r : Nat) (hr : r < S) (n : Nat) (file : List Byte) (fuel : Nat)
    (list : List (List Byte))
    (hlen : file.length = n * S + r) (hfuel : n < fuel) :
    load fuel S file list
      = .ok (list ++ (List.range n).map (fun i => (file.drop (i * S)).take S)) := by
  induction n generalizing file fuel list with
  | zero =>
    cases fuel with
    | zero => omega
    | succ fuel =>
      have : ¬ (0 < S ∧ S ≤ file.length) := by omega
      simp [load, this]
  | succ n ih =>
    cases fuel with
    | zero => omega
    | succ fuel =>
      have hle : 0 < S ∧ S ≤ file.length := by
        rw [hlen, Nat.succ_mul]; omega
      have hrec := ih (file.drop S) fuel (addAfter list (file.take S))
        (by rw [List.length_drop, hlen, Nat.succ_mul]; omega) (by omega)
      simp only [load, hle, and_self, if_true]
      rw [hrec, List.range_succ_eq_map]
      simp only [addAfter, List.map_cons, Nat.zero_mul, List.drop_zero, List.map_map,
        List.append_assoc, List.singleton_append]
      congr 3
      apply List.map_congr_left
      intro i _
      simp only [Function.comp, List.drop_drop, Nat.succ_mul]
      congr 2
      omega

/-! ### Cleaning the key -/

theorem take_cstr (n : Nat) (x : List Byte) (h : 0 ∉ x.take n) :
    (cstr x).take n = x.take n := by
  induction x generalizing n with
  | nil => simp [cstr]
  | cons c x ih =>
    cases n with
    | zero => simp
    | succ n =>
      have hc : c ≠ 0 := by intro hc; apply h; simp [hc]
      have hx : 0 ∉ x.take n := by intro hx; apply h; simp [hx]
      have := ih n hx
      simp only [cstr] at this ⊢
      simp [List.takeWhile_cons, hc, this]

theorem cstr_of_no_nul (x : List Byte) (h : 0 ∉ x) : cstr x = x := by
  unfold cstr
  rw [List.takeWhile_eq_self_iff]
  intro c hc
  have : c ≠ 0 := fun h0 => h (h0 ▸ hc)
  simpa using this

/-- The key depends on the first five bytes of the buffer only. -/
theorem clean_key_take (x y : List Byte) (h : x.take 5 = y.take 5) (h0 : 0 ∉ x.take 5) :
    clean_key x = clean_key y := by
  have hx := take_cstr 5 x h0
  have hy := take_cstr 5 y (h ▸ h0)
  simp only [clean_key, KeyMax, hx, hy, h]

/-- The cleaned key of a line `k` followed by LF or by CR LF, when `k` has no
CR, LF or NUL. -/
theorem clean_key_line (k term : List Byte)
    (hk : ∀ c ∈ k, c ≠ 13 ∧ c ≠ 10 ∧ c ≠ 0)
    (hterm : term = bytes "\n" ∨ term = bytes "\r\n") :
    clean_key (k ++ term) = .ok (k.take 5) := by
  have hno : (0 : Byte) ∉ (k ++ term).take 5 := by
    intro h
    have h2 := List.mem_of_mem_take h
    rcases List.mem_append.1 h2 with h3 | h3
    · exact (hk 0 h3).2.2 rfl
    · rcases hterm with rfl | rfl <;> simp [bytes] at h3
  have hc := take_cstr 5 (k ++ term) hno
  simp only [clean_key, KeyMax, hc]
  match k, hk with
  | [], _ => rcases hterm with rfl | rfl <;> rfl
  | [a], hk =>
    have ha := hk a (by simp)
    rcases hterm with rfl | rfl <;> simp [bytes, ha.1, ha.2.1]
  | [a, b], hk =>
    have hb := hk b (by simp)
    rcases hterm with rfl | rfl <;> simp [bytes, hb.1, hb.2.1]
  | [a, b, c], hk =>
    have h3 := hk c (by simp)
    rcases hterm with rfl | rfl <;> simp [bytes, h3.1, h3.2.1]
  | [a, b, c, d], hk =>
    have h4 := hk d (by simp)
    rcases hterm with rfl | rfl <;> simp [bytes, h4.1, h4.2.1]
  | a :: b :: c :: d :: e :: t, hk =>
    have h5 := hk e (by simp)
    simp [h5.1, h5.2.1]

/-- What `fgets` stores for a stream that starts with a line: the line, or its
first 1023 bytes when it does not fit the buffer. -/
theorem fgets_first (body rest : List Byte) (hb : 10 ∉ body) :
    fgets 1024 (body ++ 10 :: rest) =
      if body.length < 1023 then some (body ++ [10], rest)
      else some (body.take 1023, body.drop 1023 ++ 10 :: rest) := by
  split
  · rename_i h
    have := fgets_line 1024 (body ++ [10]) rest ((isLine_iff _).2 ⟨body, rfl, hb⟩)
      (by simp only [List.length_append, List.length_singleton]; omega)
    simpa using this
  · rename_i h
    exact fgets_long 1024 body (10 :: rest) hb (by simp only [Nat.add_one_sub_one]; omega) (by simp)

/-! ### Searching -/

theorem cstr_append_of_mem (a b : List Byte) (h : 0 ∈ a) : cstr (a ++ b) = cstr a := by
  induction a with
  | nil => simp at h
  | cons c a ih =>
    by_cases hc : c = 0
    · simp [cstr, List.takeWhile_cons, hc]
    · have ha : 0 ∈ a := by
        rcases List.mem_cons.1 h with h | h
        · exact absurd h.symm hc
        · exact h
      have := ih ha
      simp only [cstr] at this ⊢
      simp [List.takeWhile_cons, hc, this]

theorem cstr_take_of_mem (n : Nat) (x : List Byte) (h : 0 ∈ x.take n) :
    cstr x = cstr (x.take n) := by
  conv_lhs => rw [← List.take_append_drop n x]
  exact cstr_append_of_mem _ _ h

/-- In a record whose fields are terminated, the strings read at the two field
offsets are the name and the message. -/
theorem cstr_at_terminated (N M : Nat) (rec : List Byte) (h : Terminated N M rec) :
    cstr_at rec name_offset = .ok (rec_name N rec)
      ∧ cstr_at rec (msg_offset N) = .ok (rec_msg N M rec) := by
  obtain ⟨h1, h2⟩ := h
  constructor
  · have : (0 : Byte) ∈ rec := List.mem_of_mem_take h1
    simp only [cstr_at, name_offset, List.drop_zero, this, if_true, rec_name]
    rw [cstr_take_of_mem N rec h1]
  · have : (0 : Byte) ∈ rec.drop N := List.mem_of_mem_take h2
    simp only [cstr_at, msg_offset, this, if_true, rec_msg]
    rw [cstr_take_of_mem M (rec.drop N) h2]

/-- In a buffer that holds a NUL, the C string and its terminator are the start
of the buffer. -/
theorem cstr_nul_isPrefix (l : List Byte) (h : 0 ∈ l) : cstr l ++ [0] <+: l := by
  induction l with
  | nil => simp at h
  | cons c l ih =>
    by_cases hc : c = 0
    · subst hc
      simp [cstr, List.takeWhile_cons]
    · have hl : 0 ∈ l := by
        rcases List.mem_cons.1 h with h | h
        · exact absurd h.symm hc
        · exact h
      have := ih hl
      simp only [cstr] at this ⊢
      simp only [List.takeWhile_cons, bne_iff_ne, ne_eq, hc, not_false_eq_true, decide_True,
        if_true, List.cons_append]
      exact (List.prefix_cons_inj c).2 this

/-- The search loop on a store of one record whose fields are terminated. -/
theorem search_one (N M : Nat) (key rec : List Byte) (recNo : Nat) (w : World)
    (h : Terminated N M rec) :
    search N key [rec] recNo w
      = .ok (if key <:+: rec_name N rec ∨ key <:+: rec_msg N M rec then
          w.send (result_line recNo (rec_name N rec) (rec_msg N M rec)) else (true, w)) := by
  obtain ⟨h1, h2⟩ := cstr_at_terminated N M rec h
  simp only [search, h1, h2]
  by_cases hm : key <:+: rec_name N rec ∨ key <:+: rec_msg N M rec
  · rw [if_pos hm, if_pos hm]
    obtain ⟨r, cw, ok⟩ := w
    cases ok <;> simp [World.send, result_line]
  · rw [if_neg hm, if_neg hm]

theorem search_terminated (N M : Nat) (key : List Byte) (store : List (List Byte))
    (first : Nat) (w : World) (hok : w.clnt_ok = true)
    (hwf : ∀ rec ∈ store, Terminated N M rec) :
    search N key store first w
      = .ok (true, { w with clnt_w := w.clnt_w ++ result_lines N M key first store }) := by
  induction store generalizing first w with
  | nil => simp [search, result_lines]
  | cons rec store ih =>
    obtain ⟨h1, h2⟩ := cstr_at_terminated N M rec (hwf rec (List.mem_cons_self _ _))
    have hrest : ∀ r ∈ store, Terminated N M r := fun r hr => hwf r (List.mem_cons_of_mem _ hr)
    simp only [search, h1, h2]
    by_cases hm : key <:+: rec_name N rec ∨ key <:+: rec_msg N M rec
    · rw [if_pos hm]
      have hs : ∀ d, w.send d = (true, { w with clnt_w := w.clnt_w ++ d }) := by
        intro d; simp [World.send, hok]
      rw [hs]
      simp only [Bool.true_eq_false, if_false]
      rw [ih (first + 1)
        { w with clnt_w := w.clnt_w ++ (fmt_4d first ++ bytes ": \x7b" ++ rec_name N rec
            ++ bytes "\x7d said \x7b" ++ rec_msg N M rec ++ bytes "\x7d\n") } hok hrest]
      simp [result_lines, List.enumFrom_cons, List.filter_cons, hm, result_line]
    · rw [if_neg hm]
      rw [ih (first + 1) w hok hrest]
      simp [result_lines, List.enumFrom_cons, List.filter_cons, hm]

/-- When writes to the client fail the search changes nothing. -/
theorem search_closed (N M : Nat) (key : List Byte) (store : List (List Byte))
    (first : Nat) (w : World) (hok : w.clnt_ok = false)
    (hwf : ∀ rec ∈ store, Terminated N M rec) :
    ∃ b, search N key store first w = .ok (b, w) := by
  induction store generalizing first with
  | nil => exact ⟨true, by simp [search]⟩
  | cons rec store ih =>
    obtain ⟨h1, h2⟩ := cstr_at_terminated N M rec (hwf rec (List.mem_cons_self _ _))
    have hrest : ∀ r ∈ store, Terminated N M r := fun r hr => hwf r (List.mem_cons_of_mem _ hr)
    simp only [search, h1, h2]
    by_cases hm : key <:+: rec_name N rec ∨ key <:+: rec_msg N M rec
    · rw [if_pos hm]
      have hs : ∀ d, w.send d = (false, w) := by
        intro d; simp [World.send, hok]
      rw [hs]
      exact ⟨false, by simp⟩
    · rw [if_neg hm]
      exact ih (first + 1) hrest

/-- The response sent for a key, on a store of records with terminated fields
and a client that accepts writes. -/
theorem respond_terminated (N M : Nat) (key : List Byte) (store : List (List Byte))
    (w : World) (hok : w.clnt_ok = true) (hwf : ∀ rec ∈ store, Terminated N M rec) :
    respond N key store w
      = .ok (true, { w with clnt_w := w.clnt_w ++ response N M key store }) := by
  simp only [respond, search_terminated N M key store 1 w hok hwf, World.send, hok, if_true,
    response, List.append_assoc]

/-- When writes to the client fail, nothing is sent and the failure is
reported. -/
theorem respond_closed (N M : Nat) (key : List Byte) (store : List (List Byte))
    (w : World) (hok : w.clnt_ok = false) (hwf : ∀ rec ∈ store, Terminated N M rec) :
    respond N key store w = .ok (false, w) := by
  obtain ⟨b, hb⟩ := search_closed N M key store 1 w hok hwf
  cases b with
  | false => simp only [respond, hb]
  | true => simp [respond, hb, World.send, hok]

/-! ### Draining the line -/

theorem drain_done (fuel : Nat) (line stream : List Byte) (h0 : 0 ∉ line)
    (hlast : line.getLast? = some 10) :
    drain (fuel + 1) line stream = .ok stream := by
  have hne : line.length ≠ 0 := by
    cases line with
    | nil => simp at hlast
    | cons c t => simp
  simp only [drain, cstr_of_no_nul line h0, hne, if_false, hlast, if_true]

/-- After a buffer without newline the loop reads to the end of the line. -/
theorem drain_line (fuel : Nat) (chunk body rest : List Byte)
    (hc0 : 0 ∉ chunk) (hcne : chunk ≠ []) (hc10 : 10 ∉ chunk)
    (hb0 : 0 ∉ body) (hb10 : 10 ∉ body) (hfuel : body.length + 2 ≤ fuel) :
    drain fuel chunk (body ++ 10 :: rest) = .ok rest := by
  induction fuel generalizing chunk body with
  | zero => omega
  | succ fuel ih =>
    have hne : chunk.length ≠ 0 := by
      cases chunk with
      | nil => exact absurd rfl hcne
      | cons c t => simp
    have hlast : ¬ chunk.getLast? = some 10 := by
      intro h
      exact hc10 (List.mem_of_getLast?_eq_some h)
    simp only [drain, cstr_of_no_nul chunk hc0, hne, if_false, hlast, fgets_first body rest hb10]
    by_cases hlen : body.length < 1023
    · simp only [hlen, if_true]
      obtain ⟨f, rfl⟩ : ∃ f, fuel = f + 1 := ⟨fuel - 1, by omega⟩
      exact drain_done f _ _ (by simp [hb0]) (by simp)
    · simp only [hlen, if_false]
      apply ih
      · exact fun h => hb0 (List.mem_of_mem_take h)
      · intro h
        have := congrArg List.length h
        simp only [List.length_take, List.length_nil] at this
        omega
      · exact fun h => hb10 (List.mem_of_mem_take h)
      · exact fun h => hb0 (List.mem_of_mem_drop h)
      · exact fun h => hb10 (List.mem_of_mem_drop h)
      · simp only [List.length_drop]; omega

/-! ### The query loop -/

theorem clean_key_ok (x : List Byte) (hne : x ≠ []) (h0 : 0 ∉ x) :
    ∃ k, clean_key x = .ok k := by
  have hlen : ((cstr x).take KeyMax).length ≠ 0 := by
    rw [cstr_of_no_nul x h0]
    cases x with
    | nil => exact absurd rfl hne
    | cons c t => simp [KeyMax]
  simp only [clean_key, hlen, if_false]
  exact ⟨_, rfl⟩

theorem length_le_length_flatten (lines : List (List Byte))
    (h : ∀ l ∈ lines, 0 < l.length) : lines.length ≤ lines.flatten.length := by
  induction lines with
  | nil => simp
  | cons l lines ih =>
    have h1 := h l (List.mem_cons_self _ _)
    have h2 := ih (fun x hx => h x (List.mem_cons_of_mem _ hx))
    simp only [List.length_cons, List.flatten_cons, List.length_append]
    omega

/-- One round of the query loop on a stream that starts with a line without NUL:
the whole line is consumed, whatever its length, and the key is the cleaned key
of the line. -/
theorem query_round (l tail : List Byte) (hl : IsLine l) (h0 : 0 ∉ l) :
    ∃ line rest k, fgets 1024 (l ++ tail) = some (line, rest)
      ∧ clean_key line = .ok k ∧ clean_key l = .ok k
      ∧ drain (rest.length + 1) line rest = .ok tail := by
  obtain ⟨body, rfl, hb⟩ := (isLine_iff l).1 hl
  have hb0 : 0 ∉ body := fun h => h0 (List.mem_append_left _ h)
  obtain ⟨k, hk⟩ := clean_key_ok (body ++ [10]) (by simp) h0
  have hf := fgets_first body tail hb
  rw [List.append_assoc, List.singleton_append]
  by_cases hlen : body.length < 1023
  · rw [if_pos hlen] at hf
    exact ⟨_, _, k, hf, hk, hk, drain_done _ _ _ h0 (by simp)⟩
  · rw [if_neg hlen] at hf
    refine ⟨_, _, k, hf, ?_, hk, ?_⟩
    · rw [← hk]
      apply clean_key_take
      · rw [List.take_take, List.take_append_of_le_length (by omega)]
        simp
      · intro h
        exact hb0 (List.mem_of_mem_take (List.mem_of_mem_take h))
    · apply drain_line
      · exact fun h => hb0 (List.mem_of_mem_take h)
      · intro h
        have := congrArg List.length h
        simp only [List.length_take, List.length_nil] at this
        omega
      · exact fun h => hb (List.mem_of_mem_take h)
      · exact fun h => hb0 (List.mem_of_mem_drop h)
      · exact fun h => hb (List.mem_of_mem_drop h)
      · simp only [List.length_append, List.length_cons]; omega

/-- On a stream of lines without NUL the query loop sends one response for each
line, in order, and ends at the end of the stream. -/
theorem query_loop_lines (N M : Nat) (store : List (List Byte))
    (hwf : ∀ rec ∈ store, Terminated N M rec)
    (lines : List (List Byte)) (hl : ∀ l ∈ lines, IsLine l ∧ 0 ∉ l)
    (fuel : Nat) (w : World) (hok : w.clnt_ok = true) (hr : w.clnt_r = lines.flatten)
    (hfuel : lines.length < fuel) :
    ∃ keys, List.Forall₂ (fun l k => clean_key l = .ok k) lines keys
      ∧ query_loop N store fuel w
        = .ok { w with
            clnt_r := []
            clnt_w := w.clnt_w ++ (keys.map (fun k => response N M k store)).flatten } := by
  induction lines generalizing fuel w with
  | nil =>
    obtain ⟨f, rfl⟩ : ∃ f, fuel = f + 1 := ⟨fuel - 1, by simp at hfuel; omega⟩
    refine ⟨[], List.Forall₂.nil, ?_⟩
    cases w
    simp only [List.flatten_nil] at hr
    subst hr
    simp [query_loop, fgets]
  | cons l lines ih =>
    obtain ⟨f, rfl⟩ : ∃ f, fuel = f + 1 := ⟨fuel - 1, by simp at hfuel; omega⟩
    obtain ⟨h1, h0⟩ := hl l (List.mem_cons_self _ _)
    obtain ⟨line, rest, k, hf, hk, hkl, hd⟩ := query_round l lines.flatten h1 h0
    rw [List.flatten_cons] at hr
    obtain ⟨keys, hkeys, hloop⟩ := ih (fun x hx => hl x (List.mem_cons_of_mem _ hx)) f
      { w with clnt_r := lines.flatten, clnt_w := w.clnt_w ++ response N M k store }
      hok rfl (by simpa using hfuel)
    refine ⟨k :: keys, List.Forall₂.cons hkl hkeys, ?_⟩
    simp only [query_loop, hr, hf, hk, hd]
    rw [respond_terminated N M k store { w with clnt_r := lines.flatten } hok hwf]
    simp only [hloop, List.map_cons, List.flatten_cons, List.append_assoc]

end MdbLookupServer

namespace HttpServer

/-- A keyed lookup on a backend stream that starts with result lines that fit
the buffer and a blank line, when all writes succeed. -/
theorem handle_mdb_request_lines (v : List Byte) (lines : List (List Byte))
    (rest : List Byte) (w : World)
    (hmdb : w.mdb_ok = true) (hok : w.clnt_ok = true)
    (hl : ∀ l ∈ lines, IsLine l ∧ l ≠ bytes "\n" ∧ l.length ≤ 127)
    (hr : w.mdb_r = lines.flatten ++ bytes "\n" ++ rest) :
    handle_mdb_request (bytes "/mdb-lookup?key=" ++ v) w
      = .ok (200,
          { w with
            mdb_w := w.mdb_w ++ (v ++ bytes "\n")
            mdb_r := rest
            clnt_w := w.clnt_w ++ lookup_page (lines.map cstr) }) := by
  have hfuel : lines.length < w.mdb_r.length + 1 := by
    have := MdbLookupServer.length_le_length_flatten lines
      (fun l h => isLine_length_pos l (hl l h).1)
    rw [hr]
    simp only [List.length_append]
    omega
  rw [handle_mdb_request_keyed v w hmdb hok]
  rw [mdb_rows_lines lines rest hl (w.mdb_r.length + 1) 1
    { w with
      mdb_w := w.mdb_w ++ (v ++ bytes "\n")
      clnt_w := w.clnt_w ++ (bytes "HTTP/1.0 200 OK\r\n" ++ bytes "\r\n" ++ form
        ++ bytes "<p><table border>\n") } hok hr hfuel]
  simp only
  rw [send_open _ _ (by exact hok)]
  simp [lookup_page, table_footer, form_end]

theorem map_cstr_of_no_nul (lines : List (List Byte)) (h : ∀ l ∈ lines, 0 ∉ l) :
    lines.map cstr = lines := by
  induction lines with
  | nil => rfl
  | cons l ls ih =>
    rw [List.map_cons, MdbLookupServer.cstr_of_no_nul l (h l (List.mem_cons_self _ _)),
      ih (fun x hx => h x (List.mem_cons_of_mem _ hx))]

/-! ### The segments of a URI -/

/-- The first segment is the text before the first slash. -/
theorem segments_head (l : List Byte) :
    ∃ tl, segments l = l.takeWhile (fun x => x != 47) :: tl := by
  induction l with
  | nil => exact ⟨[], rfl⟩
  | cons c l ih =>
    obtain ⟨tl, h⟩ := ih
    simp only [segments, List.splitOn] at h ⊢
    rw [List.splitOnP_cons]
    by_cases hc : c = 47
    · subst hc
      exact ⟨List.splitOnP (fun x => x == 47) l, by simp⟩
    · have hb : ¬ ((c == 47) = true) := by simpa using hc
      rw [if_neg hb, h]
      exact ⟨tl, by simp [List.takeWhile_cons, hc]⟩

/-- The text before the first slash is `..` when the list is `..` or starts
with `../`. -/
theorem takeWhile_dotdot (l : List Byte) :
    l.takeWhile (fun x => x != 47) = [46, 46] ↔ ([46, 46, 47] <+: l ∨ l = [46, 46]) := by
  rcases l with _ | ⟨a, _ | ⟨b, _ | ⟨d, t⟩⟩⟩
  · simp
  · by_cases ha : a = 47 <;> simp [List.takeWhile_cons, ha]
  · by_cases ha : a = 47 <;> by_cases hb : b = 47 <;> simp [List.takeWhile_cons, ha, hb]
  · by_cases ha : a = 47
    · subst ha
      simp [List.takeWhile_cons]
    · by_cases hb : b = 47
      · subst hb
        simp [List.takeWhile_cons, ha]
      · by_cases hd : d = 47
        · subst hd
          simp [List.takeWhile_cons, ha, hb]
          exact ⟨fun h => ⟨h.1.symm, h.2.symm⟩, fun h => ⟨h.1.symm, h.2.symm⟩⟩
        · simp [List.takeWhile_cons, ha, hb, hd]
          intro _ _ h
          exact hd h.symm

/-- A list contains `/../` or ends in `/..` when one of its segments behind the
first is `..`. -/
theorem dotdot_tail (l : List Byte) :
    ([47, 46, 46, 47] <:+: l ∨ [47, 46, 46] <:+ l) ↔ [46, 46] ∈ (segments l).tail := by
  induction l with
  | nil => simp [segments, List.splitOn]
  | cons c l ih =>
    rw [List.infix_cons_iff, List.suffix_cons_iff, List.cons_prefix_cons]
    by_cases hc : c = 47
    · subst hc
      have hseg : segments (47 :: l) = [] :: segments l := by
        simp [segments, List.splitOn, List.splitOnP_cons]
      obtain ⟨tl, htl⟩ := segments_head l
      have htail : (segments l).tail = tl := by rw [htl]; rfl
      rw [hseg, List.tail_cons]
      rw [htail] at ih
      have hk : ([46, 46] : List Byte) = l.takeWhile (fun x => x != 47)
          ↔ ([46, 46, 47] <+: l ∨ l = [46, 46]) := by
        rw [eq_comm]
        exact takeWhile_dotdot l
      rw [htl, List.mem_cons, ← ih, hk]
      constructor
      · rintro ((⟨_, h⟩ | h) | (h | h))
        · exact Or.inl (Or.inl h)
        · exact Or.inr (Or.inl h)
        · simp only [List.cons.injEq, true_and] at h
          exact Or.inl (Or.inr h.symm)
        · exact Or.inr (Or.inr h)
      · rintro ((h | h) | (h | h))
        · exact Or.inl (Or.inl ⟨rfl, h⟩)
        · exact Or.inr (Or.inl (by rw [h]))
        · exact Or.inl (Or.inr h)
        · exact Or.inr (Or.inr h)
    · have hb : ¬ ((c == 47) = true) := by simpa using hc
      have hseg : (segments (c :: l)).tail = (segments l).tail := by
        simp only [segments, List.splitOn]
        rw [List.splitOnP_cons, if_neg hb, List.tail_modifyHead]
      rw [hseg, ← ih]
      constructor
      · rintro ((⟨h, _⟩ | h) | (h | h))
        · exact absurd h.symm hc
        · exact Or.inl h
        · simp only [List.cons.injEq] at h
          exact absurd h.1.symm hc
        · exact Or.inr h
      · rintro (h | h)
        · exact Or.inl (Or.inr h)
        · exact Or.inr (Or.inr h)

/-- For a URI that begins with a slash, the guard of `handle_client` rejects
the URI when one of its segments is `..`. -/
theorem traversal_segments (u : List Byte) (hslash : u.head? = some 47) :
    traversal u = true ↔ bytes ".." ∈ segments u := by
  have e4 : bytes "/../" = [47, 46, 46, 47] := by decide
  have e3 : bytes "/.." = [47, 46, 46] := by decide
  have e2 : bytes ".." = [46, 46] := by decide
  rw [traversal_iff, e4, e3, e2, dotdot_tail]
  cases u with
  | nil => simp at hslash
  | cons c v =>
    simp only [List.head?_cons, Option.some.injEq] at hslash
    subst hslash
    have hseg : segments (47 :: v) = [] :: segments v := by
      simp [segments, List.splitOn, List.splitOnP_cons]
    rw [hseg, List.tail_cons, List.mem_cons]
    constructor
    · exact Or.inr
    · rintro (h | h)
      · exact absurd h (by decide)
      · exact h

/-! ### The accept loop -/

/-- The loop that skips the headers ends on every stream. -/
theorem skip_headers_total (fuel : Nat) (stream : List Byte) (hfuel : stream.length < fuel) :
    ∃ b left, skip_headers fuel stream = .ok (b, left) := by
  induction fuel generalizing stream with
  | zero => simp at hfuel
  | succ fuel ih =>
    unfold skip_headers
    cases hf : fgets MAX_LINE_LENGTH stream with
    | none => exact ⟨_, _, rfl⟩
    | some p =>
      obtain ⟨line, rest⟩ := p
      have hlen := fgets_length MAX_LINE_LENGTH _ _ _ (by decide) hf
      simp only
      by_cases hb : cstr line = bytes "\r\n" ∨ cstr line = bytes "\n"
      · rw [if_pos hb]
        exact ⟨_, _, rfl⟩
      · rw [if_neg hb]
        exact ih rest (by omega)

/-- Handling a client returns, whatever the client sends and whichever writes
fail. -/
theorem handle_client_total (fs : List Byte → FsNode) (web_root : List Byte) (w : World) :
    ∃ s w2, handle_client fs web_root w = .ok (s, w2) := by
  unfold handle_client
  cases hf : fgets MAX_LINE_LENGTH w.clnt_r with
  | none => exact ⟨_, _, rfl⟩
  | some p =>
    obtain ⟨buf, rest⟩ := p
    simp only
    split
    · rename_i method request_uri http_version _ _ _ _
      by_cases h1 : method ≠ bytes "GET"
      · rw [if_pos h1]
        exact ⟨_, _, rfl⟩
      rw [if_neg h1]
      by_cases h2 : http_version ≠ bytes "HTTP/1.0" ∧ http_version ≠ bytes "HTTP/1.1"
      · rw [if_pos h2]
        exact ⟨_, _, rfl⟩
      rw [if_neg h2]
      by_cases h3 : request_uri.head? ≠ some 47
      · rw [if_pos h3]
        exact ⟨_, _, rfl⟩
      rw [if_neg h3]
      by_cases h4 : traversal request_uri = true
      · rw [if_pos h4]
        exact ⟨_, _, rfl⟩
      rw [if_neg h4]
      obtain ⟨b, left, hs⟩ := skip_headers_total (rest.length + 1) rest (by omega)
      rw [hs]
      cases b with
      | false => exact ⟨_, _, rfl⟩
      | true =>
        simp only
        by_cases h5 : request_uri = bytes "/mdb-lookup" ∨ request_uri.take 12 = bytes "/mdb-lookup?"
        · rw [if_pos h5]
          obtain ⟨s, w2, h, _⟩ := handle_mdb_request_total request_uri
            (World.log { w with clnt_r := left } (.call_mdb request_uri))
          exact ⟨s, w2, h⟩
        · rw [if_neg h5]
          have hu : request_uri ≠ [] := by
            rintro rfl
            exact h3 (by simp)
          obtain ⟨s, w2, _, h, _⟩ := handle_file_request_total fs web_root request_uri
            (World.log { w with clnt_r := left } (.call_file web_root request_uri)) hu
          exact ⟨s, w2, h⟩
    · exact ⟨_, _, rfl⟩

/-- Handling a client returns, and a URI with which a handler is entered has
passed the two checks on the URI. -/
theorem handle_client_calls (fs : List Byte → FsNode) (web_root : List Byte) (w : World) :
    ∃ s w2 evs, handle_client fs web_root w = .ok (s, w2) ∧ w2.trace = w.trace ++ evs
      ∧ ∀ u, (Event.call_mdb u ∈ evs ∨ ∃ r, Event.call_file r u ∈ evs) →
          u.head? = some 47 ∧ traversal u = false := by
  have hnone : ∀ u, (Event.call_mdb u ∈ ([] : List Event)
      ∨ ∃ r, Event.call_file r u ∈ ([] : List Event)) →
      u.head? = some 47 ∧ traversal u = false := by
    intro u h
    rcases h with h | ⟨_, h⟩ <;> simp at h
  unfold handle_client
  cases hf : fgets MAX_LINE_LENGTH w.clnt_r with
  | none => exact ⟨_, _, [], rfl, by simp, hnone⟩
  | some p =>
    obtain ⟨buf, rest⟩ := p
    simp only
    split
    · rename_i method request_uri http_version _ _ _ _
      by_cases h1 : method ≠ bytes "GET"
      · rw [if_pos h1]
        exact ⟨_, _, [], rfl, by simp, hnone⟩
      rw [if_neg h1]
      by_cases h2 : http_version ≠ bytes "HTTP/1.0" ∧ http_version ≠ bytes "HTTP/1.1"
      · rw [if_pos h2]
        exact ⟨_, _, [], rfl, by simp, hnone⟩
      rw [if_neg h2]
      by_cases h3 : request_uri.head? ≠ some 47
      · rw [if_pos h3]
        exact ⟨_, _, [], rfl, by simp, hnone⟩
      rw [if_neg h3]
      by_cases h4 : traversal request_uri = true
      · rw [if_pos h4]
        exact ⟨_, _, [], rfl, by simp, hnone⟩
      rw [if_neg h4]
      have h3b : request_uri.head? = some 47 := not_not.1 h3
      have h4b : traversal request_uri = false := by simpa using h4
      obtain ⟨b, left, hs⟩ := skip_headers_total (rest.length + 1) rest (by omega)
      rw [hs]
      cases b with
      | false => exact ⟨_, _, [], rfl, by simp, hnone⟩
      | true =>
        simp only
        by_cases h5 : request_uri = bytes "/mdb-lookup" ∨ request_uri.take 12 = bytes "/mdb-lookup?"
        · rw [if_pos h5]
          obtain ⟨s, w2, h, _, ht, _⟩ := handle_mdb_request_total request_uri
            (World.log { w with clnt_r := left } (.call_mdb request_uri))
          refine ⟨s, w2, [Event.call_mdb request_uri], h, by rw [ht]; rfl, ?_⟩
          intro u hu
          rcases hu with hu | ⟨r, hu⟩
          · simp only [List.mem_singleton, Event.call_mdb.injEq] at hu
            subst hu
            exact ⟨h3b, h4b⟩
          · simp at hu
        · rw [if_neg h5]
          have hu : request_uri ≠ [] := by
            rintro rfl
            exact h3 (by simp)
          obtain ⟨s, w2, evs, h, _, ht, hev, _⟩ := handle_file_request_total fs web_root
            request_uri (World.log { w with clnt_r := left } (.call_file web_root request_uri))
            hu
          refine ⟨s, w2, Event.call_file web_root request_uri :: evs, h, ?_, ?_⟩
          · rw [ht]
            simp [World.log]
          · intro u hu2
            rcases hu2 with hu2 | ⟨r, hu2⟩
            · rcases List.mem_cons.1 hu2 with h6 | h6
              · exact absurd h6 (by simp)
              · rcases hev _ h6 with ⟨p, hp⟩ | ⟨p, hp⟩ <;> simp at hp
            · rcases List.mem_cons.1 hu2 with h6 | h6
              · simp only [Event.call_file.injEq] at h6
                rw [h6.2]
                exact ⟨h3b, h4b⟩
              · rcases hev _ h6 with ⟨p, hp⟩ | ⟨p, hp⟩ <;> simp at hp
    · exact ⟨_, _, [], rfl, by simp, hnone⟩

/-! ### The connection to mdb-lookup-server across clients -/

theorem fgetsAux_append (k : Nat) (s : List Byte) :
    (fgetsAux k s).1 ++ (fgetsAux k s).2 = s := by
  induction k generalizing s with
  | zero => simp [fgetsAux]
  | succ k ih =>
    cases s with
    | nil => simp [fgetsAux]
    | cons c s =>
      by_cases hc : c = 10
      · simp [fgetsAux, hc]
      · simp [fgetsAux, hc, ih s]

/-- What `fgets` leaves unread is the end of the stream. -/
theorem fgets_suffix (size : Nat) (s l r : List Byte) (h : fgets size s = some (l, r)) :
    r <:+ s := by
  cases s with
  | nil => simp [fgets] at h
  | cons c s =>
    simp only [fgets, Option.some.injEq] at h
    have := fgetsAux_append (size - 1) (c :: s)
    rw [h] at this
    exact ⟨l, this⟩

@[simp] theorem mdb_send_mdb_r (w : World) (d : List Byte) :
    (w.mdb_send d).2.mdb_r = w.mdb_r := by
  unfold World.mdb_send; split <;> rfl

theorem mdb_send_mdb_w (w : World) (d : List Byte) :
    w.mdb_w <+: (w.mdb_send d).2.mdb_w := by
  unfold World.mdb_send
  split
  · exact List.prefix_append _ _
  · exact List.prefix_refl _

@[simp] theorem send_status_line_mdb_w (w : World) (c : Nat) :
    (send_status_line w c).2.mdb_w = w.mdb_w := by simp [send_status_line]

@[simp] theorem send_status_line_mdb_r (w : World) (c : Nat) :
    (send_status_line w c).2.mdb_r = w.mdb_r := by simp [send_status_line]

@[simp] theorem send_blank_line_mdb_w (w : World) :
    (send_blank_line w).2.mdb_w = w.mdb_w := by simp [send_blank_line]

@[simp] theorem send_blank_line_mdb_r (w : World) :
    (send_blank_line w).2.mdb_r = w.mdb_r := by simp [send_blank_line]

@[simp] theorem send_error_status_mdb_w (w : World) (c : Nat) :
    (send_error_status w c).2.mdb_w = w.mdb_w := by rw [send_error_status_snd]

@[simp] theorem send_error_status_mdb_r (w : World) (c : Nat) :
    (send_error_status w c).2.mdb_r = w.mdb_r := by rw [send_error_status_snd]

/-- The row loop writes nothing to the backend and reads from the start of
what the backend stream holds. -/
theorem mdb_rows_backend (fuel row : Nat) (w : World) (hfuel : w.mdb_r.length < fuel) :
    ∃ b w2, mdb_rows fuel row w = .ok (b, w2) ∧ w2.mdb_w = w.mdb_w
      ∧ w2.mdb_r <:+ w.mdb_r := by
  induction fuel generalizing row w with
  | zero => simp at hfuel
  | succ fuel ih =>
    unfold mdb_rows
    cases hf : fgets 128 w.mdb_r with
    | none => exact ⟨true, w, rfl, rfl, List.suffix_refl _⟩
    | some p =>
      obtain ⟨line, rest⟩ := p
      have hlen := fgets_length 128 _ _ _ (by decide) hf
      have hsuf := fgets_suffix 128 _ _ _ hf
      simp only
      by_cases hblank : cstr line = bytes "\n"
      · rw [if_pos hblank]
        exact ⟨true, _, rfl, rfl, hsuf⟩
      · rw [if_neg hblank]
        by_cases hs : (World.send { w with mdb_r := rest }
            ((if row % 2 = 1 then table_row else table_row_alt) ++ cstr line)).1 = false
        · rw [if_pos hs]
          exact ⟨false, _, rfl, by simp, by simpa using hsuf⟩
        · rw [if_neg hs]
          obtain ⟨b, w2, h1, h2, h3⟩ := ih (row + 1)
            (World.send { w with mdb_r := rest }
              ((if row % 2 = 1 then table_row else table_row_alt) ++ cstr line)).2
            (by simp only [send_mdb_r]; omega)
          refine ⟨b, w2, h1, by simpa using h2, ?_⟩
          simp only [send_mdb_r] at h3
          exact h3.trans hsuf

/-- The lookup handler returns; it adds to what was written to the backend and
reads from the start of what the backend stream holds. -/
theorem handle_mdb_request_backend (request_uri : List Byte) (w : World) :
    ∃ s w2, handle_mdb_request request_uri w = .ok (s, w2) ∧ w.mdb_w <+: w2.mdb_w
      ∧ w2.mdb_r <:+ w.mdb_r := by
  have hp := mdb_send_mdb_w w (request_uri.drop key_uri.length ++ bytes "\n")
  unfold handle_mdb_request
  split
  · simp only
    split
    · exact ⟨200, _, rfl, by simp, by simp⟩
    · split
      · exact ⟨200, _, rfl, by simp, by simp⟩
      · exact ⟨200, _, rfl, by simp, by simp⟩
  · simp only
    split
    · exact ⟨500, _, rfl, by simpa using hp, by simp⟩
    · split
      · exact ⟨200, _, rfl, by simpa using hp, by simp⟩
      · split
        · exact ⟨200, _, rfl, by simpa using hp, by simp⟩
        · split
          · exact ⟨200, _, rfl, by simpa using hp, by simp⟩
          · obtain ⟨b, w4, h1, h2, h3⟩ := mdb_rows_backend
              ((World.send (send_blank_line (send_status_line
                (w.mdb_send (request_uri.drop key_uri.length ++ bytes "\n")).2 200).2).2
                (form ++ table_header)).2.mdb_r.length + 1) 1
              (World.send (send_blank_line (send_status_line
                (w.mdb_send (request_uri.drop key_uri.length ++ bytes "\n")).2 200).2).2
                (form ++ table_header)).2 (by omega)
            rw [h1]
            simp only [send_mdb_w, send_blank_line_mdb_w, send_status_line_mdb_w, send_mdb_r,
              send_blank_line_mdb_r, send_status_line_mdb_r, mdb_send_mdb_r] at h2 h3
            cases b with
            | false => exact ⟨200, _, rfl, by rw [h2]; exact hp, h3⟩
            | true => exact ⟨200, _, rfl, by simp only [send_mdb_w]; rw [h2]; exact hp,
                by simpa using h3⟩

/-- The static handler returns and leaves the connection to the backend as it
was. -/
theorem handle_file_request_backend (fs : List Byte → FsNode)
    (web_root request_uri : List Byte) (w : World) (hu : request_uri ≠ []) :
    ∃ s w2, handle_file_request fs web_root request_uri w = .ok (s, w2)
      ∧ w2.mdb_w = w.mdb_w ∧ w2.mdb_r = w.mdb_r := by
  by_cases hlen : web_root.length + request_uri.length + 12 ≤ PATH_MAX
  · rw [handle_file_request_guarded fs web_root request_uri w hu hlen]
    by_cases hdir : fs (candidate_path web_root request_uri) = .dir
    · rw [if_pos hdir, send301_snd]
      exact ⟨_, _, rfl, rfl, rfl⟩
    · rw [if_neg hdir]
      cases hfs : fs (candidate_path web_root request_uri) with
      | absent =>
        rw [send_error_status_snd]
        exact ⟨_, _, rfl, rfl, rfl⟩
      | dir => exact absurd hfs hdir
      | file contents => exact ⟨_, _, rfl, rfl, rfl⟩
  · rw [handle_file_request_long fs web_root request_uri w (by omega)]
    exact ⟨_, _, rfl, rfl, rfl⟩

/-- Handling a client returns; it adds to what was written to the backend and
reads from the start of what the backend stream holds. -/
theorem handle_client_backend (fs : List Byte → FsNode) (web_root : List Byte) (w : World) :
    ∃ s w2, handle_client fs web_root w = .ok (s, w2) ∧ w.mdb_w <+: w2.mdb_w
      ∧ w2.mdb_r <:+ w.mdb_r := by
  unfold handle_client
  cases hf : fgets MAX_LINE_LENGTH w.clnt_r with
  | none => exact ⟨_, _, rfl, List.prefix_refl _, List.suffix_refl _⟩
  | some p =>
    obtain ⟨buf, rest⟩ := p
    simp only
    split
    · rename_i method request_uri http_version _ _ _ _
      by_cases h1 : method ≠ bytes "GET"
      · rw [if_pos h1]
        exact ⟨_, _, rfl, by simp, by simp⟩
      rw [if_neg h1]
      by_cases h2 : http_version ≠ bytes "HTTP/1.0" ∧ http_version ≠ bytes "HTTP/1.1"
      · rw [if_pos h2]
        exact ⟨_, _, rfl, by simp, by simp⟩
      rw [if_neg h2]
      by_cases h3 : request_uri.head? ≠ some 47
      · rw [if_pos h3]
        exact ⟨_, _, rfl, by simp, by simp⟩
      rw [if_neg h3]
      by_cases h4 : traversal request_uri = true
      · rw [if_pos h4]
        exact ⟨_, _, rfl, by simp, by simp⟩
      rw [if_neg h4]
      obtain ⟨b, left, hs⟩ := skip_headers_total (rest.length + 1) rest (by omega)
      rw [hs]
      cases b with
      | false => exact ⟨_, _, rfl, List.prefix_refl _, List.suffix_refl _⟩
      | true =>
        simp only
        by_cases h5 : request_uri = bytes "/mdb-lookup" ∨ request_uri.take 12 = bytes "/mdb-lookup?"
        · rw [if_pos h5]
          exact handle_mdb_request_backend request_uri
            (World.log { w with clnt_r := left } (.call_mdb request_uri))
        · rw [if_neg h5]
          have hu : request_uri ≠ [] := by
            rintro rfl
            exact h3 (by simp)
          obtain ⟨s, w2, h, hw, hr⟩ := handle_file_request_backend fs web_root request_uri
            (World.log { w with clnt_r := left } (.call_file web_root request_uri)) hu
          refine ⟨s, w2, h, ?_, ?_⟩
          · rw [hw]; exact List.prefix_refl _
          · rw [hr]; exact List.suffix_refl _
    · exact ⟨_, _, rfl, by simp, by simp⟩

/-- When `accept`, `inet_ntop` and `fdopen` succeed at the first attempts, the
loop handles them to the end and goes on with the attempts that follow, from
the state in which the last of them left the server. -/
theorem accept_loop_append (fs : List Byte → FsNode) (web_root : List Byte)
    (before more : List Conn) (s : Server)
    (h : ∀ c ∈ before, c.accept_ok = true ∧ c.ntop_ok = true ∧ c.fdopen_r_ok = true
      ∧ c.fdopen_w_ok = true) :
    ∃ s1, accept_loop fs web_root before s = .ok (none, s1)
      ∧ s1.served.length = s.served.length + before.length
      ∧ s.mdb_w <+: s1.mdb_w ∧ s1.mdb_r <:+ s.mdb_r
      ∧ accept_loop fs web_root (before ++ more) s = accept_loop fs web_root more s1 := by
  induction before generalizing s with
  | nil => exact ⟨s, rfl, rfl, List.prefix_refl _, List.suffix_refl _, rfl⟩
  | cons c before ih =>
    obtain ⟨h1, h2, h3, h4⟩ := h c (List.mem_cons_self _ _)
    obtain ⟨st, w2, hc, hw, hr⟩ := handle_client_backend fs web_root (s.world c)
    obtain ⟨s1, hs1, hlen, hw1, hr1, happ⟩ := ih
      { mdb_w := w2.mdb_w, mdb_r := w2.mdb_r, trace := w2.trace,
        served := s.served ++ [(st, w2.clnt_w)] }
      (fun x hx => h x (List.mem_cons_of_mem _ hx))
    refine ⟨s1, ?_, ?_, hw.trans hw1, hr1.trans hr, ?_⟩
    · simp only [accept_loop, handle_client_fd, h1, h2, h3, h4, hc, Bool.true_eq_false,
        if_false]
      exact hs1
    · rw [hlen]
      simp only [List.length_append, List.length_cons, List.length_nil]
      omega
    · simp only [List.cons_append, accept_loop, handle_client_fd, h1, h2, h3, h4, hc,
        Bool.true_eq_false, if_false]
      exact happ

/-- When `accept`, `inet_ntop` and `fdopen` succeed at every attempt, the loop
handles every client and is still running after the last. -/
theorem accept_loop_runs (fs : List Byte → FsNode) (web_root : List Byte) (conns : List Conn)
    (s : Server)
    (h : ∀ c ∈ conns, c.accept_ok = true ∧ c.ntop_ok = true ∧ c.fdopen_r_ok = true
      ∧ c.fdopen_w_ok = true) :
    ∃ s2, accept_loop fs web_root conns s = .ok (none, s2)
      ∧ s2.served.length = s.served.length + conns.length := by
  induction conns generalizing s with
  | nil => exact ⟨s, rfl, rfl⟩
  | cons c conns ih =>
    obtain ⟨h1, h2, h3, h4⟩ := h c (List.mem_cons_self _ _)
    obtain ⟨st, w2, hc⟩ := handle_client_total fs web_root (s.world c)
    obtain ⟨s2, hs2, hlen⟩ := ih
      { mdb_w := w2.mdb_w, mdb_r := w2.mdb_r, trace := w2.trace,
        served := s.served ++ [(st, w2.clnt_w)] }
      (fun x hx => h x (List.mem_cons_of_mem _ hx))
    refine ⟨s2, ?_, ?_⟩
    · simp only [accept_loop, handle_client_fd, h1, h2, h3, h4, hc, Bool.true_eq_false,
        if_false]
      exact hs2
    · rw [hlen]
      simp only [List.length_append, List.length_cons, List.length_nil]
      omega

/-- A failed `accept`, `inet_ntop` or `fdopen` ends the process with status
1. -/
theorem accept_loop_dies (fs : List Byte → FsNode) (web_root : List Byte) (c : Conn)
    (conns : List Conn) (s : Server)
    (h : c.accept_ok = false ∨ c.ntop_ok = false ∨ c.fdopen_r_ok = false
      ∨ c.fdopen_w_ok = false) :
    accept_loop fs web_root (c :: conns) s = .ok (some 1, s) := by
  obtain ⟨a, n, fr, fw, r, ok, mok⟩ := c
  simp only at h
  cases a <;> cases n <;> cases fr <;> cases fw <;> simp at h <;>
    simp [accept_loop, handle_client_fd]

end HttpServer

namespace MdbLookupServer

/-! ### The accept loop -/

/-- When `accept` and `fork` succeed at every attempt, the parent forks one
child for each and is still running after the last. -/
theorem parent_loop_runs (N M : Nat) (conns : List Conn)
    (children : List (Except Err (Nat × World)))
    (h : ∀ c ∈ conns, c.accept_ok = true ∧ c.fork_ok = true) :
    accept_loop N M conns children = (none, children ++ conns.map (child N M)) := by
  induction conns generalizing children with
  | nil => simp [accept_loop]
  | cons c conns ih =>
    obtain ⟨h1, h2⟩ := h c (List.mem_cons_self _ _)
    simp only [accept_loop, h1, h2, Bool.true_eq_false, if_false]
    rw [ih _ (fun x hx => h x (List.mem_cons_of_mem _ hx))]
    simp

/-- A failed `accept` or `fork` ends the parent with status 1. -/
theorem parent_loop_dies (N M : Nat) (c : Conn) (conns : List Conn)
    (children : List (Except Err (Nat × World)))
    (h : c.accept_ok = false ∨ c.fork_ok = false) :
    accept_loop N M (c :: conns) children = (some 1, children) := by
  rcases h with h | h
  · simp [accept_loop, h]
  · by_cases ha : c.accept_ok = false
    · simp [accept_loop, ha]
    · simp [accept_loop, ha, h]

end MdbLookupServer

namespace MdbAdd

/-! ### The record appender -/

theorem cstr_pad (t : List Byte) (h0 : 0 ∉ t) (tl : List Byte) :
    cstr (t ++ (0 :: tl)) = t := by
  unfold cstr
  rw [List.takeWhile_append_of_pos]
  · simp
  · intro c hc
    have : c ≠ 0 := fun h => h0 (h ▸ hc)
    simpa using this

/-- Copying a chunk without NUL into a field and removing the newline at its
end. -/
theorem read_field_chunk (size : Nat) (pre : List Byte) (c : Byte) (h0 : 0 ∉ pre ++ [c])
    (hlen : (pre ++ [c]).length ≤ size - 1) :
    read_field size (pre ++ [c])
      = .ok (field_of size (if c = 10 then pre else pre ++ [c])) := by
  have hc : cstr (pre ++ [c]) = pre ++ [c] := MdbLookupServer.cstr_of_no_nul _ h0
  have hfield : strncpy (pre ++ [c]) (size - 1) ++ [0]
      = (pre ++ [c]) ++ (0 :: List.replicate (size - 1 - (pre ++ [c]).length) 0) := by
    rw [strncpy, hc, List.take_of_length_le hlen, List.append_assoc]
    congr 1
    rw [← List.replicate_succ, List.replicate_succ']
  have hcf : cstr (strncpy (pre ++ [c]) (size - 1) ++ [0]) = pre ++ [c] := by
    rw [hfield]
    exact cstr_pad _ h0 _
  simp only [List.length_append, List.length_singleton] at hlen
  unfold read_field
  simp only [hcf]
  rw [hfield]
  simp only [List.length_append, List.length_singleton, Nat.add_one_ne_zero, if_false,
    Nat.add_sub_cancel]
  have hget : (pre ++ [c] ++ 0 :: List.replicate (size - 1 - (pre.length + 1)) 0).get? pre.length
      = some c := by
    rw [List.append_assoc, List.get?_eq_getElem?, List.getElem?_append_right (Nat.le_refl _)]
    simp
  rw [hget]
  by_cases h10 : c = 10
  · subst h10
    simp only [if_true]
    congr 1
    rw [List.append_assoc, List.set_append_right _ _ (Nat.le_refl _)]
    simp only [Nat.sub_self, List.singleton_append, List.set_cons_zero, field_of]
    congr 1
    rw [← List.replicate_succ, ← List.replicate_succ]
    congr 1
    omega
  · have : ¬ (some c = some 10) := fun h => h10 (Option.some.inj h)
    simp only [this, if_false, h10, field_of, List.length_append, List.length_singleton]
    congr 2
    rw [← List.replicate_succ]
    congr 1
    omega

/-- Only the first `size - 1` bytes of the line buffer reach the field. -/
theorem read_field_take (size : Nat) (chunk : List Byte) (h0 : 0 ∉ chunk) :
    read_field size chunk = read_field size (chunk.take (size - 1)) := by
  have h1 : cstr chunk = chunk := MdbLookupServer.cstr_of_no_nul _ h0
  have h2 : cstr (chunk.take (size - 1)) = chunk.take (size - 1) :=
    MdbLookupServer.cstr_of_no_nul _ (fun h => h0 (List.mem_of_mem_take h))
  have hs : strncpy chunk (size - 1) = strncpy (chunk.take (size - 1)) (size - 1) := by
    rw [strncpy, strncpy, h1, h2, List.take_take, Nat.min_self, List.length_take]
    congr 2
    omega
  unfold read_field
  rw [hs]

/-- The text that a chunk of the line leaves in a field: its first `k` bytes,
without the newline at their end. -/
theorem read_field_line (size : Nat) (chunk : List Byte) (h0 : 0 ∉ chunk) (hne : chunk ≠ [])
    (hs : 2 ≤ size) :
    read_field size chunk
      = .ok (field_of size
          (if (chunk.take (size - 1)).getLast? = some 10 then (chunk.take (size - 1)).dropLast
            else chunk.take (size - 1))) := by
  have htne : chunk.take (size - 1) ≠ [] := by
    intro h
    have := congrArg List.length h
    have hl : 0 < chunk.length := List.length_pos.2 hne
    simp only [List.length_take, List.length_nil] at this
    omega
  have hlen : (chunk.take (size - 1)).length ≤ size - 1 := by
    rw [List.length_take]; omega
  rw [read_field_take size chunk h0]
  obtain ⟨pre, c, ht⟩ : ∃ pre c, chunk.take (size - 1) = pre ++ [c] :=
    ⟨_, _, (List.dropLast_append_getLast htne).symm⟩
  have h0t : 0 ∉ pre ++ [c] := by
    rw [← ht]; exact fun h => h0 (List.mem_of_mem_take h)
  rw [ht] at hlen ⊢
  rw [read_field_chunk size pre c h0t hlen]
  by_cases h10 : c = 10
  · simp [h10]
  · have : ¬ (some c = some 10) := fun h => h10 (Option.some.inj h)
    simp [h10]

/-- The first bytes of a line, without the newline at their end, are the first
bytes of its text. -/
theorem strip_take_line (name : List Byte) (k : Nat) (h10 : 10 ∉ name) :
    (if ((name ++ [10]).take k).getLast? = some 10 then ((name ++ [10]).take k).dropLast
      else (name ++ [10]).take k) = name.take k := by
  by_cases hk : k ≤ name.length
  · rw [List.take_append_of_le_length hk]
    have : ¬ ((name.take k).getLast? = some 10) := by
      intro h
      exact h10 (List.mem_of_mem_take (List.mem_of_getLast?_eq_some h))
    rw [if_neg this]
  · have hk2 : (name ++ [10]).length ≤ k := by
      simp only [List.length_append, List.length_singleton]; omega
    rw [List.take_of_length_le hk2, List.take_of_length_le (by omega)]
    simp

/-- Reading one line of the input, of any length: the field gets the first
`size - 1` bytes of the text of the line, and the input is read up to and
including the newline of the line. -/
theorem read_line (size : Nat) (name rest : List Byte) (hs : 2 ≤ size) (hs2 : size ≤ 1024)
    (h10 : 10 ∉ name) (h0 : 0 ∉ name) :
    ∃ line rest1, fgets 1024 (name ++ 10 :: rest) = some (line, rest1)
      ∧ read_field size line = .ok (field_of size (name.take (size - 1)))
      ∧ MdbLookupServer.drain (rest1.length + 1) line rest1 = .ok rest := by
  have hf := MdbLookupServer.fgets_first name rest h10
  by_cases hlen : name.length < 1023
  · rw [if_pos hlen] at hf
    have h0l : 0 ∉ name ++ [10] := by simp [h0]
    refine ⟨_, _, hf, ?_, MdbLookupServer.drain_done _ _ _ h0l (by simp)⟩
    rw [read_field_line size _ h0l (by simp) hs, strip_take_line name _ h10]
  · rw [if_neg hlen] at hf
    have h0l : 0 ∉ name.take 1023 := fun h => h0 (List.mem_of_mem_take h)
    have hne : name.take 1023 ≠ [] := by
      intro h
      have := congrArg List.length h
      simp only [List.length_take, List.length_nil] at this
      omega
    refine ⟨_, _, hf, ?_, ?_⟩
    · rw [read_field_line size _ h0l hne hs, List.take_take,
        Nat.min_eq_left (by omega : size - 1 ≤ 1023)]
      have : ¬ ((name.take (size - 1)).getLast? = some 10) := by
        intro h
        exact h10 (List.mem_of_mem_take (List.mem_of_getLast?_eq_some h))
      rw [if_neg this]
    · apply MdbLookupServer.drain_line
      · exact h0l
      · exact hne
      · exact fun h => h10 (List.mem_of_mem_take h)
      · exact fun h => h0 (List.mem_of_mem_drop h)
      · exact fun h => h10 (List.mem_of_mem_drop h)
      · simp only [List.length_append, List.length_cons]; omega

theorem blanked_length (s : List Byte) : (blanked s).length = s.length := by
  simp [blanked]

theorem blanked_no_nul (s : List Byte) : 0 ∉ blanked s := by
  intro h
  obtain ⟨c, _, hc⟩ := List.mem_map.1 h
  by_cases hp : isprint c = true
  · rw [if_pos hp] at hc
    subst hc
    simp [isprint] at hp
  · rw [if_neg hp] at hc
    exact absurd hc (by decide)

theorem blanked_of_printable (s : List Byte) (h : ∀ c ∈ s, 32 ≤ c ∧ c ≤ 126) :
    blanked s = s := by
  unfold blanked
  conv_rhs => rw [← List.map_id s]
  apply List.map_congr_left
  intro c hc
  have : isprint c = true := by simp [isprint, h c hc]
  simp [this]

theorem field_of_length (size : Nat) (s : List Byte) (h : s.length ≤ size) :
    (field_of size s).length = size := by
  simp only [field_of, List.length_append, List.length_replicate]; omega

theorem cstr_field_of (size : Nat) (s : List Byte) (h0 : 0 ∉ s) (h : s.length < size) :
    cstr (field_of size s) = s := by
  obtain ⟨k, hk⟩ : ∃ k, size - s.length = k + 1 := ⟨size - s.length - 1, by omega⟩
  rw [field_of, hk, List.replicate_succ]
  exact cstr_pad _ h0 _

theorem nul_mem_field_of (size : Nat) (s : List Byte) (h : s.length < size) :
    0 ∈ field_of size s := by
  obtain ⟨k, hk⟩ : ∃ k, size - s.length = k + 1 := ⟨size - s.length - 1, by omega⟩
  rw [field_of, hk, List.replicate_succ]
  simp

/-- Sanitizing a field blanks its text and leaves the padding. -/
theorem sanitize_field_of (size : Nat) (s : List Byte) (h0 : 0 ∉ s) (h : s.length < size) :
    sanitize (field_of size s) = .ok (field_of size (blanked s)) := by
  have hc := cstr_field_of size s h0 h
  have hm := nul_mem_field_of size s h
  simp only [sanitize, hm, if_true, hc]
  congr 1
  simp [field_of, blanked]

theorem take_left_of_length (a b : List Byte) (k : Nat) (h : a.length = k) :
    (a ++ b).take k = a := by
  subst h; exact List.take_left _ _

theorem drop_left_of_length (a b : List Byte) (k : Nat) (h : a.length = k) :
    (a ++ b).drop k = b := by
  subst h; exact List.drop_left _ _

/-- Loading a file of whole records to which one record was appended yields
the records of the file and then the new record. -/
theorem load_appended (S n : Nat) (file rec : List Byte) (hS : 0 < S)
    (hfile : file.length = n * S) (hrec : rec.length = S) :
    MdbLookupServer.load ((file ++ rec).length + 1) S (file ++ rec) []
      = .ok ((List.range n).map (fun i => (file.drop (i * S)).take S) ++ [rec]) := by
  have hn : n ≤ n * S := Nat.le_mul_of_pos_right n hS
  rw [MdbLookupServer.load_chunks S 0 hS (n + 1) (file ++ rec) _ []
    (by rw [List.length_append, hfile, hrec, Nat.succ_mul]; rfl)
    (by rw [List.length_append, hfile, hrec]; omega)]
  rw [List.nil_append, List.range_succ, List.map_append]
  congr 2
  · apply List.map_congr_left
    intro i hi
    have hi2 : i < n := List.mem_range.1 hi
    have h1 : i * S + S ≤ n * S := by
      have : (i + 1) * S ≤ n * S := Nat.mul_le_mul_right S hi2
      rwa [Nat.succ_mul] at this
    rw [List.drop_append_of_le_length (by omega),
      List.take_append_of_le_length (by rw [List.length_drop]; omega)]
  · simp only [List.map_cons, List.map_nil]
    rw [← hfile, List.drop_left, ← hrec, List.take_length]

/-- A run of mdb-add on a database of whole records and an input of two lines
without NUL. -/
theorem main_lines (N M n : Nat) (name msg rest : List Byte) (w : World)
    (hN : 2 ≤ N) (hN2 : N ≤ 1024) (hM : 2 ≤ M) (hM2 : M ≤ 1024)
    (hfile : w.file.length = n * MdbLookupServer.sizeof_MdbRec N M)
    (hn10 : 10 ∉ name) (hn0 : 0 ∉ name) (hm10 : 10 ∉ msg) (hm0 : 0 ∉ msg)
    (hin : w.stdin = name ++ 10 :: (msg ++ 10 :: rest)) :
    main N M w
      = .ok (0,
          { stdin := rest
            stdout := w.stdout
              ++ (bytes "name please (will truncate to " ++ fmt_d (N - 1) ++ bytes " chars): ")
              ++ (bytes "msg please (will truncate to " ++ fmt_d (M - 1) ++ bytes " chars): ")
              ++ (MdbLookupServer.fmt_4d (n + 1) ++ bytes ": \x7b" ++ name.take (N - 1)
                ++ bytes "\x7d said \x7b" ++ msg.take (M - 1) ++ bytes "\x7d\n")
            file := w.file
              ++ (field_of N (blanked (name.take (N - 1)))
                ++ field_of M (blanked (msg.take (M - 1)))) }) := by
  have hS : 0 < MdbLookupServer.sizeof_MdbRec N M := by
    simp only [MdbLookupServer.sizeof_MdbRec]; omega
  have hle : n ≤ n * MdbLookupServer.sizeof_MdbRec N M := Nat.le_mul_of_pos_right n hS
  have hload := MdbLookupServer.load_chunks (MdbLookupServer.sizeof_MdbRec N M) 0 hS n w.file
    (w.file.length + 1) [] hfile (by omega)
  obtain ⟨l1, r1, hf1, hr1, hd1⟩ := read_line N name (msg ++ 10 :: rest) hN hN2 hn10 hn0
  obtain ⟨l2, r2, hf2, hr2, hd2⟩ := read_line M msg rest hM hM2 hm10 hm0
  have hn0t : 0 ∉ name.take (N - 1) := fun h => hn0 (List.mem_of_mem_take h)
  have hm0t : 0 ∉ msg.take (M - 1) := fun h => hm0 (List.mem_of_mem_take h)
  have hnl : (name.take (N - 1)).length < N := by rw [List.length_take]; omega
  have hml : (msg.take (M - 1)).length < M := by rw [List.length_take]; omega
  obtain ⟨i, o, f⟩ := w
  simp only at hfile hin hload
  subst hin
  simp only [main, loadmdb, hload, World.print, hf1, hr1, hd1, hf2, hr2, hd2,
    sanitize_field_of N _ hn0t hnl, sanitize_field_of M _ hm0t hml,
    cstr_field_of N _ hn0t hnl, cstr_field_of M _ hm0t hml]
  simp

end MdbAdd

/-! ## The claims -/

namespace HttpServer

/-- C1, as stated, fails: the request line `PUT /a/../b HTTP/1.0` has a URI
token that contains "/../", and `handle_client` answers it with status 501, not
400 (no handler is called). -/
theorem C1_counterexample :
    bytes "/../" <:+: bytes "/a/../b"
    ∧ tokens token_separators (cstr (bytes "PUT /a/../b HTTP/1.0\r\n"))
        = [bytes "PUT", bytes "/a/../b", bytes "HTTP/1.0"]
    ∧ handle_client (fun _ => FsNode.absent) (bytes "/www")
        (World.init (bytes "PUT /a/../b HTTP/1.0\r\n\r\n") [])
      = .ok (501,
          { World.init (bytes "\r\n") [] with
            clnt_w := bytes ("HTTP/1.0 501 Not Implemented\r\n\r\n"
              ++ "<html><body>\n<h1>501 Not Implemented</h1>\n</body></html>\n") }) := by
  refine ⟨by decide, by decide, ?_⟩
  rfl

/-- C1, amended: for every request line of exactly three tokens whose URI token
contains "/../" or ends in "/..", `handle_client` sends an error response and
calls neither handler nor the file system (the record of calls is unchanged).
The status is 400 when the method is GET and the version is HTTP/1.0 or
HTTP/1.1, and 501 otherwise. -/
theorem C1_traversal_rejected (fs : List Byte → FsNode) (web_root : List Byte) (w : World)
    (buf rest m u v : List Byte)
    (hf : fgets MAX_LINE_LENGTH w.clnt_r = some (buf, rest))
    (ht : tokens token_separators (cstr buf) = [m, u, v])
    (hu : bytes "/../" <:+: u ∨ bytes "/.." <:+ u) :
    handle_client fs web_root w =
      .ok (if m = bytes "GET" ∧ (v = bytes "HTTP/1.0" ∨ v = bytes "HTTP/1.1") then 400 else 501,
        { w with
          clnt_r := rest
          clnt_w := w.clnt_w ++
            (if w.clnt_ok then
              error_page
                (if m = bytes "GET" ∧ (v = bytes "HTTP/1.0" ∨ v = bytes "HTTP/1.1")
                  then 400 else 501)
            else []) }) := by
  rw [handle_client_three fs web_root w buf rest m u v hf ht]
  have htr := (traversal_iff u).2 hu
  by_cases hm : m = bytes "GET"
  · by_cases hv : v = bytes "HTTP/1.0" ∨ v = bytes "HTTP/1.1"
    · have hv2 : ¬ (v ≠ bytes "HTTP/1.0" ∧ v ≠ bytes "HTTP/1.1") := by
        rintro ⟨a, b⟩; rcases hv with h | h <;> contradiction
      have hst : (if m = bytes "GET" ∧ (v = bytes "HTTP/1.0" ∨ v = bytes "HTTP/1.1")
          then 400 else 501) = 400 := if_pos ⟨hm, hv⟩
      simp only [hst]
      rw [if_neg (not_not.2 hm), if_neg hv2]
      by_cases hs : u.head? ≠ some 47
      · rw [if_pos hs, send_error_status_snd]
      · rw [if_neg hs, if_pos htr, send_error_status_snd]
    · have hv2 : v ≠ bytes "HTTP/1.0" ∧ v ≠ bytes "HTTP/1.1" :=
        ⟨fun h => hv (Or.inl h), fun h => hv (Or.inr h)⟩
      have hst : (if m = bytes "GET" ∧ (v = bytes "HTTP/1.0" ∨ v = bytes "HTTP/1.1")
          then 400 else 501) = 501 := if_neg (fun h => hv h.2)
      simp only [hst]
      rw [if_neg (not_not.2 hm), if_pos hv2, send_error_status_snd]
  · have hst : (if m = bytes "GET" ∧ (v = bytes "HTTP/1.0" ∨ v = bytes "HTTP/1.1")
        then 400 else 501) = 501 := if_neg (fun h => hm h.1)
    simp only [hst]
    rw [if_pos hm, send_error_status_snd]

/-- C1, amended, at the request `GET /a/../b HTTP/1.1`: the hypotheses hold, the
status is 400, the client is sent the page of the 400 response, and no call is
recorded. -/
theorem C1_traversal_rejected_witness :
    fgets MAX_LINE_LENGTH (World.init (bytes "GET /a/../b HTTP/1.1\r\n\r\n") []).clnt_r
        = some (bytes "GET /a/../b HTTP/1.1\r\n", bytes "\r\n")
    ∧ tokens token_separators (cstr (bytes "GET /a/../b HTTP/1.1\r\n"))
        = [bytes "GET", bytes "/a/../b", bytes "HTTP/1.1"]
    ∧ bytes "/../" <:+: bytes "/a/../b"
    ∧ handle_client (fun _ => FsNode.absent) (bytes "/www")
        (World.init (bytes "GET /a/../b HTTP/1.1\r\n\r\n") [])
      = .ok (400,
          { World.init (bytes "\r\n") [] with
            clnt_w := bytes ("HTTP/1.0 400 Bad Request\r\n\r\n"
              ++ "<html><body>\n<h1>400 Bad Request</h1>\n</body></html>\n") }) :=
  ⟨by decide, by decide, by decide,
    C1_traversal_rejected (fun _ => FsNode.absent) (bytes "/www")
      (World.init (bytes "GET /a/../b HTTP/1.1\r\n\r\n") [])
      (bytes "GET /a/../b HTTP/1.1\r\n") (bytes "\r\n")
      (bytes "GET") (bytes "/a/../b") (bytes "HTTP/1.1")
      (by decide) (by decide) (Or.inl (by decide))⟩

/-- C2, as stated, fails: the request `GET /.. HTTP/1.0` followed by an empty
line has three tokens, method GET, a supported version and a URI that starts
with a slash and does not contain "/../"; `handle_client` answers it with
status 400 and calls no handler. -/
theorem C2_counterexample :
    tokens token_separators (cstr (bytes "GET /.. HTTP/1.0\r\n"))
        = [bytes "GET", bytes "/..", bytes "HTTP/1.0"]
    ∧ (bytes "/..").head? = some 47
    ∧ ¬ bytes "/../" <:+: bytes "/.."
    ∧ handle_client (fun _ => FsNode.absent) (bytes "/www")
        (World.init (bytes "GET /.. HTTP/1.0\r\n\r\n") [])
      = .ok (400,
          { World.init (bytes "\r\n") [] with
            clnt_w := bytes ("HTTP/1.0 400 Bad Request\r\n\r\n"
              ++ "<html><body>\n<h1>400 Bad Request</h1>\n</body></html>\n") }) := by
  refine ⟨by decide, by decide, by decide, ?_⟩
  rfl

/-- C2, amended: a request line of exactly three tokens with method GET, version
HTTP/1.0 or HTTP/1.1 and a URI that starts with a slash, does not contain
"/../" and does not end in "/..", followed by header lines of any length and an
empty line, is accepted: `handle_client` returns, the status is 200, 301, 404
or 500 (so neither 400 nor 501), and the first call recorded is the entry into
one of the two handlers with that URI. -/
theorem C2_valid_request_accepted (fs : List Byte → FsNode) (web_root : List Byte)
    (w : World) (buf rest u v : List Byte) (hs : List (List Byte)) (blank tail : List Byte)
    (hf : fgets MAX_LINE_LENGTH w.clnt_r = some (buf, rest))
    (ht : tokens token_separators (cstr buf) = [bytes "GET", u, v])
    (hv : v = bytes "HTTP/1.0" ∨ v = bytes "HTTP/1.1")
    (hslash : u.head? = some 47)
    (hno1 : ¬ bytes "/../" <:+: u)
    (hno2 : ¬ bytes "/.." <:+ u)
    (hrest : rest = hs.flatten ++ blank ++ tail)
    (hh : ∀ h ∈ hs, IsLine h)
    (hb : IsBlank blank) :
    ∃ s w2 evs, handle_client fs web_root w = .ok (s, w2)
      ∧ s ≠ 400 ∧ s ≠ 501
      ∧ (s = 200 ∨ s = 301 ∨ s = 404 ∨ s = 500)
      ∧ (w2.trace = w.trace ++ Event.call_mdb u :: evs
          ∨ w2.trace = w.trace ++ Event.call_file web_root u :: evs) := by
  obtain ⟨left, hskip⟩ := skip_headers_accepts (rest.length + 1) hs blank tail hh hb
    (by rw [hrest]; omega)
  rw [← hrest] at hskip
  obtain ⟨s, w2, evs, h1, h2, h3, _, _⟩ := handle_client_dispatched fs web_root w buf rest u v
    left hf ht hv hslash (traversal_eq_false u hno1 hno2) hskip
  refine ⟨s, w2, evs, h1, ?_, ?_, h2, ?_⟩
  · rcases h2 with h | h | h | h <;> omega
  · rcases h2 with h | h | h | h <;> omega
  · rw [h3]
    split
    · exact Or.inl rfl
    · exact Or.inr rfl

/-- C2, amended, at the request `GET /x HTTP/1.0` with one header line: the
hypotheses hold and the request is dispatched. -/
theorem C2_valid_request_accepted_witness :
    ∃ s w2 evs, handle_client (fun _ => FsNode.absent) (bytes "/www")
        (World.init (bytes "GET /x HTTP/1.0\r\nHost: a\r\n\r\n") []) = .ok (s, w2)
      ∧ s ≠ 400 ∧ s ≠ 501
      ∧ (s = 200 ∨ s = 301 ∨ s = 404 ∨ s = 500)
      ∧ (w2.trace = [] ++ Event.call_mdb (bytes "/x") :: evs
          ∨ w2.trace = [] ++ Event.call_file (bytes "/www") (bytes "/x") :: evs) :=
  C2_valid_request_accepted (fun _ => FsNode.absent) (bytes "/www")
    (World.init (bytes "GET /x HTTP/1.0\r\nHost: a\r\n\r\n") [])
    (bytes "GET /x HTTP/1.0\r\n") (bytes "Host: a\r\n\r\n") (bytes "/x") (bytes "HTTP/1.0")
    [bytes "Host: a\r\n"] (bytes "\r\n") []
    (by decide) (by decide) (Or.inl rfl) (by decide) (by decide) (by decide) (by decide)
    (by decide) (by decide)

/-- C3: a request line of exactly three tokens that violates exactly one of the
four conditions (method is GET; version is HTTP/1.0 or HTTP/1.1; URI starts with
a slash; URI has no "/../" and does not end in "/..") gets an error response
and no handler is called (the record of calls is unchanged): status 501 when
the method or the version is the violated condition, 400 when it is one of the
two conditions on the URI. -/
theorem C3_single_violation (fs : List Byte → FsNode) (web_root : List Byte) (w : World)
    (buf rest m u v : List Byte)
    (hf : fgets MAX_LINE_LENGTH w.clnt_r = some (buf, rest))
    (ht : tokens token_separators (cstr buf) = [m, u, v])
    (hone :
      (¬ m = bytes "GET" ∧ (v = bytes "HTTP/1.0" ∨ v = bytes "HTTP/1.1")
          ∧ u.head? = some 47 ∧ ¬ (bytes "/../" <:+: u ∨ bytes "/.." <:+ u))
      ∨ (m = bytes "GET" ∧ ¬ (v = bytes "HTTP/1.0" ∨ v = bytes "HTTP/1.1")
          ∧ u.head? = some 47 ∧ ¬ (bytes "/../" <:+: u ∨ bytes "/.." <:+ u))
      ∨ (m = bytes "GET" ∧ (v = bytes "HTTP/1.0" ∨ v = bytes "HTTP/1.1")
          ∧ ¬ u.head? = some 47 ∧ ¬ (bytes "/../" <:+: u ∨ bytes "/.." <:+ u))
      ∨ (m = bytes "GET" ∧ (v = bytes "HTTP/1.0" ∨ v = bytes "HTTP/1.1")
          ∧ u.head? = some 47 ∧ (bytes "/../" <:+: u ∨ bytes "/.." <:+ u))) :
    handle_client fs web_root w =
      .ok (if ¬ m = bytes "GET" ∨ ¬ (v = bytes "HTTP/1.0" ∨ v = bytes "HTTP/1.1")
            then 501 else 400,
        { w with
          clnt_r := rest
          clnt_w := w.clnt_w ++
            (if w.clnt_ok then
              error_page
                (if ¬ m = bytes "GET" ∨ ¬ (v = bytes "HTTP/1.0" ∨ v = bytes "HTTP/1.1")
                  then 501 else 400)
            else []) }) := by
  rw [handle_client_three fs web_root w buf rest m u v hf ht]
  rcases hone with ⟨hm, hv, _, _⟩ | ⟨hm, hv, _, _⟩ | ⟨hm, hv, hs, _⟩ | ⟨hm, hv, hs, htr⟩
  · have hst : (if ¬ m = bytes "GET" ∨ ¬ (v = bytes "HTTP/1.0" ∨ v = bytes "HTTP/1.1")
        then 501 else 400) = 501 := if_pos (Or.inl hm)
    simp only [hst]
    rw [if_pos hm, send_error_status_snd]
  · have hv2 : v ≠ bytes "HTTP/1.0" ∧ v ≠ bytes "HTTP/1.1" :=
      ⟨fun h => hv (Or.inl h), fun h => hv (Or.inr h)⟩
    have hst : (if ¬ m = bytes "GET" ∨ ¬ (v = bytes "HTTP/1.0" ∨ v = bytes "HTTP/1.1")
        then 501 else 400) = 501 := if_pos (Or.inr hv)
    simp only [hst]
    rw [if_neg (not_not.2 hm), if_pos hv2, send_error_status_snd]
  · have hv2 : ¬ (v ≠ bytes "HTTP/1.0" ∧ v ≠ bytes "HTTP/1.1") := by
      rintro ⟨a, b⟩; rcases hv with h | h <;> contradiction
    have hst : (if ¬ m = bytes "GET" ∨ ¬ (v = bytes "HTTP/1.0" ∨ v = bytes "HTTP/1.1")
        then 501 else 400) = 400 := if_neg (by rintro (h | h) <;> contradiction)
    simp only [hst]
    rw [if_neg (not_not.2 hm), if_neg hv2, if_pos hs, send_error_status_snd]
  · have hv2 : ¬ (v ≠ bytes "HTTP/1.0" ∧ v ≠ bytes "HTTP/1.1") := by
      rintro ⟨a, b⟩; rcases hv with h | h <;> contradiction
    have hst : (if ¬ m = bytes "GET" ∨ ¬ (v = bytes "HTTP/1.0" ∨ v = bytes "HTTP/1.1")
        then 501 else 400) = 400 := if_neg (by rintro (h | h) <;> contradiction)
    simp only [hst]
    rw [if_neg (not_not.2 hm), if_neg hv2, if_neg (not_not.2 hs),
      if_pos ((traversal_iff u).2 htr), send_error_status_snd]

/-- C3 at the request `GET /index.html HTTP/2.0`, which violates the condition
on the version only: status 501, the page of the 501 response, no call
recorded. -/
theorem C3_single_violation_witness :
    handle_client (fun _ => FsNode.absent) (bytes "/www")
        (World.init (bytes "GET /index.html HTTP/2.0\r\n\r\n") [])
      = .ok (501,
          { World.init (bytes "\r\n") [] with
            clnt_w := bytes ("HTTP/1.0 501 Not Implemented\r\n\r\n"
              ++ "<html><body>\n<h1>501 Not Implemented</h1>\n</body></html>\n") }) :=
  C3_single_violation (fun _ => FsNode.absent) (bytes "/www")
    (World.init (bytes "GET /index.html HTTP/2.0\r\n\r\n") [])
    (bytes "GET /index.html HTTP/2.0\r\n") (bytes "\r\n")
    (bytes "GET") (bytes "/index.html") (bytes "HTTP/2.0")
    (by decide) (by decide)
    (Or.inr (Or.inl ⟨by decide, by decide, by decide, by decide⟩))

/-- C4: a request line that splits on tab, space, CR and LF into a number of
tokens other than three (0, 1, 2, or more than 3) is answered with status 501
and the page of the 501 response, and no handler is called (the record of
calls is unchanged). -/
theorem C4_token_count (fs : List Byte → FsNode) (web_root : List Byte) (w : World)
    (buf rest : List Byte)
    (hf : fgets MAX_LINE_LENGTH w.clnt_r = some (buf, rest))
    (ht : (tokens token_separators (cstr buf)).length ≠ 3) :
    handle_client fs web_root w =
      .ok (501,
        { w with
          clnt_r := rest
          clnt_w := w.clnt_w ++ (if w.clnt_ok then error_page 501 else []) }) := by
  rw [handle_client_not_three fs web_root w buf rest hf ht, send_error_status_snd]

/-- C4 at the request line `GET /index.html` (two tokens). -/
theorem C4_token_count_witness :
    (tokens token_separators (cstr (bytes "GET /index.html\r\n"))).length = 2
    ∧ handle_client (fun _ => FsNode.absent) (bytes "/www")
        (World.init (bytes "GET /index.html\r\n\r\n") [])
      = .ok (501,
          { World.init (bytes "\r\n") [] with
            clnt_w := bytes ("HTTP/1.0 501 Not Implemented\r\n\r\n"
              ++ "<html><body>\n<h1>501 Not Implemented</h1>\n</body></html>\n") }) :=
  ⟨by decide,
    C4_token_count (fun _ => FsNode.absent) (bytes "/www")
      (World.init (bytes "GET /index.html\r\n\r\n") [])
      (bytes "GET /index.html\r\n") (bytes "\r\n") (by decide) (by decide)⟩

/-- A header line of 1023 bytes and CR LF does not fit the buffer; what is read
after its first 1023 bytes is taken for the empty line. -/
theorem long_header_line_misread (body : List Byte) (hno : 10 ∉ body)
    (hlen : body.length = 1023) :
    IsLine (body ++ bytes "\r\n")
    ∧ ¬ IsBlank (body ++ bytes "\r\n")
    ∧ (∃ s w2, handle_client (fun _ => FsNode.absent) (bytes "/www")
          (World.init (bytes "GET / HTTP/1.0\r\n"
            ++ ((body ++ bytes "\r\n") ++ (bytes "X: y\r\n" ++ bytes "\r\n"))) [])
          = .ok (s, w2)
        ∧ w2.clnt_r = bytes "X: y\r\n" ++ bytes "\r\n")
    ∧ (∃ w2, handle_client (fun _ => FsNode.absent) (bytes "/www")
          (World.init (bytes "GET / HTTP/1.0\r\n" ++ ((body ++ bytes "\r\n") ++ [])) [])
          = .ok (404, w2)
        ∧ w2.trace = [Event.call_file (bytes "/www") (bytes "/"),
            Event.stat (bytes "/www/index.html"), Event.fopen (bytes "/www/index.html")]) := by
  have hline : IsLine (body ++ bytes "\r\n") :=
    (isLine_iff _).2 ⟨body ++ [13], by simp [bytes], by simp [hno]⟩
  have hnb : ¬ IsBlank (body ++ bytes "\r\n") := by
    intro h
    have := length_blank _ h
    rw [List.length_append, hlen] at this
    omega
  have hreq : ∀ rest : List Byte,
      fgets MAX_LINE_LENGTH (World.init (bytes "GET / HTTP/1.0\r\n" ++ rest) []).clnt_r
        = some (bytes "GET / HTTP/1.0\r\n", rest) :=
    fun rest => fgets_line MAX_LINE_LENGTH _ rest (by decide) (by decide)
  have hskip : ∀ (fuel : Nat) (tail : List Byte),
      skip_headers (fuel + 2) ((body ++ bytes "\r\n") ++ tail) = .ok (true, tail) := by
    intro fuel tail
    have h1 := skip_headers_chunk (fuel + 1) body (bytes "\r\n" ++ tail) hno (by omega)
    rw [List.append_assoc, h1, List.drop_of_length_le (by omega), List.nil_append]
    exact skip_headers_blank fuel (bytes "\r\n") tail (Or.inl rfl)
  have hfuel : ∀ tail : List Byte, ∃ fuel, ((body ++ bytes "\r\n") ++ tail).length + 1 = fuel + 2 :=
    fun tail => ⟨body.length + tail.length + 1, by
      simp only [List.length_append]
      have : (bytes "\r\n").length = 2 := by decide
      omega⟩
  refine ⟨hline, hnb, ?_, ?_⟩
  · obtain ⟨fuel, hfu⟩ := hfuel (bytes "X: y\r\n" ++ bytes "\r\n")
    obtain ⟨s, w2, _, h1, _, _, _, h5⟩ := handle_client_dispatched (fun _ => FsNode.absent)
      (bytes "/www") _ _ _ (bytes "/") (bytes "HTTP/1.0") (bytes "X: y\r\n" ++ bytes "\r\n")
      (hreq _) (by decide) (Or.inl rfl) (by decide) (by decide)
      (by rw [hfu]; exact hskip fuel _)
    exact ⟨s, w2, h1, h5⟩
  · obtain ⟨fuel, hfu⟩ := hfuel []
    have hd := handle_client_dispatch (fun _ => FsNode.absent)
      (bytes "/www") _ _ _ (bytes "/") (bytes "HTTP/1.0") []
      (hreq _) (by decide) (Or.inl rfl) (by decide) (by decide)
      (by rw [hfu]; exact hskip fuel _)
    rw [hd]
    exact ⟨_, rfl, rfl⟩

/-- C5, as stated, fails.  After the request line `GET / HTTP/1.0` comes a
header line of 1023 bytes `a` and CR LF, then (first input) the header line
`X: y` and the empty line, or (second input) the end of the stream.  The header
line does not fit the buffer of 1024 bytes, and what is read after its first
1023 bytes is taken for the empty line: on the first input `handle_client`
stops reading before the first empty line of the stream, leaving `X: y` and the
empty line unread; on the second input, which has no empty line, it calls the
static handler and the status is 404, not 400. -/
theorem C5_counterexample :
    IsLine (List.replicate 1023 97 ++ bytes "\r\n")
    ∧ ¬ IsBlank (List.replicate 1023 97 ++ bytes "\r\n")
    ∧ (∃ s w2, handle_client (fun _ => FsNode.absent) (bytes "/www")
          (World.init (bytes "GET / HTTP/1.0\r\n"
            ++ ((List.replicate 1023 97 ++ bytes "\r\n")
              ++ (bytes "X: y\r\n" ++ bytes "\r\n"))) []) = .ok (s, w2)
        ∧ w2.clnt_r = bytes "X: y\r\n" ++ bytes "\r\n")
    ∧ (∃ w2, handle_client (fun _ => FsNode.absent) (bytes "/www")
          (World.init (bytes "GET / HTTP/1.0\r\n"
            ++ ((List.replicate 1023 97 ++ bytes "\r\n") ++ [])) []) = .ok (404, w2)
        ∧ w2.trace = [Event.call_file (bytes "/www") (bytes "/"),
            Event.stat (bytes "/www/index.html"), Event.fopen (bytes "/www/index.html")]) :=
  long_header_line_misread (List.replicate 1023 97)
    (fun h => absurd (List.eq_of_mem_replicate h) (by decide))
    (List.length_replicate 1023 97)

/-- C5, amended: after a valid request line, when the header lines that precede
the first empty line are each at most 1023 bytes long (newline included),
`handle_client` reads exactly up to and including that empty line (what
follows it is left unread) and then calls a handler; and when the stream ends
before any empty line, after complete lines of at most 1023 bytes each and
possibly an unfinished last line, the status is 400, nothing is sent and no
handler is called. -/
theorem C5_headers_skipped (fs : List Byte → FsNode) (web_root : List Byte)
    (w : World) (buf rest u v : List Byte) (hs : List (List Byte))
    (hf : fgets MAX_LINE_LENGTH w.clnt_r = some (buf, rest))
    (ht : tokens token_separators (cstr buf) = [bytes "GET", u, v])
    (hv : v = bytes "HTTP/1.0" ∨ v = bytes "HTTP/1.1")
    (hslash : u.head? = some 47)
    (hno1 : ¬ bytes "/../" <:+: u)
    (hno2 : ¬ bytes "/.." <:+ u)
    (hh : ∀ h ∈ hs, IsLine h ∧ ¬ IsBlank h ∧ h.length ≤ 1023) :
    (∀ blank tail, IsBlank blank → rest = hs.flatten ++ blank ++ tail →
      ∃ s w2 evs, handle_client fs web_root w = .ok (s, w2)
        ∧ w2.clnt_r = tail
        ∧ (w2.trace = w.trace ++ Event.call_mdb u :: evs
            ∨ w2.trace = w.trace ++ Event.call_file web_root u :: evs))
    ∧ (∀ last, 10 ∉ last → rest = hs.flatten ++ last →
      handle_client fs web_root w = .ok (400, { w with clnt_r := [] })) := by
  have htr := traversal_eq_false u hno1 hno2
  constructor
  · intro blank tail hb hrest
    have hskip := skip_headers_exact hs blank tail hh hb (rest.length + 1)
      (by rw [hrest]; omega)
    rw [← hrest] at hskip
    obtain ⟨s, w2, evs, h1, _, h3, _, h5⟩ := handle_client_dispatched fs web_root w buf rest
      u v tail hf ht hv hslash htr hskip
    refine ⟨s, w2, evs, h1, h5, ?_⟩
    rw [h3]
    split
    · exact Or.inl rfl
    · exact Or.inr rfl
  · intro last hl hrest
    have hskip := skip_headers_eof hs last hh hl (rest.length + 1) (by rw [hrest]; omega)
    rw [← hrest] at hskip
    rw [handle_client_three fs web_root w buf rest _ u v hf ht]
    have hv2 : ¬ (v ≠ bytes "HTTP/1.0" ∧ v ≠ bytes "HTTP/1.1") := by
      rintro ⟨a, b⟩; rcases hv with h | h <;> contradiction
    simp only [ne_eq, not_true_eq_false, if_false, hv2, hslash, htr, hskip,
      Bool.false_eq_true]

/-- C5, amended, at two inputs: the request `GET /x HTTP/1.0` with the header
line `Host: a`, an empty line and four more bytes, which are left unread; and
the same request cut off inside its second header line, with status 400. -/
theorem C5_headers_skipped_witness :
    (∃ s w2 evs, handle_client (fun _ => FsNode.absent) (bytes "/www")
        (World.init (bytes "GET /x HTTP/1.0\r\nHost: a\r\n\r\nBODY") []) = .ok (s, w2)
      ∧ w2.clnt_r = bytes "BODY"
      ∧ (w2.trace = [] ++ Event.call_mdb (bytes "/x") :: evs
          ∨ w2.trace = [] ++ Event.call_file (bytes "/www") (bytes "/x") :: evs))
    ∧ handle_client (fun _ => FsNode.absent) (bytes "/www")
        (World.init (bytes "GET /x HTTP/1.0\r\nHost: a\r\nAcc") [])
      = .ok (400, World.init [] []) :=
  ⟨(C5_headers_skipped (fun _ => FsNode.absent) (bytes "/www")
      (World.init (bytes "GET /x HTTP/1.0\r\nHost: a\r\n\r\nBODY") [])
      (bytes "GET /x HTTP/1.0\r\n") (bytes "Host: a\r\n\r\nBODY") (bytes "/x")
      (bytes "HTTP/1.0") [bytes "Host: a\r\n"]
      (by decide) (by decide) (Or.inl rfl) (by decide) (by decide) (by decide)
      (by decide)).1 (bytes "\r\n") (bytes "BODY") (by decide) (by decide),
   (C5_headers_skipped (fun _ => FsNode.absent) (bytes "/www")
      (World.init (bytes "GET /x HTTP/1.0\r\nHost: a\r\nAcc") [])
      (bytes "GET /x HTTP/1.0\r\n") (bytes "Host: a\r\nAcc") (bytes "/x")
      (bytes "HTTP/1.0") [bytes "Host: a\r\n"]
      (by decide) (by decide) (Or.inl rfl) (by decide) (by decide) (by decide)
      (by decide)).2 (bytes "Acc") (by decide) (by decide)⟩

/-- C10: a request that passes validation (three tokens, GET, HTTP/1.0 or
HTTP/1.1, a URI that starts with a slash and has no "/../" and no final
"/..", headers ended by an empty line) is routed to the lookup handler when its
URI is exactly "/mdb-lookup" or begins with "/mdb-lookup?", and to the
static-file handler in every other case: the first call recorded is the entry
into that handler, and no other entry into a handler is recorded. -/
theorem C10_routing (fs : List Byte → FsNode) (web_root : List Byte)
    (w : World) (buf rest u v : List Byte) (hs : List (List Byte)) (blank tail : List Byte)
    (hf : fgets MAX_LINE_LENGTH w.clnt_r = some (buf, rest))
    (ht : tokens token_separators (cstr buf) = [bytes "GET", u, v])
    (hv : v = bytes "HTTP/1.0" ∨ v = bytes "HTTP/1.1")
    (hslash : u.head? = some 47)
    (hno1 : ¬ bytes "/../" <:+: u)
    (hno2 : ¬ bytes "/.." <:+ u)
    (hrest : rest = hs.flatten ++ blank ++ tail)
    (hh : ∀ h ∈ hs, IsLine h)
    (hb : IsBlank blank) :
    ∃ s w2 evs, handle_client fs web_root w = .ok (s, w2)
      ∧ w2.trace = w.trace ++
          (if u = bytes "/mdb-lookup" ∨ bytes "/mdb-lookup?" <+: u
            then Event.call_mdb u else Event.call_file web_root u) :: evs
      ∧ (∀ e ∈ evs, (∃ p, e = Event.stat p) ∨ (∃ p, e = Event.fopen p)) := by
  obtain ⟨left, hskip⟩ := skip_headers_accepts (rest.length + 1) hs blank tail hh hb
    (by rw [hrest]; omega)
  rw [← hrest] at hskip
  obtain ⟨s, w2, evs, h1, _, h3, h4, _⟩ := handle_client_dispatched fs web_root w buf rest u v
    left hf ht hv hslash (traversal_eq_false u hno1 hno2) hskip
  exact ⟨s, w2, evs, h1, h3, h4⟩

/-- C10 at the URI `/mdb-lookupx`, which has "/mdb-lookup" as a prefix but is
neither "/mdb-lookup" nor a continuation of "/mdb-lookup?": the request goes to
the static-file handler. -/
theorem C10_routing_witness :
    ∃ s w2 evs, handle_client (fun _ => FsNode.absent) (bytes "/www")
        (World.init (bytes "GET /mdb-lookupx HTTP/1.0\r\n\r\n") []) = .ok (s, w2)
      ∧ w2.trace = [] ++ Event.call_file (bytes "/www") (bytes "/mdb-lookupx") :: evs
      ∧ (∀ e ∈ evs, (∃ p, e = Event.stat p) ∨ (∃ p, e = Event.fopen p)) :=
  C10_routing (fun _ => FsNode.absent) (bytes "/www")
    (World.init (bytes "GET /mdb-lookupx HTTP/1.0\r\n\r\n") [])
    (bytes "GET /mdb-lookupx HTTP/1.0\r\n") (bytes "\r\n") (bytes "/mdb-lookupx")
    (bytes "HTTP/1.0") [] (bytes "\r\n") []
    (by decide) (by decide) (Or.inl rfl) (by decide) (by decide) (by decide) (by decide)
    (by decide) (by decide)

/-- C11, as stated, fails on a result line that holds a NUL byte.  The backend
sends the result line `ab` NUL `cd` LF (7 bytes) and the blank line; the row
sent to the client holds the text up to the NUL only, without the rest of the
line and its newline, where the page of the claim has the whole line. -/
theorem C11_counterexample :
    IsLine (bytes "ab\x00cd\n") ∧ (bytes "ab\x00cd\n").length < 127
    ∧ handle_mdb_request (bytes "/mdb-lookup?key=" ++ bytes "k")
        (World.init [] (bytes "ab\x00cd\n" ++ bytes "\n"))
      = .ok (200,
          { World.init [] [] with
            mdb_w := bytes "k\n"
            clnt_w := bytes "HTTP/1.0 200 OK\r\n" ++ bytes "\r\n" ++ form
              ++ bytes "<p><table border>\n"
              ++ (bytes "<tr><td>\n" ++ bytes "ab")
              ++ bytes "</table>\n" ++ bytes "</body></html>\n" })
    ∧ lookup_page [bytes "ab\x00cd\n"]
      = bytes "HTTP/1.0 200 OK\r\n" ++ bytes "\r\n" ++ form
          ++ bytes "<p><table border>\n"
          ++ (bytes "<tr><td>\n" ++ bytes "ab\x00cd\n")
          ++ bytes "</table>\n" ++ bytes "</body></html>\n" := by
  refine ⟨by decide, by decide, ?_, ?_⟩
  · rfl
  · rfl

/-- C11, amended: for every URI "/mdb-lookup?key=" followed by `v` and every
backend response made of result lines without NUL byte, each shorter than 127
bytes with its newline, followed by a blank line, `handle_mdb_request` (writes
to the backend and to the client succeeding) writes exactly `v` and a newline to
the backend, returns 200, reads the response up to and including the blank
line, and sends the client the status line `HTTP/1.0 200 OK`, a blank line, the
static form, the table header, one row for each line (plain marker for odd
rows, yellow marker for even rows, then the line), the table footer and the
closing tags. -/
theorem C11_lookup_page (v : List Byte) (lines : List (List Byte)) (rest : List Byte)
    (w : World)
    (hmdb : w.mdb_ok = true) (hok : w.clnt_ok = true)
    (hl : ∀ l ∈ lines, IsLine l ∧ l ≠ bytes "\n" ∧ l.length < 127 ∧ 0 ∉ l)
    (hr : w.mdb_r = lines.flatten ++ bytes "\n" ++ rest) :
    handle_mdb_request (bytes "/mdb-lookup?key=" ++ v) w
      = .ok (200,
          { w with
            mdb_w := w.mdb_w ++ (v ++ bytes "\n")
            mdb_r := rest
            clnt_w := w.clnt_w ++
              (bytes "HTTP/1.0 200 OK\r\n" ++ bytes "\r\n" ++ form
                ++ bytes "<p><table border>\n" ++ table_rows 1 lines
                ++ bytes "</table>\n" ++ bytes "</body></html>\n") }) := by
  rw [handle_mdb_request_lines v lines rest w hmdb hok
    (fun l h => ⟨(hl l h).1, (hl l h).2.1, by have := (hl l h).2.2.1; omega⟩) hr,
    map_cstr_of_no_nul lines (fun l h => (hl l h).2.2.2)]
  rfl

/-- C11, amended, at the key `ab` and a response of three result lines. -/
theorem C11_lookup_page_witness :
    handle_mdb_request (bytes "/mdb-lookup?key=" ++ bytes "ab")
        (World.init [] ([bytes "   1: x\n", bytes "   2: y\n", bytes "   3: z\n"].flatten
          ++ bytes "\n" ++ bytes "later"))
      = .ok (200,
          { World.init [] [] with
            mdb_w := [] ++ (bytes "ab" ++ bytes "\n")
            mdb_r := bytes "later"
            clnt_w := [] ++
              (bytes "HTTP/1.0 200 OK\r\n" ++ bytes "\r\n" ++ form
                ++ bytes "<p><table border>\n"
                ++ table_rows 1 [bytes "   1: x\n", bytes "   2: y\n", bytes "   3: z\n"]
                ++ bytes "</table>\n" ++ bytes "</body></html>\n") })
    ∧ table_rows 1 [bytes "   1: x\n", bytes "   2: y\n", bytes "   3: z\n"]
      = bytes ("<tr><td>\n   1: x\n" ++ "<tr><td bgcolor=yellow>\n   2: y\n"
          ++ "<tr><td>\n   3: z\n") :=
  ⟨C11_lookup_page (bytes "ab") [bytes "   1: x\n", bytes "   2: y\n", bytes "   3: z\n"]
      (bytes "later")
      (World.init [] ([bytes "   1: x\n", bytes "   2: y\n", bytes "   3: z\n"].flatten
          ++ bytes "\n" ++ bytes "later"))
      rfl rfl (by decide) rfl,
    by decide⟩

/-- C12, as stated, fails on a backend stream with a result line that does not
fit the buffer of 128 bytes, and when writes to the client fail.  First input:
the response is a line of 127 bytes `a` and LF, the line `x`, and the blank
line, followed by `next`; the newline of the long line is read on its own and
taken for the blank line, so the lookup leaves `x`, the blank line and `next`
unread, and the next lookup would render `x`.  Second input: the client does
not accept writes; the key is written to the backend and the handler returns
without reading any of the response. -/
theorem C12_counterexample :
    IsLine (List.replicate 127 97 ++ bytes "\n")
    ∧ (∃ w1, handle_mdb_request (bytes "/mdb-lookup?key=" ++ bytes "k")
          (World.init [] (List.replicate 127 97 ++ bytes "\n"
            ++ (bytes "x\n" ++ bytes "\n" ++ bytes "next"))) = .ok (200, w1)
        ∧ w1.mdb_r = bytes "x\n" ++ bytes "\n" ++ bytes "next")
    ∧ handle_mdb_request (bytes "/mdb-lookup?key=" ++ bytes "k")
        { World.init [] (bytes "   1: x\n" ++ bytes "\n") with clnt_ok := false }
      = .ok (200,
          { World.init [] (bytes "   1: x\n" ++ bytes "\n") with
            clnt_ok := false
            mdb_w := bytes "k\n" }) := by
  refine ⟨by decide, ?_, rfl⟩
  have hb : (10 : Byte) ∉ List.replicate 127 97 := by
    intro h
    exact absurd (List.eq_of_mem_replicate h) (by decide)
  rw [handle_mdb_request_keyed _ _ rfl rfl,
    mdb_rows_long_line (List.replicate 127 97) (bytes "x\n" ++ bytes "\n" ++ bytes "next") hb
      (List.length_replicate _ _) _ 1 _ rfl rfl
      (by simp [World.init, List.length_replicate])]
  exact ⟨_, rfl, rfl⟩

/-- C12, amended: when the result lines of the backend are at most 127 bytes
long with their newline and writes to the backend and to the client succeed, a
keyed lookup reads from the backend connection exactly its own response, up to
and including the blank line, and nothing after it; of two lookups in a row
each sends the client the rows of its own response only. -/
theorem C12_no_cross_talk (v1 v2 : List Byte) (lines1 lines2 : List (List Byte))
    (rest : List Byte) (w : World)
    (hmdb : w.mdb_ok = true) (hok : w.clnt_ok = true)
    (hl1 : ∀ l ∈ lines1, IsLine l ∧ l ≠ bytes "\n" ∧ l.length ≤ 127)
    (hl2 : ∀ l ∈ lines2, IsLine l ∧ l ≠ bytes "\n" ∧ l.length ≤ 127)
    (hr : w.mdb_r = lines1.flatten ++ bytes "\n" ++ (lines2.flatten ++ bytes "\n" ++ rest)) :
    ∃ w1, handle_mdb_request (bytes "/mdb-lookup?key=" ++ v1) w = .ok (200, w1)
      ∧ w1.mdb_r = lines2.flatten ++ bytes "\n" ++ rest
      ∧ w1.clnt_w = w.clnt_w ++ lookup_page (lines1.map cstr)
      ∧ ∀ w2 : World, w2.mdb_r = w1.mdb_r → w2.mdb_ok = true → w2.clnt_ok = true →
          ∃ w3, handle_mdb_request (bytes "/mdb-lookup?key=" ++ v2) w2 = .ok (200, w3)
            ∧ w3.mdb_r = rest
            ∧ w3.clnt_w = w2.clnt_w ++ lookup_page (lines2.map cstr) := by
  refine ⟨_, handle_mdb_request_lines v1 lines1 _ w hmdb hok hl1 hr, rfl, rfl, ?_⟩
  intro w2 h2 hmdb2 hok2
  exact ⟨_, handle_mdb_request_lines v2 lines2 rest w2 hmdb2 hok2 hl2 h2, rfl, rfl⟩

/-- C12, amended, at two lookups in a row: the backend stream holds the response
`1: x` to the first and the response `7: y` to the second. -/
theorem C12_no_cross_talk_witness :
    ∃ w1, handle_mdb_request (bytes "/mdb-lookup?key=" ++ bytes "x")
        (World.init [] ([bytes "   1: x\n"].flatten ++ bytes "\n"
          ++ ([bytes "   7: y\n"].flatten ++ bytes "\n" ++ []))) = .ok (200, w1)
      ∧ w1.mdb_r = [bytes "   7: y\n"].flatten ++ bytes "\n" ++ []
      ∧ w1.clnt_w = [] ++ lookup_page ([bytes "   1: x\n"].map cstr)
      ∧ ∀ w2 : World, w2.mdb_r = w1.mdb_r → w2.mdb_ok = true → w2.clnt_ok = true →
          ∃ w3, handle_mdb_request (bytes "/mdb-lookup?key=" ++ bytes "y") w2 = .ok (200, w3)
            ∧ w3.mdb_r = []
            ∧ w3.clnt_w = w2.clnt_w ++ lookup_page ([bytes "   7: y\n"].map cstr) :=
  C12_no_cross_talk (bytes "x") (bytes "y") [bytes "   1: x\n"] [bytes "   7: y\n"] []
    (World.init [] ([bytes "   1: x\n"].flatten ++ bytes "\n"
      ++ ([bytes "   7: y\n"].flatten ++ bytes "\n" ++ [])))
    rfl rfl (by decide) (by decide) rfl

/-- C13, as stated, fails when the key cannot be written to the backend: the
handler has sent nothing yet, answers with the page of status 500 and returns
500, not 200. -/
theorem C13_counterexample :
    handle_mdb_request (bytes "/mdb-lookup?key=" ++ bytes "k")
        { World.init [] (bytes "   1: x\n" ++ bytes "\n") with mdb_ok := false }
      = .ok (500,
          { World.init [] (bytes "   1: x\n" ++ bytes "\n") with
            mdb_ok := false
            clnt_w := bytes ("HTTP/1.0 500 Internal Server Error\r\n\r\n"
              ++ "<html><body>\n<h1>500 Internal Server Error</h1>\n</body></html>\n") }) := by
  rfl

/-- C13, amended: on a URI with a key, if writing the key to the backend fails,
`handle_mdb_request` has sent nothing yet: it returns 500 and sends the page of
status 500, touching the backend no further; if the key is written (and the
client accepts writes), then wherever the backend stream ends, also before any
blank line, it returns 200 and what it sends starts with the 200 status line,
a blank line, the form and the table header, and ends with the table footer
and the closing tags. -/
theorem C13_backend_failure (v : List Byte) (w : World) :
    (w.mdb_ok = false →
      handle_mdb_request (bytes "/mdb-lookup?key=" ++ v) w
        = .ok (500,
            { w with clnt_w := w.clnt_w ++ (if w.clnt_ok then error_page 500 else []) }))
    ∧ (w.mdb_ok = true → w.clnt_ok = true →
      ∃ rows left, handle_mdb_request (bytes "/mdb-lookup?key=" ++ v) w
        = .ok (200,
            { w with
              mdb_w := w.mdb_w ++ (v ++ bytes "\n")
              mdb_r := left
              clnt_w := w.clnt_w ++
                (bytes "HTTP/1.0 200 OK\r\n" ++ bytes "\r\n" ++ form
                  ++ bytes "<p><table border>\n" ++ rows
                  ++ bytes "</table>\n" ++ bytes "</body></html>\n") })) := by
  constructor
  · exact handle_mdb_request_down v w
  · intro hmdb hok
    obtain ⟨rows, left, h⟩ := mdb_rows_open (w.mdb_r.length + 1) 1
      { w with
        mdb_w := w.mdb_w ++ (v ++ bytes "\n")
        clnt_w := w.clnt_w ++ (bytes "HTTP/1.0 200 OK\r\n" ++ bytes "\r\n" ++ form
          ++ bytes "<p><table border>\n") } hok (by simp)
    refine ⟨rows, left, ?_⟩
    rw [handle_mdb_request_keyed v w hmdb hok, h]
    simp only
    rw [send_open _ _ (by exact hok)]
    simp [table_footer, form_end]

/-- C13, amended, at a backend that cannot be written to, and at a backend
stream that ends inside the second result line. -/
theorem C13_backend_failure_witness :
    handle_mdb_request (bytes "/mdb-lookup?key=" ++ bytes "k")
        { World.init [] [] with mdb_ok := false }
      = .ok (500,
          { World.init [] [] with
            mdb_ok := false
            clnt_w := [] ++ (if true then error_page 500 else []) })
    ∧ ∃ rows left, handle_mdb_request (bytes "/mdb-lookup?key=" ++ bytes "k")
        (World.init [] (bytes "   1: x\n   2:"))
      = .ok (200,
          { World.init [] (bytes "   1: x\n   2:") with
            mdb_w := [] ++ (bytes "k" ++ bytes "\n")
            mdb_r := left
            clnt_w := [] ++
              (bytes "HTTP/1.0 200 OK\r\n" ++ bytes "\r\n" ++ form
                ++ bytes "<p><table border>\n" ++ rows
                ++ bytes "</table>\n" ++ bytes "</body></html>\n") }) :=
  ⟨(C13_backend_failure (bytes "k") { World.init [] [] with mdb_ok := false }).1 rfl,
    (C13_backend_failure (bytes "k") (World.init [] (bytes "   1: x\n   2:"))).2 rfl rfl⟩

/-- C14: for every URI that does not begin with "/mdb-lookup?key=" (so for the
bare "/mdb-lookup" and for "/mdb-lookup?" with a query that does not start with
"key="), `handle_mdb_request` returns 200, leaves the backend connection as it
was (nothing written, nothing read), and sends exactly the 200 status line, a
blank line and the static form closed by `</body></html>`; nothing is sent when
writes to the client fail. -/
theorem C14_form_only (request_uri : List Byte) (w : World)
    (hkey : ¬ bytes "/mdb-lookup?key=" <+: request_uri) :
    handle_mdb_request request_uri w
      = .ok (200,
          { w with
            clnt_w := w.clnt_w ++
              (if w.clnt_ok then
                bytes "HTTP/1.0 200 OK\r\n" ++ bytes "\r\n" ++ (form ++ bytes "</body></html>\n")
              else []) }) := by
  have hline : bytes "HTTP/1.0 " ++ fmt_d 200 ++ bytes " " ++ bytes (get_reason_phrase 200)
      ++ bytes "\r\n" = bytes "HTTP/1.0 200 OK\r\n" := by decide
  have hk : request_uri.take key_uri.length ≠ key_uri := by
    intro h
    apply hkey
    rw [List.prefix_iff_eq_take]
    exact h.symm
  unfold handle_mdb_request
  rw [if_pos hk]
  obtain ⟨r, cw, ok, mw, mok, mr, tr⟩ := w
  cases ok with
  | false => simp [send_status_line, World.send]
  | true =>
    simp only [send_status_line, send_blank_line, hline, form_end]
    simp [World.send]

/-- C14 at the bare URI `/mdb-lookup`, with a backend stream that holds bytes: the
hypothesis holds, and the backend stream is left as it was. -/
theorem C14_form_only_witness :
    ¬ bytes "/mdb-lookup?key=" <+: bytes "/mdb-lookup"
    ∧ handle_mdb_request (bytes "/mdb-lookup") (World.init [] (bytes "   1: x\n\n"))
      = .ok (200,
          { World.init [] (bytes "   1: x\n\n") with
            clnt_w := [] ++
              (if (World.init [] (bytes "   1: x\n\n")).clnt_ok then
                bytes "HTTP/1.0 200 OK\r\n" ++ bytes "\r\n" ++ (form ++ bytes "</body></html>\n")
              else []) }) :=
  ⟨by decide, C14_form_only (bytes "/mdb-lookup") (World.init [] (bytes "   1: x\n\n"))
    (by decide)⟩

/-- C15, as stated, fails when web root and URI are too long for the length
guard of the handler.  The web root has 4083 bytes and the URI is `/x`; the
candidate path, of 4085 bytes, is a file that can be opened; the handler
answers 404 without looking at the path, since 4083 + 2 + 12 exceeds
`PATH_MAX`. -/
theorem C15_counterexample :
    (candidate_path (List.replicate 4083 119) (bytes "/x")).length = 4085
    ∧ (fun _ => FsNode.file (bytes "hi") : List Byte → FsNode)
        (candidate_path (List.replicate 4083 119) (bytes "/x")) = FsNode.file (bytes "hi")
    ∧ handle_file_request (fun _ => FsNode.file (bytes "hi")) (List.replicate 4083 119)
        (bytes "/x") (World.init [] [])
      = .ok (404,
          { World.init [] [] with
            clnt_w := bytes "HTTP/1.0 404 Not Found\r\n" ++ bytes "\r\n"
              ++ bytes "<html><body>\n<h1>404 Not Found</h1>\n</body></html>\n" }) := by
  refine ⟨?_, rfl, ?_⟩
  · rw [candidate_path, List.length_append, List.length_append, List.length_replicate]
    rfl
  · rw [handle_file_request_long _ _ _ _
      (by rw [List.length_replicate]; decide), ← error_page_404]
    rfl

/-- C15, amended: for every web root and validated URI that pass the length
guard of the handler (length of web root + length of URI + 12 at most
`PATH_MAX`), when the candidate path (web root + URI, with `index.html`
appended when the URI ends in a slash) is a file that can be opened,
`handle_file_request` returns 200, calls `stat` and `fopen` on that path, and
the bytes sent to the client are exactly `HTTP/1.0 200 OK` CR LF, the blank
header section CR LF, and the complete contents of the file, whatever its
length; nothing is sent when writes to the client fail. -/
theorem C15_file_sent (fs : List Byte → FsNode) (web_root request_uri : List Byte)
    (w : World) (contents : List Byte)
    (hslash : request_uri.head? = some 47)
    (hlen : web_root.length + request_uri.length + 12 ≤ PATH_MAX)
    (hfile : fs (candidate_path web_root request_uri) = .file contents) :
    handle_file_request fs web_root request_uri w
      = .ok (200,
          { w with
            trace := w.trace ++ [.stat (candidate_path web_root request_uri),
              .fopen (candidate_path web_root request_uri)]
            clnt_w := w.clnt_w ++
              (if w.clnt_ok then bytes "HTTP/1.0 200 OK\r\n" ++ bytes "\r\n" ++ contents
                else []) }) := by
  have hu : request_uri ≠ [] := by rintro rfl; simp at hslash
  rw [handle_file_request_guarded fs web_root request_uri w hu hlen, hfile]
  simp

/-- C15, amended, at three requests against the web root `/www`: a file of 5000
bytes (not a multiple of the block size), an empty file, and the URI `/` served
from `index.html`. -/
theorem C15_file_sent_witness :
    handle_file_request (fun _ => FsNode.file (List.replicate 5000 7)) (bytes "/www")
        (bytes "/big") (World.init [] [])
      = .ok (200,
          { World.init [] [] with
            trace := [] ++ [.stat (candidate_path (bytes "/www") (bytes "/big")),
              .fopen (candidate_path (bytes "/www") (bytes "/big"))]
            clnt_w := [] ++
              (if (World.init [] []).clnt_ok
                then bytes "HTTP/1.0 200 OK\r\n" ++ bytes "\r\n" ++ List.replicate 5000 7
                else []) })
    ∧ handle_file_request (fun _ => FsNode.file []) (bytes "/www")
        (bytes "/empty") (World.init [] [])
      = .ok (200,
          { World.init [] [] with
            trace := [] ++ [.stat (candidate_path (bytes "/www") (bytes "/empty")),
              .fopen (candidate_path (bytes "/www") (bytes "/empty"))]
            clnt_w := [] ++
              (if (World.init [] []).clnt_ok
                then bytes "HTTP/1.0 200 OK\r\n" ++ bytes "\r\n" ++ [] else []) })
    ∧ candidate_path (bytes "/www") (bytes "/") = bytes "/www/index.html"
    ∧ handle_file_request
        (fun p => if p = bytes "/www/index.html" then FsNode.file (bytes "hello")
          else FsNode.absent)
        (bytes "/www") (bytes "/") (World.init [] [])
      = .ok (200,
          { World.init [] [] with
            trace := [] ++ [.stat (candidate_path (bytes "/www") (bytes "/")),
              .fopen (candidate_path (bytes "/www") (bytes "/"))]
            clnt_w := [] ++
              (if (World.init [] []).clnt_ok
                then bytes "HTTP/1.0 200 OK\r\n" ++ bytes "\r\n" ++ bytes "hello" else []) }) :=
  ⟨C15_file_sent _ (bytes "/www") (bytes "/big") (World.init [] []) _ (by decide) (by decide)
      rfl,
    C15_file_sent _ (bytes "/www") (bytes "/empty") (World.init [] []) _ (by decide)
      (by decide) rfl,
    by decide,
    C15_file_sent _ (bytes "/www") (bytes "/") (World.init [] []) _ (by decide) (by decide)
      (by decide)⟩

/-- C16, as stated, fails when web root and URI are too long for the length
guard of the handler.  The web root has 4083 bytes and the URI is `/d`; the
path made of web root and URI, of 4085 bytes, is a directory; the handler
answers 404, not 301, since 4083 + 2 + 12 exceeds `PATH_MAX`. -/
theorem C16_counterexample :
    (candidate_path (List.replicate 4083 119) (bytes "/d")).length = 4085
    ∧ (fun _ => FsNode.dir : List Byte → FsNode)
        (candidate_path (List.replicate 4083 119) (bytes "/d")) = FsNode.dir
    ∧ handle_file_request (fun _ => FsNode.dir) (List.replicate 4083 119)
        (bytes "/d") (World.init [] [])
      = .ok (404,
          { World.init [] [] with
            clnt_w := bytes "HTTP/1.0 404 Not Found\r\n" ++ bytes "\r\n"
              ++ bytes "<html><body>\n<h1>404 Not Found</h1>\n</body></html>\n" }) := by
  refine ⟨?_, rfl, ?_⟩
  · rw [candidate_path, List.length_append, List.length_append, List.length_replicate]
    rfl
  · rw [handle_file_request_long _ _ _ _
      (by rw [List.length_replicate]; decide), ← error_page_404]
    rfl

/-- C16, amended: for every web root and validated URI that pass the length
guard of the handler (length of web root + length of URI + 12 at most
`PATH_MAX`), if the candidate path is a directory, `handle_file_request`
returns 301 after a call of `stat` and without opening any file, and sends the
status line `HTTP/1.0 301 Moved Permanently`, the header `Location:` with the
request URI and one slash appended (whether or not the URI ends in a slash), a
blank line, and an HTML body that links to the same target; nothing is sent
when writes to the client fail. -/
theorem C16_directory_redirect (fs : List Byte → FsNode) (web_root request_uri : List Byte)
    (w : World)
    (hslash : request_uri.head? = some 47)
    (hlen : web_root.length + request_uri.length + 12 ≤ PATH_MAX)
    (hdir : fs (candidate_path web_root request_uri) = .dir) :
    handle_file_request fs web_root request_uri w
      = .ok (301,
          { w with
            trace := w.trace ++ [.stat (candidate_path web_root request_uri)]
            clnt_w := w.clnt_w ++
              (if w.clnt_ok then
                bytes "HTTP/1.0 301 Moved Permanently\r\n"
                  ++ (bytes "Location: " ++ request_uri ++ bytes "/\r\n"
                  ++ bytes "\r\n"
                  ++ bytes "<html><body>\n"
                  ++ bytes "<h1>301 Moved Permanently</h1>\n"
                  ++ bytes "<p>The document has moved "
                  ++ bytes "<a href=\"" ++ request_uri ++ bytes "/\">here</a>.</p>\n"
                  ++ bytes "</body></html>\n")
              else []) }) := by
  have hu : request_uri ≠ [] := by rintro rfl; simp at hslash
  rw [handle_file_request_guarded fs web_root request_uri w hu hlen, if_pos hdir, send301_snd]
  simp [World.log]

/-- C16, amended, at the request for `/somedir` against the web root `/www`,
where `/www/somedir` is a directory: status 301 with `Location: /somedir/`. -/
theorem C16_directory_redirect_witness :
    handle_file_request
        (fun p => if p = bytes "/www/somedir" then FsNode.dir else FsNode.absent)
        (bytes "/www") (bytes "/somedir") (World.init [] [])
      = .ok (301,
          { World.init [] [] with
            trace := [.stat (bytes "/www/somedir")]
            clnt_w := bytes ("HTTP/1.0 301 Moved Permanently\r\n"
              ++ "Location: /somedir/\r\n"
              ++ "\r\n"
              ++ "<html><body>\n"
              ++ "<h1>301 Moved Permanently</h1>\n"
              ++ "<p>The document has moved "
              ++ "<a href=\"/somedir/\">here</a>.</p>\n"
              ++ "</body></html>\n") }) :=
  C16_directory_redirect _ (bytes "/www") (bytes "/somedir") (World.init [] [])
    (by decide) (by decide) (by decide)

/-- C17: for every web root and validated URI whose candidate path is not a
directory and cannot be opened, `handle_file_request` returns 404 and sends
exactly `HTTP/1.0 404 Not Found` CR LF, a blank line and the HTML body
`<html><body>`, `<h1>404 Not Found</h1>`, `</body></html>` (one per line);
nothing is sent when writes to the client fail. -/
theorem C17_not_found (fs : List Byte → FsNode) (web_root request_uri : List Byte)
    (w : World)
    (hslash : request_uri.head? = some 47)
    (hnodir : fs (candidate_path web_root request_uri) ≠ .dir)
    (hnofile : ∀ contents, fs (candidate_path web_root request_uri) ≠ .file contents) :
    ∃ w2, handle_file_request fs web_root request_uri w = .ok (404, w2)
      ∧ w2.clnt_w = w.clnt_w ++
          (if w.clnt_ok then
            bytes "HTTP/1.0 404 Not Found\r\n" ++ bytes "\r\n"
              ++ bytes "<html><body>\n<h1>404 Not Found</h1>\n</body></html>\n"
          else []) := by
  have hu : request_uri ≠ [] := by rintro rfl; simp at hslash
  rw [← error_page_404]
  by_cases hlen : web_root.length + request_uri.length + 12 ≤ PATH_MAX
  · rw [handle_file_request_guarded fs web_root request_uri w hu hlen, if_neg hnodir]
    cases hfs : fs (candidate_path web_root request_uri) with
    | absent =>
      refine ⟨_, rfl, ?_⟩
      rw [send_error_status_snd]
      simp [World.log]
    | dir => exact absurd hfs hnodir
    | file contents => exact absurd hfs (hnofile contents)
  · rw [handle_file_request_long fs web_root request_uri w (by omega)]
    exact ⟨_, rfl, rfl⟩

/-- C17 at the request for `/missing.html` against an empty web root `/www`:
status 404 and the 404 page. -/
theorem C17_not_found_witness :
    ∃ w2, handle_file_request (fun _ => FsNode.absent) (bytes "/www") (bytes "/missing.html")
        (World.init [] []) = .ok (404, w2)
      ∧ w2.clnt_w = [] ++
          (if (World.init [] []).clnt_ok then
            bytes "HTTP/1.0 404 Not Found\r\n" ++ bytes "\r\n"
              ++ bytes "<html><body>\n<h1>404 Not Found</h1>\n</body></html>\n"
          else []) :=
  C17_not_found (fun _ => FsNode.absent) (bytes "/www") (bytes "/missing.html")
    (World.init [] []) (by decide) (by decide) (by intro c h; simp at h)

/-- C21: the HTTP server handles its clients strictly one after another.  Take
any client `c` that the accept loop reaches (`accept`, the address conversion
and `fdopen` succeed for it and for the clients before it).  When `c` is
accepted, every client before it has been handled to the end (its
`handle_client` has returned and its status is recorded); the cycle of `c`
runs to its end on the connection to the backend as those clients left it,
only adding to what was written to the backend and reading from the start of
what the backend stream still holds; and the clients after `c` are accepted in
the state in which the cycle of `c` ended, so nothing a later client does on
the backend connection falls inside the exchange of `c`. -/
theorem C21_serial (fs : List Byte → FsNode) (web_root : List Byte) (before : List Conn)
    (c : Conn) (after : List Conn) (s : Server)
    (h : ∀ x ∈ before ++ [c], x.accept_ok = true ∧ x.ntop_ok = true ∧ x.fdopen_r_ok = true
      ∧ x.fdopen_w_ok = true) :
    ∃ s1 status w,
      accept_loop fs web_root before s = .ok (none, s1)
      ∧ s1.served.length = s.served.length + before.length
      ∧ handle_client fs web_root (s1.world c) = .ok (status, w)
      ∧ s1.mdb_w <+: w.mdb_w ∧ w.mdb_r <:+ s1.mdb_r
      ∧ accept_loop fs web_root (before ++ c :: after) s
        = accept_loop fs web_root after
            { mdb_w := w.mdb_w, mdb_r := w.mdb_r, trace := w.trace,
              served := s1.served ++ [(status, w.clnt_w)] } := by
  obtain ⟨s1, hs1, hlen, _, _, happ⟩ := accept_loop_append fs web_root before (c :: after) s
    (fun x hx => h x (List.mem_append_left _ hx))
  obtain ⟨h1, h2, h3, h4⟩ := h c (List.mem_append_right _ (List.mem_singleton_self c))
  obtain ⟨status, w, hc, hw, hr⟩ := handle_client_backend fs web_root (s1.world c)
  refine ⟨s1, status, w, hs1, hlen, hc, hw, hr, ?_⟩
  rw [happ]
  simp only [accept_loop, handle_client_fd, h1, h2, h3, h4, hc, Bool.true_eq_false, if_false]

/-- C21 at two lookups in a row, for the keys `a` and `b`, on a backend stream
that holds the two responses. -/
theorem C21_serial_witness :
    ∃ s1 status w,
      accept_loop (fun _ => FsNode.absent) (bytes "/www")
          [{ accept_ok := true, ntop_ok := true, fdopen_r_ok := true, fdopen_w_ok := true,
             clnt_r := bytes "GET /mdb-lookup?key=a HTTP/1.0\r\n\r\n", clnt_ok := true,
             mdb_ok := true }]
          { mdb_w := [], mdb_r := bytes "   1: a\n\n   2: b\n\n", trace := [], served := [] }
        = .ok (none, s1)
      ∧ s1.served.length = 0 + 1
      ∧ handle_client (fun _ => FsNode.absent) (bytes "/www")
          (s1.world
            { accept_ok := true, ntop_ok := true, fdopen_r_ok := true, fdopen_w_ok := true,
              clnt_r := bytes "GET /mdb-lookup?key=b HTTP/1.0\r\n\r\n", clnt_ok := true,
              mdb_ok := true }) = .ok (status, w)
      ∧ s1.mdb_w <+: w.mdb_w ∧ w.mdb_r <:+ s1.mdb_r
      ∧ accept_loop (fun _ => FsNode.absent) (bytes "/www")
          ([{ accept_ok := true, ntop_ok := true, fdopen_r_ok := true, fdopen_w_ok := true,
              clnt_r := bytes "GET /mdb-lookup?key=a HTTP/1.0\r\n\r\n", clnt_ok := true,
              mdb_ok := true }]
            ++ { accept_ok := true, ntop_ok := true, fdopen_r_ok := true, fdopen_w_ok := true,
                 clnt_r := bytes "GET /mdb-lookup?key=b HTTP/1.0\r\n\r\n", clnt_ok := true,
                 mdb_ok := true } :: [])
          { mdb_w := [], mdb_r := bytes "   1: a\n\n   2: b\n\n", trace := [], served := [] }
        = accept_loop (fun _ => FsNode.absent) (bytes "/www") []
            { mdb_w := w.mdb_w, mdb_r := w.mdb_r, trace := w.trace,
              served := s1.served ++ [(status, w.clnt_w)] } :=
  C21_serial (fun _ => FsNode.absent) (bytes "/www")
    [{ accept_ok := true, ntop_ok := true, fdopen_r_ok := true, fdopen_w_ok := true,
       clnt_r := bytes "GET /mdb-lookup?key=a HTTP/1.0\r\n\r\n", clnt_ok := true,
       mdb_ok := true }]
    { accept_ok := true, ntop_ok := true, fdopen_r_ok := true, fdopen_w_ok := true,
      clnt_r := bytes "GET /mdb-lookup?key=b HTTP/1.0\r\n\r\n", clnt_ok := true,
      mdb_ok := true }
    []
    { mdb_w := [], mdb_r := bytes "   1: a\n\n   2: b\n\n", trace := [], served := [] }
    (by simp)

/-- C22: for every URI that begins with a slash, the guard of `handle_client`
(the URI has at least three bytes and ends in "/..", or contains "/../")
rejects the URI if and only if one of its segments, the pieces between its
slashes, is exactly `..`; and whatever the client sends, `handle_client`
returns and every URI with which it has entered the lookup handler or the
static-file handler has no segment `..`. -/
theorem C22_guard_segments (u : List Byte) (fs : List Byte → FsNode) (web_root : List Byte)
    (w : World) :
    (u.head? = some 47 → (traversal u = true ↔ bytes ".." ∈ segments u))
    ∧ ∃ s w2 evs, handle_client fs web_root w = .ok (s, w2) ∧ w2.trace = w.trace ++ evs
      ∧ ∀ v, (Event.call_mdb v ∈ evs ∨ ∃ r, Event.call_file r v ∈ evs) →
          bytes ".." ∉ segments v := by
  refine ⟨traversal_segments u, ?_⟩
  obtain ⟨s, w2, evs, h1, h2, h3⟩ := handle_client_calls fs web_root w
  refine ⟨s, w2, evs, h1, h2, ?_⟩
  intro v hv hseg
  obtain ⟨hslash, htr⟩ := h3 v hv
  rw [(traversal_segments v hslash).2 hseg] at htr
  exact absurd htr (by decide)

/-- C22 at the URI `/a/../b`, which the guard rejects and which has the
segments (empty), `a`, `..` and `b`, and at the request for `/a/..b`, which
reaches the static-file handler. -/
theorem C22_guard_segments_witness :
    (traversal (bytes "/a/../b") = true ↔ bytes ".." ∈ segments (bytes "/a/../b"))
    ∧ segments (bytes "/a/../b") = [[], bytes "a", bytes "..", bytes "b"]
    ∧ ∃ s w2 evs, handle_client (fun _ => FsNode.absent) (bytes "/www")
          (World.init (bytes "GET /a/..b HTTP/1.0\r\n\r\n") []) = .ok (s, w2)
      ∧ w2.trace = (World.init (bytes "GET /a/..b HTTP/1.0\r\n\r\n") []).trace ++ evs
      ∧ ∀ v, (Event.call_mdb v ∈ evs ∨ ∃ r, Event.call_file r v ∈ evs) →
          bytes ".." ∉ segments v :=
  ⟨(C22_guard_segments (bytes "/a/../b") (fun _ => FsNode.absent) (bytes "/www")
      (World.init (bytes "GET /a/..b HTTP/1.0\r\n\r\n") [])).1 (by decide),
    by decide,
    (C22_guard_segments (bytes "/a/../b") (fun _ => FsNode.absent) (bytes "/www")
      (World.init (bytes "GET /a/..b HTTP/1.0\r\n\r\n") [])).2⟩

/-- C23: in `handle_file_request`, whenever the length guard passes (length of
web root + length of URI + 12 at most `PATH_MAX`), each of the three writes
that build the path (`strcpy` of the web root, `strcat` of the URI, `strcat` of
"index.html") stays, with its terminating NUL, inside the buffer of `PATH_MAX`
bytes; for a validated URI the path built is the candidate path, and it is the
only path the handler passes to `stat` and `fopen`.  Whenever the guard fails
the handler returns 404 and, but for sending the 404 page, leaves everything
as it was: no path is built and no file-system call is made. -/
theorem C23_path_fits (fs : List Byte → FsNode) (web_root request_uri : List Byte)
    (w : World) :
    (web_root.length + request_uri.length + 12 ≤ PATH_MAX →
      strcpy PATH_MAX web_root = .ok web_root
      ∧ strcat PATH_MAX web_root request_uri = .ok (web_root ++ request_uri)
      ∧ strcat PATH_MAX (web_root ++ request_uri) (bytes "index.html")
        = .ok (web_root ++ request_uri ++ bytes "index.html")
      ∧ (request_uri.head? = some 47 →
        file_path web_root request_uri = .ok (candidate_path web_root request_uri)
        ∧ (candidate_path web_root request_uri).length + 1 ≤ PATH_MAX
        ∧ ∃ s w2 evs, handle_file_request fs web_root request_uri w = .ok (s, w2)
          ∧ w2.trace = w.trace ++ evs
          ∧ ∀ e ∈ evs, e = Event.stat (candidate_path web_root request_uri)
            ∨ e = Event.fopen (candidate_path web_root request_uri)))
    ∧ (web_root.length + request_uri.length + 12 > PATH_MAX →
      handle_file_request fs web_root request_uri w
        = .ok (404,
            { w with clnt_w := w.clnt_w ++ (if w.clnt_ok then error_page 404 else []) })) := by
  have h10 : (bytes "index.html").length = 10 := by decide
  constructor
  · intro hlen
    have h1 : strcpy PATH_MAX web_root = .ok web_root := by
      rw [strcpy, if_pos (by omega)]
    have h2 : strcat PATH_MAX web_root request_uri = .ok (web_root ++ request_uri) := by
      rw [strcat, if_pos (by omega)]
    have h3 : strcat PATH_MAX (web_root ++ request_uri) (bytes "index.html")
        = .ok (web_root ++ request_uri ++ bytes "index.html") := by
      rw [strcat, if_pos (by rw [List.length_append, h10]; omega)]
    refine ⟨h1, h2, h3, ?_⟩
    intro hslash
    have hu : request_uri ≠ [] := by rintro rfl; simp at hslash
    have hne : (web_root ++ request_uri).length ≠ 0 := by
      cases request_uri with
      | nil => exact absurd rfl hu
      | cons c t => simp
    refine ⟨?_, ?_, ?_⟩
    · simp only [file_path, h1, h2, hne, if_false, h3]
      rw [← file_path_eq web_root request_uri hu]
      split <;> rfl
    · unfold candidate_path
      split
      · rw [List.length_append, List.length_append, h10]; omega
      · rw [List.length_append, List.length_append, List.length_nil]; omega
    · rw [handle_file_request_guarded fs web_root request_uri w hu hlen]
      by_cases hdir : fs (candidate_path web_root request_uri) = .dir
      · rw [if_pos hdir, send301_snd]
        exact ⟨_, _, [Event.stat (candidate_path web_root request_uri)], rfl, rfl,
          by simp⟩
      · rw [if_neg hdir]
        cases hfs : fs (candidate_path web_root request_uri) with
        | absent =>
          rw [send_error_status_snd]
          exact ⟨_, _, [Event.stat (candidate_path web_root request_uri),
            Event.fopen (candidate_path web_root request_uri)], rfl, by simp [World.log],
            by simp⟩
        | dir => exact absurd hfs hdir
        | file contents =>
          exact ⟨_, _, [Event.stat (candidate_path web_root request_uri),
            Event.fopen (candidate_path web_root request_uri)], rfl, rfl, by simp⟩
  · intro hlen
    exact handle_file_request_long fs web_root request_uri w hlen

/-- C23 at the web root `/www` and the URI `/`, where the guard passes and
"index.html" is appended, and at a web root of 4083 bytes and the URI `/x`,
where the guard fails. -/
theorem C23_path_fits_witness :
    (strcpy PATH_MAX (bytes "/www") = .ok (bytes "/www")
      ∧ strcat PATH_MAX (bytes "/www") (bytes "/") = .ok (bytes "/www" ++ bytes "/")
      ∧ strcat PATH_MAX (bytes "/www" ++ bytes "/") (bytes "index.html")
        = .ok (bytes "/www" ++ bytes "/" ++ bytes "index.html")
      ∧ file_path (bytes "/www") (bytes "/") = .ok (candidate_path (bytes "/www") (bytes "/"))
      ∧ (candidate_path (bytes "/www") (bytes "/")).length + 1 ≤ PATH_MAX)
    ∧ handle_file_request (fun _ => FsNode.file (bytes "hi")) (List.replicate 4083 119)
        (bytes "/x") (World.init [] [])
      = .ok (404,
          { World.init [] [] with
            clnt_w := [] ++ (if true then error_page 404 else []) }) :=
  ⟨⟨((C23_path_fits (fun _ => FsNode.absent) (bytes "/www") (bytes "/")
        (World.init [] [])).1 (by decide)).1,
    ((C23_path_fits (fun _ => FsNode.absent) (bytes "/www") (bytes "/")
        (World.init [] [])).1 (by decide)).2.1,
    ((C23_path_fits (fun _ => FsNode.absent) (bytes "/www") (bytes "/")
        (World.init [] [])).1 (by decide)).2.2.1,
    (((C23_path_fits (fun _ => FsNode.absent) (bytes "/www") (bytes "/")
        (World.init [] [])).1 (by decide)).2.2.2 (by decide)).1,
    (((C23_path_fits (fun _ => FsNode.absent) (bytes "/www") (bytes "/")
        (World.init [] [])).1 (by decide)).2.2.2 (by decide)).2.1⟩,
   (C23_path_fits (fun _ => FsNode.file (bytes "hi")) (List.replicate 4083 119) (bytes "/x")
      (World.init [] [])).2 (by rw [List.length_replicate]; decide)⟩

end HttpServer

namespace MdbLookupServer

/-- C6, as stated, fails on a store with a record whose name field holds no
NUL.  With fields of 16 and 24 bytes, the record has the name field filled with
sixteen bytes `a` and the message `hi`.  For the key `a` the server prints as
name the text that runs on into the message field, where the response of the
claim has the sixteen bytes of the name field. -/
theorem C6_counterexample :
    (List.replicate 16 97 ++ bytes "hi" ++ List.replicate 22 0).length = 16 + 24
    ∧ respond 16 (bytes "a") [List.replicate 16 97 ++ bytes "hi" ++ List.replicate 22 0]
        (World.init [])
      = .ok (true, { World.init [] with
          clnt_w := bytes "   1: \x7baaaaaaaaaaaaaaaahi\x7d said \x7bhi\x7d\n\n" })
    ∧ response 16 24 (bytes "a") [List.replicate 16 97 ++ bytes "hi" ++ List.replicate 22 0]
      = bytes "   1: \x7baaaaaaaaaaaaaaaa\x7d said \x7bhi\x7d\n\n" := by
  refine ⟨by decide, ?_, by decide⟩
  rfl

/-- C6, amended: for every store whose records hold a NUL inside the name field
and inside the message field, and every key, the response to one query (sent if
writes to the client succeed) is the concatenation, in store order, of one line
`%4d: {name} said {message}` for each record whose name or message contains
the key, numbered by the 1-based position of the record in the store, followed
by one blank line. -/
theorem C6_response (N M : Nat) (key : List Byte) (store : List (List Byte)) (w : World)
    (hwf : ∀ rec ∈ store, Terminated N M rec) :
    respond N key store w
      = .ok (w.clnt_ok,
          { w with clnt_w := w.clnt_w ++ (if w.clnt_ok then response N M key store else []) }) := by
  cases hok : w.clnt_ok with
  | true =>
    rw [respond_terminated N M key store w hok hwf]
    simp [hok]
  | false =>
    rw [respond_closed N M key store w hok hwf]
    cases w
    simp only at hok
    subst hok
    simp

/-- C6, amended, at the store that holds the one record `alice`, `hello world`
(fields of 16 and 24 bytes) and the key `hello`. -/
theorem C6_response_witness :
    (∀ rec ∈ [bytes "alice" ++ List.replicate 11 0 ++ (bytes "hello world" ++ List.replicate 13 0)],
      Terminated 16 24 rec)
    ∧ respond 16 (bytes "hello")
        [bytes "alice" ++ List.replicate 11 0 ++ (bytes "hello world" ++ List.replicate 13 0)]
        (World.init [])
      = .ok (true, { World.init [] with
          clnt_w := bytes "   1: \x7balice\x7d said \x7bhello world\x7d\n\n" }) :=
  ⟨by decide,
    C6_response 16 24 (bytes "hello")
      [bytes "alice" ++ List.replicate 11 0 ++ (bytes "hello world" ++ List.replicate 13 0)]
      (World.init []) (by decide)⟩

/-- C7: for a query line `k` followed by LF or by CR LF, where `k` has no CR, LF
or NUL byte, the key the server matches with is the first min(5, |k|) bytes of
`k`, whatever the length of `k` and whatever follows the line in the stream:
it is the key cleaned from what `fgets` stored, and one round of the query loop
performs the search with this key and goes on right after the line. -/
theorem C7_key_truncation (N : Nat) (list : List (List Byte)) (fuel : Nat) (w : World)
    (k term rest : List Byte)
    (hk : ∀ c ∈ k, c ≠ 13 ∧ c ≠ 10 ∧ c ≠ 0)
    (hterm : term = bytes "\n" ∨ term = bytes "\r\n")
    (hr : w.clnt_r = k ++ term ++ rest) :
    (∃ line rest2, fgets 1024 w.clnt_r = some (line, rest2)
      ∧ clean_key line = .ok (k.take (min KeyMax k.length)))
    ∧ query_loop N list (fuel + 1) w =
        match respond N (k.take (min KeyMax k.length)) list { w with clnt_r := rest } with
        | .error e => .error e
        | .ok (false, w2) => .ok w2
        | .ok (true, w2) => query_loop N list fuel w2 := by
  have hmin : k.take (min KeyMax k.length) = k.take 5 := by
    rw [← List.take_take, List.take_length]
    rfl
  have h0 : (0 : Byte) ∉ k ++ term := by
    intro h
    rcases List.mem_append.1 h with h | h
    · exact (hk 0 h).2.2 rfl
    · rcases hterm with rfl | rfl <;> simp [bytes] at h
  have hl : IsLine (k ++ term) := by
    rw [isLine_iff]
    rcases hterm with rfl | rfl
    · exact ⟨k, rfl, fun h => (hk 10 h).2.1 rfl⟩
    · refine ⟨k ++ [13], by simp [bytes], ?_⟩
      intro h
      rcases List.mem_append.1 h with h | h
      · exact (hk 10 h).2.1 rfl
      · simp at h
  obtain ⟨line, rest2, key, hf, hkey, hkl, hd⟩ := query_round (k ++ term) rest hl h0
  rw [clean_key_line k term hk hterm] at hkl
  have hkey2 : key = k.take 5 := by
    injection hkl with h
    exact h.symm
  subst hkey2
  rw [hmin, hr]
  refine ⟨⟨line, rest2, hf, hkey⟩, ?_⟩
  simp only [query_loop, hr, hf, hkey, hd]

/-- C7 at the query line `abcdefgh` CR LF: the key is `abcde`. -/
theorem C7_key_truncation_witness :
    ∃ line rest2,
      fgets 1024 (World.init (bytes "abcdefgh" ++ bytes "\r\n" ++ bytes "next\n")).clnt_r
        = some (line, rest2)
      ∧ clean_key line = .ok (bytes "abcde") :=
  (C7_key_truncation 16 [] 0 (World.init (bytes "abcdefgh" ++ bytes "\r\n" ++ bytes "next\n"))
    (bytes "abcdefgh") (bytes "\r\n") (bytes "next\n") (by decide) (Or.inr rfl) rfl).1

/-- C8, as stated, fails on a line that holds a NUL byte.  The input has the two
lines `a` NUL LF and `b` LF; the store holds the record `alice`,
`hello world`, with both fields terminated.  The end of the first line is not
seen behind the NUL, the second line is read and dropped in its place, and the
server sends one response (that for the key `a`) for the two lines, where one
response for each line is the text of the last equation. -/
theorem C8_counterexample :
    IsLine (bytes "a\x00\n") ∧ IsLine (bytes "b\n")
    ∧ Terminated 16 24
        (bytes "alice" ++ List.replicate 11 0 ++ (bytes "hello world" ++ List.replicate 13 0))
    ∧ query_loop 16
        [bytes "alice" ++ List.replicate 11 0 ++ (bytes "hello world" ++ List.replicate 13 0)]
        ((bytes "a\x00\n" ++ bytes "b\n").length + 1)
        (World.init (bytes "a\x00\n" ++ bytes "b\n"))
      = .ok { World.init [] with
          clnt_w := bytes "   1: \x7balice\x7d said \x7bhello world\x7d\n\n" }
    ∧ response 16 24 (bytes "a")
        [bytes "alice" ++ List.replicate 11 0 ++ (bytes "hello world" ++ List.replicate 13 0)]
        ++ response 16 24 (bytes "b")
        [bytes "alice" ++ List.replicate 11 0 ++ (bytes "hello world" ++ List.replicate 13 0)]
      = bytes "   1: \x7balice\x7d said \x7bhello world\x7d\n\n\n" := by
  refine ⟨by decide, by decide, by decide, ?_, by decide⟩
  rfl

/-- C8, amended: for every input stream made of newline-terminated lines that
hold no NUL byte, of any length, and a store of records with terminated fields
(writes to the client succeeding), the query loop ends at the end of the input
and has sent exactly one response for each line, in order: the response for
the cleaned key of that line. -/
theorem C8_one_response_per_line (N M : Nat) (store : List (List Byte))
    (lines : List (List Byte)) (w : World)
    (hwf : ∀ rec ∈ store, Terminated N M rec)
    (hl : ∀ l ∈ lines, IsLine l ∧ 0 ∉ l)
    (hok : w.clnt_ok = true) (hr : w.clnt_r = lines.flatten) :
    ∃ keys, List.Forall₂ (fun l k => clean_key l = .ok k) lines keys
      ∧ query_loop N store (w.clnt_r.length + 1) w
        = .ok { w with
            clnt_r := []
            clnt_w := w.clnt_w ++ (keys.map (fun k => response N M k store)).flatten } := by
  apply query_loop_lines N M store hwf lines hl _ w hok hr
  have := length_le_length_flatten lines (fun l h => isLine_length_pos l (hl l h).1)
  rw [hr]
  omega

/-- C8, amended, at the input of the two lines `hello` and `zzz`: two
responses, the second one empty. -/
theorem C8_one_response_per_line_witness :
    ∃ keys, List.Forall₂ (fun l k => clean_key l = .ok k) [bytes "hello\n", bytes "zzz\n"] keys
      ∧ query_loop 16
          [bytes "alice" ++ List.replicate 11 0 ++ (bytes "hello world" ++ List.replicate 13 0)]
          ((World.init (bytes "hello\nzzz\n")).clnt_r.length + 1)
          (World.init (bytes "hello\nzzz\n"))
        = .ok { World.init (bytes "hello\nzzz\n") with
            clnt_r := []
            clnt_w := (World.init (bytes "hello\nzzz\n")).clnt_w ++ (keys.map (fun k => response 16 24 k
              [bytes "alice" ++ List.replicate 11 0
                ++ (bytes "hello world" ++ List.replicate 13 0)])).flatten } :=
  C8_one_response_per_line 16 24
    [bytes "alice" ++ List.replicate 11 0 ++ (bytes "hello world" ++ List.replicate 13 0)]
    [bytes "hello\n", bytes "zzz\n"] (World.init (bytes "hello\nzzz\n"))
    (by decide) (by decide) rfl (by decide)

/-- C9: for a database file of `n * S + r` bytes, with `S` the size of a record
and `r < S`, loading yields exactly `n` records, the `i`-th being the bytes
from `i * S` up to `(i + 1) * S` of the file, in file order; the `r` bytes of a
truncated last record are dropped, and the handler serves the queries against
those `n` records. -/
theorem C9_load (N M n r : Nat) (file : List Byte) (w : World)
    (hr : r < sizeof_MdbRec N M) (hlen : file.length = n * sizeof_MdbRec N M + r) :
    load (file.length + 1) (sizeof_MdbRec N M) file []
        = .ok ((List.range n).map
            (fun i => (file.drop (i * sizeof_MdbRec N M)).take (sizeof_MdbRec N M)))
    ∧ ((List.range n).map
        (fun i => (file.drop (i * sizeof_MdbRec N M)).take (sizeof_MdbRec N M))).length = n
    ∧ handle_client N M (some file) w
        = query_loop N
            ((List.range n).map
              (fun i => (file.drop (i * sizeof_MdbRec N M)).take (sizeof_MdbRec N M)))
            (w.clnt_r.length + 1) w := by
  have hfuel : n < file.length + 1 := by
    have : n ≤ n * sizeof_MdbRec N M := Nat.le_mul_of_pos_right n (by omega)
    omega
  have hload := load_chunks (sizeof_MdbRec N M) r hr n file (file.length + 1) [] hlen hfuel
  rw [List.nil_append] at hload
  refine ⟨hload, by simp, ?_⟩
  simp only [handle_client, hload]

/-- C9 at a file of 43 bytes with records of 16 + 24 bytes: one record is
loaded, the three bytes that follow it are dropped. -/
theorem C9_load_witness :
    load ((bytes "alice" ++ List.replicate 11 0 ++ (bytes "hello world" ++ List.replicate 13 0)
            ++ bytes "bob").length + 1) (sizeof_MdbRec 16 24)
        (bytes "alice" ++ List.replicate 11 0 ++ (bytes "hello world" ++ List.replicate 13 0)
          ++ bytes "bob") []
      = .ok [bytes "alice" ++ List.replicate 11 0
          ++ (bytes "hello world" ++ List.replicate 13 0)] :=
  (C9_load 16 24 1 3
    (bytes "alice" ++ List.replicate 11 0 ++ (bytes "hello world" ++ List.replicate 13 0)
      ++ bytes "bob") (World.init []) (by decide) (by decide)).1

/-- C19, as stated, fails on records with a field that holds no NUL.  With
fields of 16 and 24 bytes: in the first record the name field is filled with
sixteen bytes `b` and the message is `hi`; the name the server reads has 18
bytes and runs on into the message field, and the key `bh`, which occurs in
neither field, matches the record.  In the second record the message field is
filled with 24 bytes `c`; reading the message leaves the record. -/
theorem C19_counterexample :
    (List.replicate 16 98 ++ bytes "hi" ++ List.replicate 22 0).length = 16 + 24
    ∧ cstr_at (List.replicate 16 98 ++ bytes "hi" ++ List.replicate 22 0) name_offset
      = .ok (List.replicate 16 98 ++ bytes "hi")
    ∧ ¬ (bytes "bh" <:+: (List.replicate 16 98 ++ bytes "hi" ++ List.replicate 22 0).take 16)
    ∧ ¬ (bytes "bh" <:+:
          ((List.replicate 16 98 ++ bytes "hi" ++ List.replicate 22 0).drop 16).take 24)
    ∧ search 16 (bytes "bh") [List.replicate 16 98 ++ bytes "hi" ++ List.replicate 22 0]
        1 (World.init [])
      = .ok (true, { World.init [] with
          clnt_w := bytes "   1: \x7bbbbbbbbbbbbbbbbbhi\x7d said \x7bhi\x7d\n" })
    ∧ (bytes "ab" ++ List.replicate 14 0 ++ List.replicate 24 99).length = 16 + 24
    ∧ cstr_at (bytes "ab" ++ List.replicate 14 0 ++ List.replicate 24 99) (msg_offset 16)
      = .error .oob
    ∧ search 16 (bytes "ab") [bytes "ab" ++ List.replicate 14 0 ++ List.replicate 24 99]
        1 (World.init [])
      = .error .oob := by
  refine ⟨by decide, rfl, by decide, by decide, rfl, by decide, rfl, rfl⟩

/-- C19, amended: for every record whose name field and message field each hold
a NUL terminator within their fixed width, the name and the message that the
lookup server matches and prints lie, with their terminators, inside their own
fields: the name does not extend into the message field, and the message does
not extend past the end of the record.  The search on that record matches the
key against these two texts and prints them and nothing else of the record. -/
theorem C19_fields_bounded (N M : Nat) (key rec : List Byte) (recNo : Nat) (w : World)
    (h : Terminated N M rec) :
    ∃ name msg,
      cstr_at rec name_offset = .ok name
      ∧ cstr_at rec (msg_offset N) = .ok msg
      ∧ name ++ [0] <+: rec.take N
      ∧ msg ++ [0] <+: (rec.drop N).take M
      ∧ search N key [rec] recNo w
        = .ok (if key <:+: name ∨ key <:+: msg then
            w.send (fmt_4d recNo ++ bytes ": \x7b" ++ name ++ bytes "\x7d said \x7b"
              ++ msg ++ bytes "\x7d\n")
          else (true, w)) := by
  obtain ⟨h1, h2⟩ := cstr_at_terminated N M rec h
  exact ⟨rec_name N rec, rec_msg N M rec, h1, h2, cstr_nul_isPrefix _ h.1,
    cstr_nul_isPrefix _ h.2, search_one N M key rec recNo w h⟩

/-- C19, amended, at a record with fields of 16 and 24 bytes, the name `alice`
and the message `hello world`, and the key `hello`. -/
theorem C19_fields_bounded_witness :
    Terminated 16 24
      (bytes "alice" ++ List.replicate 11 0 ++ (bytes "hello world" ++ List.replicate 13 0))
    ∧ ∃ name msg,
      cstr_at (bytes "alice" ++ List.replicate 11 0
          ++ (bytes "hello world" ++ List.replicate 13 0)) name_offset = .ok name
      ∧ cstr_at (bytes "alice" ++ List.replicate 11 0
          ++ (bytes "hello world" ++ List.replicate 13 0)) (msg_offset 16) = .ok msg
      ∧ name ++ [0] <+: (bytes "alice" ++ List.replicate 11 0
          ++ (bytes "hello world" ++ List.replicate 13 0)).take 16
      ∧ msg ++ [0] <+: ((bytes "alice" ++ List.replicate 11 0
          ++ (bytes "hello world" ++ List.replicate 13 0)).drop 16).take 24
      ∧ search 16 (bytes "hello") [bytes "alice" ++ List.replicate 11 0
          ++ (bytes "hello world" ++ List.replicate 13 0)] 3 (World.init [])
        = .ok (if bytes "hello" <:+: name ∨ bytes "hello" <:+: msg then
            (World.init []).send (fmt_4d 3 ++ bytes ": \x7b" ++ name ++ bytes "\x7d said \x7b"
              ++ msg ++ bytes "\x7d\n")
          else (true, World.init [])) :=
  ⟨by decide, C19_fields_bounded 16 24 (bytes "hello")
    (bytes "alice" ++ List.replicate 11 0 ++ (bytes "hello world" ++ List.replicate 13 0))
    3 (World.init []) (by decide)⟩

/-- C24 fails at a query line whose first byte is NUL.  The client sends the
line NUL `abc` LF.  `fgets` stores the whole line; read as a C string it is
empty, so the key copied from it is empty and `strlen(key) - 1` is -1 when the
test for a trailing newline indexes `key` with it; the loop that reads on to
the newline indexes `line` with `strlen(line) - 1` in the same way.  Both
accesses are outside the buffers, and handling this client ends there. -/
theorem C24_nul_first_line :
    fgets 1024 (bytes "\x00abc\n") = some (bytes "\x00abc\n", [])
    ∧ cstr (bytes "\x00abc\n") = []
    ∧ clean_key (bytes "\x00abc\n") = .error .oob
    ∧ drain 1 (bytes "\x00abc\n") [] = .error .oob
    ∧ handle_client 16 24 (some []) (World.init (bytes "\x00abc\n")) = .error .oob := by
  refine ⟨by decide, by decide, rfl, rfl, rfl⟩

end MdbLookupServer

namespace MdbAdd

/-- C18, as stated, fails on a name with a character that is not printable.
With fields of 16 and 24 bytes and an empty database, the name line `a` TAB `b`
and the message line `hi` are entered; the record written to the file, which
the lookup server loads as the one record of the store, has the name `a b`,
with a space in the place of the TAB, and not the name that was entered. -/
theorem C18_counterexample :
    main 16 24 { stdin := bytes "a\tb\n" ++ bytes "hi\n", stdout := [], file := [] }
      = .ok (0,
          { stdin := []
            stdout := bytes "name please (will truncate to 15 chars): "
              ++ bytes "msg please (will truncate to 23 chars): "
              ++ bytes "   1: \x7ba\tb\x7d said \x7bhi\x7d\n"
            file := bytes "a b" ++ List.replicate 13 0 ++ (bytes "hi" ++ List.replicate 22 0) })
    ∧ MdbLookupServer.load
        ((bytes "a b" ++ List.replicate 13 0 ++ (bytes "hi" ++ List.replicate 22 0)).length + 1)
        (MdbLookupServer.sizeof_MdbRec 16 24)
        (bytes "a b" ++ List.replicate 13 0 ++ (bytes "hi" ++ List.replicate 22 0)) []
      = .ok [bytes "a b" ++ List.replicate 13 0 ++ (bytes "hi" ++ List.replicate 22 0)]
    ∧ MdbLookupServer.rec_name 16
        (bytes "a b" ++ List.replicate 13 0 ++ (bytes "hi" ++ List.replicate 22 0))
      = bytes "a b"
    ∧ bytes "a b" ≠ (bytes "a\tb").take (16 - 1) := by
  refine ⟨rfl, rfl, by decide, by decide⟩

/-- C18, amended: for fields of `N` and `M` bytes (between 2 and 1024), a
database file made of whole records, and a name line and a message line
(of any length) without NUL byte, mdb-add exits with status 0 having appended
one record to the file and read both lines to their newlines; when the lookup
server reloads the file, it gets the records of the old file followed by that
record, whose two fields are NUL-terminated, whose name is the entered name
(without its newline) truncated to `N - 1` bytes with every byte that is not
printable replaced by a space, and whose message is the entered message
truncated to `M - 1` bytes with the same replacement; for a name or message
made of printable characters it is the truncated text itself. -/
theorem C18_round_trip (N M n : Nat) (name msg rest : List Byte) (w : World)
    (hN : 2 ≤ N ∧ N ≤ 1024) (hM : 2 ≤ M ∧ M ≤ 1024)
    (hfile : w.file.length = n * MdbLookupServer.sizeof_MdbRec N M)
    (hname : 10 ∉ name ∧ 0 ∉ name) (hmsg : 10 ∉ msg ∧ 0 ∉ msg)
    (hin : w.stdin = name ++ bytes "\n" ++ (msg ++ bytes "\n" ++ rest)) :
    ∃ w2 old rec, main N M w = .ok (0, w2)
      ∧ w2.stdin = rest
      ∧ w2.file = w.file ++ rec
      ∧ MdbLookupServer.load (w.file.length + 1) (MdbLookupServer.sizeof_MdbRec N M) w.file []
        = .ok old
      ∧ MdbLookupServer.load (w2.file.length + 1) (MdbLookupServer.sizeof_MdbRec N M) w2.file []
        = .ok (old ++ [rec])
      ∧ MdbLookupServer.Terminated N M rec
      ∧ MdbLookupServer.rec_name N rec = blanked (name.take (N - 1))
      ∧ MdbLookupServer.rec_msg N M rec = blanked (msg.take (M - 1))
      ∧ ((∀ c ∈ name, 32 ≤ c ∧ c ≤ 126) → MdbLookupServer.rec_name N rec = name.take (N - 1))
      ∧ ((∀ c ∈ msg, 32 ≤ c ∧ c ≤ 126) → MdbLookupServer.rec_msg N M rec = msg.take (M - 1)) := by
  have hin2 : w.stdin = name ++ 10 :: (msg ++ 10 :: rest) := by
    rw [hin]
    simp [bytes]
  have hrun := main_lines N M n name msg rest w hN.1 hN.2 hM.1 hM.2 hfile hname.1 hname.2
    hmsg.1 hmsg.2 hin2
  have hS : 0 < MdbLookupServer.sizeof_MdbRec N M := by
    simp only [MdbLookupServer.sizeof_MdbRec]; omega
  have hle : n ≤ n * MdbLookupServer.sizeof_MdbRec N M := Nat.le_mul_of_pos_right n hS
  have hold := MdbLookupServer.load_chunks (MdbLookupServer.sizeof_MdbRec N M) 0 hS n w.file
    (w.file.length + 1) [] hfile (by omega)
  have hnl : (blanked (name.take (N - 1))).length < N := by
    rw [blanked_length, List.length_take]; omega
  have hml : (blanked (msg.take (M - 1))).length < M := by
    rw [blanked_length, List.length_take]; omega
  have hfn := field_of_length N _ (Nat.le_of_lt hnl)
  have hfm := field_of_length M _ (Nat.le_of_lt hml)
  have hname2 : MdbLookupServer.rec_name N
      (field_of N (blanked (name.take (N - 1))) ++ field_of M (blanked (msg.take (M - 1))))
      = blanked (name.take (N - 1)) := by
    rw [MdbLookupServer.rec_name, take_left_of_length _ _ N hfn,
      cstr_field_of N _ (blanked_no_nul _) hnl]
  have hmsg2 : MdbLookupServer.rec_msg N M
      (field_of N (blanked (name.take (N - 1))) ++ field_of M (blanked (msg.take (M - 1))))
      = blanked (msg.take (M - 1)) := by
    rw [MdbLookupServer.rec_msg, drop_left_of_length _ _ N hfn,
      List.take_of_length_le (Nat.le_of_eq hfm), cstr_field_of M _ (blanked_no_nul _) hml]
  refine ⟨_, _, _, hrun, rfl, rfl, hold, ?_, ?_, hname2, hmsg2, ?_, ?_⟩
  · rw [List.nil_append]
    exact load_appended _ n w.file _ hS hfile
      (by rw [List.length_append, hfn, hfm]; rfl)
  · constructor
    · rw [take_left_of_length _ _ N hfn]
      exact nul_mem_field_of N _ hnl
    · rw [drop_left_of_length _ _ N hfn, List.take_of_length_le (Nat.le_of_eq hfm)]
      exact nul_mem_field_of M _ hml
  · intro hp
    rw [hname2, blanked_of_printable _ (fun c hc => hp c (List.mem_of_mem_take hc))]
  · intro hp
    rw [hmsg2, blanked_of_printable _ (fun c hc => hp c (List.mem_of_mem_take hc))]

/-- C18, amended, at fields of 16 and 24 bytes, an empty database, the name
`alice` and a message of 30 bytes, which is cut to 23 bytes. -/
theorem C18_round_trip_witness :
    ∃ w2 old rec,
      main 16 24
        { stdin := bytes "alice" ++ bytes "\n"
            ++ (bytes "hello world, this is too long." ++ bytes "\n" ++ [])
          stdout := [], file := [] } = .ok (0, w2)
      ∧ w2.stdin = []
      ∧ w2.file = [] ++ rec
      ∧ MdbLookupServer.load (([] : List Byte).length + 1)
          (MdbLookupServer.sizeof_MdbRec 16 24) [] [] = .ok old
      ∧ MdbLookupServer.load (w2.file.length + 1) (MdbLookupServer.sizeof_MdbRec 16 24)
          w2.file [] = .ok (old ++ [rec])
      ∧ MdbLookupServer.Terminated 16 24 rec
      ∧ MdbLookupServer.rec_name 16 rec = blanked ((bytes "alice").take (16 - 1))
      ∧ MdbLookupServer.rec_msg 16 24 rec
        = blanked ((bytes "hello world, this is too long.").take (24 - 1))
      ∧ ((∀ c ∈ bytes "alice", 32 ≤ c ∧ c ≤ 126) →
          MdbLookupServer.rec_name 16 rec = (bytes "alice").take (16 - 1))
      ∧ ((∀ c ∈ bytes "hello world, this is too long.", 32 ≤ c ∧ c ≤ 126) →
          MdbLookupServer.rec_msg 16 24 rec
            = (bytes "hello world, this is too long.").take (24 - 1)) :=
  C18_round_trip 16 24 0 (bytes "alice") (bytes "hello world, this is too long.") []
    { stdin := bytes "alice" ++ bytes "\n"
        ++ (bytes "hello world, this is too long." ++ bytes "\n" ++ [])
      stdout := [], file := [] }
    (by decide) (by decide) rfl (by decide) (by decide) rfl

end MdbAdd

/-- C20, as stated, fails on a failed `accept`, `fork`, `fdopen` or address
conversion: each ends the server process through `die`, with exit status 1,
and the connections that follow are not accepted.  In the HTTP server: a failed
`accept` at the first of two attempts; a failed `inet_ntop`; a failed `fdopen`
in `handle_client`.  In the lookup server: a failed `accept` and a failed
`fork` in the parent. -/
theorem C20_counterexample :
    HttpServer.accept_loop (fun _ => .absent) (bytes "/www")
        [{ accept_ok := false, ntop_ok := true, fdopen_r_ok := true, fdopen_w_ok := true,
           clnt_r := [], clnt_ok := true, mdb_ok := true },
         { accept_ok := true, ntop_ok := true, fdopen_r_ok := true, fdopen_w_ok := true,
           clnt_r := bytes "GET / HTTP/1.0\r\n\r\n", clnt_ok := true, mdb_ok := true }]
        { mdb_w := [], mdb_r := [], trace := [], served := [] }
      = .ok (some 1, { mdb_w := [], mdb_r := [], trace := [], served := [] })
    ∧ HttpServer.accept_loop (fun _ => .absent) (bytes "/www")
        [{ accept_ok := true, ntop_ok := false, fdopen_r_ok := true, fdopen_w_ok := true,
           clnt_r := bytes "GET / HTTP/1.0\r\n\r\n", clnt_ok := true, mdb_ok := true }]
        { mdb_w := [], mdb_r := [], trace := [], served := [] }
      = .ok (some 1, { mdb_w := [], mdb_r := [], trace := [], served := [] })
    ∧ HttpServer.accept_loop (fun _ => .absent) (bytes "/www")
        [{ accept_ok := true, ntop_ok := true, fdopen_r_ok := false, fdopen_w_ok := true,
           clnt_r := bytes "GET / HTTP/1.0\r\n\r\n", clnt_ok := true, mdb_ok := true }]
        { mdb_w := [], mdb_r := [], trace := [], served := [] }
      = .ok (some 1, { mdb_w := [], mdb_r := [], trace := [], served := [] })
    ∧ MdbLookupServer.accept_loop 16 24
        [{ accept_ok := false, fork_ok := true, ntop_ok := true, fdopen_ok := true,
           mdb_file := some [], clnt_r := bytes "k\n", clnt_ok := true },
         { accept_ok := true, fork_ok := true, ntop_ok := true, fdopen_ok := true,
           mdb_file := some [], clnt_r := bytes "k\n", clnt_ok := true }] []
      = (some 1, [])
    ∧ MdbLookupServer.accept_loop 16 24
        [{ accept_ok := true, fork_ok := false, ntop_ok := true, fdopen_ok := true,
           mdb_file := some [], clnt_r := bytes "k\n", clnt_ok := true }] []
      = (some 1, []) := by
  refine ⟨rfl, rfl, rfl, rfl, rfl⟩

/-- C20, amended: in the HTTP server, when `accept`, the address conversion and
the two `fdopen` calls succeed at every connection attempt, the accept loop
handles every client and goes on to accept the next, whatever the clients send
and whichever writes to a client or to the backend fail; in the lookup server,
when `accept` and `fork` succeed at every attempt, the parent forks a child for
each and goes on to accept the next, whatever happens in the children (failed
address conversion, `fdopen`, opening of the database, client I/O).  A failed
`accept`, address conversion or `fdopen` in the HTTP server, and a failed
`accept` or `fork` in the parent of the lookup server, end the process with
exit status 1. -/
theorem C20_accept_loop (fs : List Byte → HttpServer.FsNode) (web_root : List Byte)
    (conns : List HttpServer.Conn) (s : HttpServer.Server) (N M : Nat)
    (lconns : List MdbLookupServer.Conn)
    (children : List (Except Err (Nat × MdbLookupServer.World)))
    (h1 : ∀ c ∈ conns, c.accept_ok = true ∧ c.ntop_ok = true ∧ c.fdopen_r_ok = true
      ∧ c.fdopen_w_ok = true)
    (h2 : ∀ c ∈ lconns, c.accept_ok = true ∧ c.fork_ok = true) :
    (∃ s2, HttpServer.accept_loop fs web_root conns s = .ok (none, s2)
      ∧ s2.served.length = s.served.length + conns.length)
    ∧ MdbLookupServer.accept_loop N M lconns children
      = (none, children ++ lconns.map (MdbLookupServer.child N M))
    ∧ (∀ c more, (c.accept_ok = false ∨ c.ntop_ok = false ∨ c.fdopen_r_ok = false
          ∨ c.fdopen_w_ok = false) →
        HttpServer.accept_loop fs web_root (c :: more) s = .ok (some 1, s))
    ∧ (∀ c more, (c.accept_ok = false ∨ c.fork_ok = false) →
        MdbLookupServer.accept_loop N M (c :: more) children = (some 1, children)) :=
  ⟨HttpServer.accept_loop_runs fs web_root conns s h1,
    MdbLookupServer.parent_loop_runs N M lconns children h2,
    fun c more h => HttpServer.accept_loop_dies fs web_root c more s h,
    fun c more h => MdbLookupServer.parent_loop_dies N M c more children h⟩

/-- C20, amended, at an HTTP server with two clients, the first of which does
not accept writes and the second of which asks for a lookup while the backend
cannot be written to, and at a lookup server with two clients, for the first of
which the address conversion fails in the child and for the second of which
the database cannot be opened. -/
theorem C20_accept_loop_witness :
    (∃ s2, HttpServer.accept_loop (fun _ => .absent) (bytes "/www")
        [{ accept_ok := true, ntop_ok := true, fdopen_r_ok := true, fdopen_w_ok := true,
           clnt_r := bytes "GET / HTTP/1.0\r\n\r\n", clnt_ok := false, mdb_ok := true },
         { accept_ok := true, ntop_ok := true, fdopen_r_ok := true, fdopen_w_ok := true,
           clnt_r := bytes "GET /mdb-lookup?key=k HTTP/1.0\r\n\r\n", clnt_ok := true,
           mdb_ok := false }]
        { mdb_w := [], mdb_r := [], trace := [], served := [] } = .ok (none, s2)
      ∧ s2.served.length = 0 + 2)
    ∧ MdbLookupServer.accept_loop 16 24
        [{ accept_ok := true, fork_ok := true, ntop_ok := false, fdopen_ok := true,
           mdb_file := some [], clnt_r := bytes "k\n", clnt_ok := true },
         { accept_ok := true, fork_ok := true, ntop_ok := true, fdopen_ok := true,
           mdb_file := none, clnt_r := bytes "k\n", clnt_ok := true }] []
      = (none,
          [MdbLookupServer.child 16 24
            { accept_ok := true, fork_ok := true, ntop_ok := false, fdopen_ok := true,
              mdb_file := some [], clnt_r := bytes "k\n", clnt_ok := true },
           MdbLookupServer.child 16 24
            { accept_ok := true, fork_ok := true, ntop_ok := true, fdopen_ok := true,
              mdb_file := none, clnt_r := bytes "k\n", clnt_ok := true }]) :=
  ⟨(C20_accept_loop (fun _ => .absent) (bytes "/www")
      [{ accept_ok := true, ntop_ok := true, fdopen_r_ok := true, fdopen_w_ok := true,
         clnt_r := bytes "GET / HTTP/1.0\r\n\r\n", clnt_ok := false, mdb_ok := true },
       { accept_ok := true, ntop_ok := true, fdopen_r_ok := true, fdopen_w_ok := true,
         clnt_r := bytes "GET /mdb-lookup?key=k HTTP/1.0\r\n\r\n", clnt_ok := true,
         mdb_ok := false }]
      { mdb_w := [], mdb_r := [], trace := [], served := [] } 16 24
      [{ accept_ok := true, fork_ok := true, ntop_ok := false, fdopen_ok := true,
         mdb_file := some [], clnt_r := bytes "k\n", clnt_ok := true },
       { accept_ok := true, fork_ok := true, ntop_ok := true, fdopen_ok := true,
         mdb_file := none, clnt_r := bytes "k\n", clnt_ok := true }] []
      (by simp) (by simp)).1,
   (C20_accept_loop (fun _ => .absent) (bytes "/www")
      [{ accept_ok := true, ntop_ok := true, fdopen_r_ok := true, fdopen_w_ok := true,
         clnt_r := bytes "GET / HTTP/1.0\r\n\r\n", clnt_ok := false, mdb_ok := true },
       { accept_ok := true, ntop_ok := true, fdopen_r_ok := true, fdopen_w_ok := true,
         clnt_r := bytes "GET /mdb-lookup?key=k HTTP/1.0\r\n\r\n", clnt_ok := true,
         mdb_ok := false }]
      { mdb_w := [], mdb_r := [], trace := [], served := [] } 16 24
      [{ accept_ok := true, fork_ok := true, ntop_ok := false, fdopen_ok := true,
         mdb_file := some [], clnt_r := bytes "k\n", clnt_ok := true },
       { accept_ok := true, fork_ok := true, ntop_ok := true, fdopen_ok := true,
         mdb_file := none, clnt_r := bytes "k\n", clnt_ok := true }] []
      (by simp) (by simp)).2.1⟩

end Labs
